import Mathlib

/-!
# Fantasy Handicapper League: market maker and ranking system

A shallow embedding of `server/src/utils/marketMaker.js`,
`server/src/utils/rankingSystem.js`, the create, place-bet and resolve routes
of `server/src/routes/marketContracts.js` with their validation middleware,
and `getActivePositions` of `server/src/controllers/userStatsController.js`.

JavaScript numbers are embedded as exact rationals (`ℚ`); integer database
columns (`INTEGER`) are embedded as `ℤ`; JavaScript strings are `String`.
Division is the field division of `ℚ`; it agrees with JavaScript division
whenever the divisor is non-zero (JavaScript yields `Infinity` or `NaN` at a
zero divisor, `ℚ` yields `0`), and the theorems below about a quotient record
the conditions under which its divisor is non-zero.

The embedding over `ℚ` computes every sum, product and quotient exactly. The
running program computes in IEEE 754 binary64 and rounds after every
operation, so the functions of `marketMaker.js` are embedded a second time, in
the namespace `Binary64`, over a model of binary64 numbers with rounding to
nearest, overflow, underflow, signed zeros, infinities and `NaN`. An equation
proved over `ℚ` holds for the program on every input on which no operation
rounds; a strict inequality or an equivalence proved over `ℚ` is a statement
about exact arithmetic, and where rounding breaks it for the program the
failing input is evaluated in the binary64 embedding.

Every table is a list of rows in scan order; a query or update is a function
on that list, and a request is served as one uninterrupted step. A statement
that violates a `CHECK` constraint fails; other database errors and timestamps
are not modelled. `PRIMARY KEY` constraints appear as hypotheses that the keys
of a table are distinct where a theorem depends on them.
-/

namespace FantasyHandicapper

/-! ## marketMaker.js -/

/-- Probability of YES from the pool sizes (`marketMaker.js`, lines 12-15). -/
def calculateProbability (yesPool noPool : ℚ) : ℚ :=
  if yesPool + noPool = 0 then 1 / 2
  else yesPool / (yesPool + noPool)

/-- The object returned by `calculatePrice`. -/
structure PriceResult where
  shares : ℚ
  price : ℚ
  newYesPool : ℚ
  newNoPool : ℚ
  newProbability : ℚ
  deriving DecidableEq

/-- Quote for buying into a position (`marketMaker.js`, lines 37-69). -/
def calculatePrice (amount yesPool noPool : ℚ) (position : String) : PriceResult :=
  let probability := calculateProbability yesPool noPool
  if position = "yes" then
    let shares := amount / probability
    let newYesPool := yesPool + amount
    let newNoPool := noPool
    { shares := shares
      price := probability
      newYesPool := newYesPool
      newNoPool := newNoPool
      newProbability := calculateProbability newYesPool newNoPool }
  else
    let noProbability := 1 - probability
    let shares := amount / noProbability
    let newNoPool := noPool + amount
    let newYesPool := yesPool
    { shares := shares
      price := noProbability
      newYesPool := newYesPool
      newNoPool := newNoPool
      newProbability := calculateProbability newYesPool newNoPool }

/-- Potential payout of a position before resolution (`marketMaker.js`, lines 79-88). -/
def calculatePotentialPayout (shares yesPool noPool : ℚ) (position : String) : ℚ :=
  let totalPool := yesPool + noPool
  if totalPool = 0 then 0
  else if position = "yes" then (shares * totalPool) / (yesPool + shares)
  else (shares * totalPool) / (noPool + shares)

/-- Actual payout of a position at resolution (`marketMaker.js`, lines 98-103).
The parameter `totalPool` is accepted and never read, as in the source. -/
def calculateActualPayout (shares _totalPool : ℚ) (position resolution : String) : ℚ :=
  if position ≠ resolution then 0
  else shares

/-! ## rankingSystem.js -/

/-- A band of the `TIERS` table: `max = none` stands for `Infinity`. The
presentation fields `color` and `icon` are never read by the ranking code and
are left out. -/
structure TierData where
  min : ℤ
  max : Option ℤ
  deriving DecidableEq

/-- Tier definitions, in insertion order (`rankingSystem.js`, lines 4-12). -/
def TIERS : List (String × TierData) :=
  [ ("Rookie", { min := 0, max := some 100 }),
    ("Amateur", { min := 101, max := some 500 }),
    ("Semi-Pro", { min := 501, max := some 1500 }),
    ("Professional", { min := 1501, max := some 5000 }),
    ("Expert", { min := 5001, max := some 15000 }),
    ("Master", { min := 15001, max := some 50000 }),
    ("Legend", { min := 50001, max := none }) ]

/-- The loop test `points >= tierData.min && points <= tierData.max`. -/
def inBand (points : ℤ) (tierData : TierData) : Bool :=
  decide (points ≥ tierData.min) &&
    (match tierData.max with
     | some m => decide (points ≤ m)
     | none => true)

/-- Tier of a point total: the first band of `TIERS` containing the points,
`Rookie` when no band does (`rankingSystem.js`, lines 15-22). -/
def getTierFromPoints (points : ℤ) : String :=
  match TIERS.find? (fun entry => inBand points entry.2) with
  | some entry => entry.1
  | none => "Rookie"

/-- JavaScript `Math.round`: the nearest integer, ties rounded toward `+∞`. -/
def mathRound (x : ℚ) : ℤ := ⌊x + 1 / 2⌋

/-- Points for a bet result (`rankingSystem.js`, lines 25-41). -/
def calculateBetPoints (betResult : String) (betAmount odds : ℚ)
    (isUnderdog isHighConfidence : Bool) : ℤ :=
  let basePoints : ℚ :=
    if betResult = "win" then
      let b0 := 10 * odds
      let b1 := if isUnderdog = true ∧ odds > 2 then b0 * 3 else b0
      if isHighConfidence = true ∧ betAmount > 100 then b1 * 2 else b1
    else if betResult = "loss" then -5
    else 0
  mathRound basePoints

/-- Streak bonus (`rankingSystem.js`, lines 44-47). -/
def calculateStreakBonus (currentStreak : ℤ) : ℤ :=
  if currentStreak ≤ 0 then 0
  else min (currentStreak * 5) 50

/-- A row of the `user_rankings` table (`database.js`, lines 130-141). The
column `last_updated` is a timestamp that no ranking computation reads and is
left out. -/
structure UserRanking where
  user_id : ℤ
  tier : String
  rank_points : ℤ
  global_rank : ℤ
  tier_rank : ℤ
  win_streak : ℤ
  best_streak : ℤ
  loss_streak : ℤ
  deriving DecidableEq

/-- The query `SELECT * FROM user_rankings WHERE user_id = ?` read with `db.get`:
the first row with the given user id, if any (`rankingSystem.js`, lines 52-54). -/
def getRanking (table : List UserRanking) (userId : ℤ) : Option UserRanking :=
  table.find? (fun row => decide (row.user_id = userId))

/-- The values `updateUserRanking` computes for a row before writing it back;
the promise resolves with all of them but `newBestStreak`. -/
structure RankingValues where
  newTier : String
  totalPoints : ℤ
  newWinStreak : ℤ
  newBestStreak : ℤ
  newLossStreak : ℤ
  streakBonus : ℤ
  betPoints : ℤ
  deriving DecidableEq

/-- The computation of `updateUserRanking` on the row it has read
(`rankingSystem.js`, lines 77-103). -/
def computeRankingValues (ranking : UserRanking) (betResult : String)
    (betAmount odds : ℚ) : RankingValues :=
  let isUnderdog : Bool := decide (odds > 2)
  let isHighConfidence : Bool := decide (betAmount > 100)
  let betPoints := calculateBetPoints betResult betAmount odds isUnderdog isHighConfidence
  let newWinStreak : ℤ :=
    if betResult = "win" then ranking.win_streak + 1
    else if betResult = "loss" then 0
    else ranking.win_streak
  let newLossStreak : ℤ :=
    if betResult = "win" then 0
    else if betResult = "loss" then ranking.loss_streak + 1
    else ranking.loss_streak
  let newBestStreak : ℤ :=
    if betResult = "win" then
      (if newWinStreak > ranking.best_streak then newWinStreak else ranking.best_streak)
    else ranking.best_streak
  let streakBonus := calculateStreakBonus newWinStreak
  let totalPoints := ranking.rank_points + betPoints + streakBonus
  let newTier := getTierFromPoints totalPoints
  { newTier := newTier
    totalPoints := totalPoints
    newWinStreak := newWinStreak
    newBestStreak := newBestStreak
    newLossStreak := newLossStreak
    streakBonus := streakBonus
    betPoints := betPoints }

/-- The statement `UPDATE user_rankings SET tier = ?, rank_points = ?,
win_streak = ?, best_streak = ?, loss_streak = ? WHERE user_id = ?`
(`rankingSystem.js`, lines 106-108). -/
def writeRanking (table : List UserRanking) (userId : ℤ) (v : RankingValues) :
    List UserRanking :=
  table.map fun row =>
    if row.user_id = userId then
      { row with
        tier := v.newTier
        rank_points := v.totalPoints
        win_streak := v.newWinStreak
        best_streak := v.newBestStreak
        loss_streak := v.newLossStreak }
    else row

/-- The statement `UPDATE user_rankings SET global_rank = ?, tier_rank = ?
WHERE user_id = ?` (`rankingSystem.js`, lines 154-156). -/
def writeRanks (table : List UserRanking) (userId globalRank tierRank : ℤ) :
    List UserRanking :=
  table.map fun row =>
    if row.user_id = userId then
      { row with global_rank := globalRank, tier_rank := tierRank }
    else row

/-- The query `SELECT user_id, rank_points, tier FROM user_rankings ORDER BY
rank_points DESC` (`rankingSystem.js`, line 138). SQL leaves the order of rows
with equal points open; here they keep their table order, the order of the
user ids in a table built by `insertRanking`. -/
def selectByRankPointsDesc (table : List UserRanking) : List UserRanking :=
  table.insertionSort (fun a b => a.rank_points ≥ b.rank_points)

/-- JavaScript `Array.prototype.findIndex`: the index of the first element
satisfying the test, `-1` when there is none. -/
def findIndex {α : Type} (xs : List α) (p : α → Bool) : ℤ :=
  match xs.findIdx? p with
  | some i => (i : ℤ)
  | none => -1

/-- Recompute every global and tier rank (`rankingSystem.js`, lines 134-171). -/
def updateGlobalRankings (table : List UserRanking) : List UserRanking :=
  let users := selectByRankPointsDesc table
  users.enum.foldl
    (fun acc entry =>
      let index := entry.1
      let user := entry.2
      let globalRank : ℤ := (index : ℤ) + 1
      let sameTierUsers := users.filter (fun u => decide (u.tier = user.tier))
      let tierRank : ℤ :=
        findIndex sameTierUsers (fun u => decide (u.user_id = user.user_id)) + 1
      writeRanks acc user.user_id globalRank tierRank)
    table

/-- The row inserted for a user without a ranking (`rankingSystem.js`, lines 63-65). -/
def initialRanking (userId : ℤ) : UserRanking :=
  { user_id := userId
    tier := "Rookie"
    rank_points := 0
    global_rank := 0
    tier_rank := 0
    win_streak := 0
    best_streak := 0
    loss_streak := 0 }

/-- An `INSERT` of one row into `user_rankings`. The column `user_id` is the
`INTEGER PRIMARY KEY` of the table, so the rows are kept in the order of their
user ids, which is the order in which a scan of the table returns them. -/
def insertRanking (table : List UserRanking) (row : UserRanking) : List UserRanking :=
  table.orderedInsert (fun a b => a.user_id ≤ b.user_id) row

/-- Update a user ranking after a bet (`rankingSystem.js`, lines 50-131), with
a bound on the number of nested calls: a user without a row gets the initial
row and the function calls itself again. The result is the new table together
with the values the promise resolves with; `none` means the bound was
exhausted. Database errors are not modelled, and the parameter `category`,
which is only handed to the nested call, is left out. -/
def updateUserRankingFuel :
    Nat → List UserRanking → ℤ → String → ℚ → ℚ → Option (List UserRanking × RankingValues)
  | 0, _, _, _, _, _ => none
  | fuel + 1, table, userId, betResult, betAmount, odds =>
    match getRanking table userId with
    | none =>
      updateUserRankingFuel fuel (insertRanking table (initialRanking userId)) userId
        betResult betAmount odds
    | some ranking =>
      let v := computeRankingValues ranking betResult betAmount odds
      some (updateGlobalRankings (writeRanking table userId v), v)

/-- Update a user ranking after a bet: two calls always suffice, since the
second call finds the row the first one inserted. -/
def updateUserRanking (table : List UserRanking) (userId : ℤ) (betResult : String)
    (betAmount odds : ℚ) : Option (List UserRanking × RankingValues) :=
  updateUserRankingFuel 2 table userId betResult betAmount odds

/-- The columns of a ranking row that `updateGlobalRankings` never writes. -/
def coreColumns (row : UserRanking) : ℤ × String × ℤ × ℤ × ℤ × ℤ :=
  (row.user_id, row.tier, row.rank_points, row.win_streak, row.best_streak,
    row.loss_streak)

/-- The ranking rows inserted by `seedDatabase` (`database.js`, lines 360-367);
`loss_streak` is not listed by the statement and takes its default 0. -/
def seedRankings : List UserRanking :=
  [ { user_id := 1, tier := "Amateur", rank_points := 150, global_rank := 1,
      tier_rank := 1, win_streak := 3, best_streak := 5, loss_streak := 0 },
    { user_id := 2, tier := "Rookie", rank_points := 75, global_rank := 2,
      tier_rank := 1, win_streak := 1, best_streak := 2, loss_streak := 0 },
    { user_id := 3, tier := "Rookie", rank_points := 120, global_rank := 3,
      tier_rank := 2, win_streak := 2, best_streak := 3, loss_streak := 0 } ]

/-- The statement `INSERT OR IGNORE INTO user_rankings ...` of `seedDatabase`
(`database.js`, lines 361-367) run on a table: a seed row whose user id is
already present is skipped, the others are inserted. -/
def seedRankingsInto (table : List UserRanking) : List UserRanking :=
  seedRankings.foldl
    (fun acc row =>
      match getRanking acc row.user_id with
      | some _ => acc
      | none => insertRanking acc row)
    table

/-- The tables of `user_rankings` that the program can produce: the table is
created empty (`database.js`, lines 129-141), and its only writers are the
seeding statement of `seedDatabase`, `updateUserRanking` and
`updateGlobalRankings`. -/
inductive RankingsReachable : List UserRanking → Prop
  | created : RankingsReachable []
  | seeded (table : List UserRanking) :
    RankingsReachable table → RankingsReachable (seedRankingsInto table)
  | updated (table : List UserRanking) (userId : ℤ) (betResult : String)
    (betAmount odds : ℚ) (table2 : List UserRanking) (res : RankingValues) :
    RankingsReachable table →
    updateUserRanking table userId betResult betAmount odds = some (table2, res) →
    RankingsReachable table2
  | ranked (table : List UserRanking) :
    RankingsReachable table → RankingsReachable (updateGlobalRankings table)

/-! ## The store and `routes/marketContracts.js` -/

/-- A row of `users` (`database.js`, lines 13-19). Only the key and the
prediction-coin balance are read or written by the market routes. The balance
is a JavaScript number: the route subtracts the requested amount, which need
not be an integer. -/
structure User where
  id : ℤ
  prediction_coins : ℚ
  deriving DecidableEq

/-- A row of `market_contracts` (`database.js`, lines 24-40), without the
descriptive columns that the betting and resolution code never reads. -/
structure Contract where
  id : ℤ
  title : String
  status : String
  resolution : Option String
  current_yes_probability : ℚ
  liquidity_pool : ℚ
  yes_pool : ℚ
  no_pool : ℚ
  category : String
  deriving DecidableEq

/-- A row of `market_bets` (`database.js`, lines 45-58). -/
structure Bet where
  id : ℤ
  user_id : ℤ
  contract_id : ℤ
  position : String
  amount : ℚ
  shares : ℚ
  purchase_price : ℚ
  potential_payout : ℚ
  payout_amount : ℚ
  deriving DecidableEq

/-- A row of `contract_price_history` (`database.js`, lines 117-125). -/
structure PricePoint where
  contract_id : ℤ
  yes_probability : ℚ
  yes_pool : ℚ
  no_pool : ℚ
  deriving DecidableEq

/-- The tables the market routes read and write. -/
structure Store where
  users : List User
  market_contracts : List Contract
  market_bets : List Bet
  contract_price_history : List PricePoint
  deriving DecidableEq

/-- The query `SELECT * FROM market_contracts WHERE id = ?` read with `db.get`. -/
def getContract (contracts : List Contract) (contractId : ℤ) : Option Contract :=
  contracts.find? (fun c => decide (c.id = contractId))

/-- The query `SELECT prediction_coins FROM users WHERE id = ?` read with `db.get`. -/
def getUser (users : List User) (userId : ℤ) : Option User :=
  users.find? (fun u => decide (u.id = userId))

/-- The key an `AUTOINCREMENT` column gives to the next inserted bet: one more
than the largest key in use (bets are never deleted). -/
def nextBetId (bets : List Bet) : ℤ :=
  (bets.map (fun b => b.id)).foldl max 0 + 1

/-- The body of a successful place-bet response
(`marketContracts.js`, lines 209-220). -/
structure PlacedBet where
  id : ℤ
  userId : ℤ
  contractId : ℤ
  position : String
  amount : ℚ
  shares : ℚ
  price : ℚ
  potentialPayout : ℚ
  newProbability : ℚ
  deriving DecidableEq

/-- Responses of the place-bet route: an error status with its message, a
failed database statement (status 500), or the placed bet. -/
inductive BetResponse where
  | error (status : Nat) (message : String)
  | databaseError
  | placed (bet : PlacedBet)
  deriving DecidableEq

/-- The error list of `validateBetPlacement` (`validation.js`, lines 8-40) on a
body whose `userId` and `amount` are numbers and whose `position` is a
string. -/
def validateBetPlacement (userId : ℤ) (position : String) (amount : ℚ) : List String :=
  (if userId = 0 then ["userId must be a valid number"] else []) ++
  (if position = "" ∨ ¬ (position = "yes" ∨ position = "no")
    then ["position must be \"yes\" or \"no\""] else []) ++
  (if amount = 0 ∨ amount ≤ 0 then ["amount must be a positive number"] else []) ++
  (if amount ≠ 0 ∧ amount < 1 then ["minimum bet amount is 1 coin"] else []) ++
  (if amount ≠ 0 ∧ amount > 10000 then ["maximum bet amount is 10,000 coins"] else [])

/-- The handler of `POST /:id/bet` (`marketContracts.js`, lines 104-226).
The insert into `market_bets` fails on a position outside the column's `CHECK`
list. The statistics refresh queued at the end writes `user_statistics` only,
which is not part of the store. -/
def placeBet (s : Store) (contractId userId : ℤ) (position : String) (amount : ℚ) :
    Store × BetResponse :=
  match getContract s.market_contracts contractId with
  | none => (s, .error 404 "Contract not found")
  | some contract =>
    if contract.status ≠ "open" then (s, .error 400 "Contract is not open for betting")
    else
      match getUser s.users userId with
      | none => (s, .error 404 "User not found")
      | some user =>
        if user.prediction_coins < amount then
          (s, .error 400 "Insufficient prediction coins")
        else
          let priceResult := calculatePrice amount contract.yes_pool contract.no_pool position
          let potentialPayout := calculatePotentialPayout priceResult.shares
            priceResult.newYesPool priceResult.newNoPool position
          if ¬ (position = "yes" ∨ position = "no") then (s, .databaseError)
          else
            let lastID := nextBetId s.market_bets
            let bet : Bet :=
              { id := lastID
                user_id := userId
                contract_id := contractId
                position := position
                amount := amount
                shares := priceResult.shares
                purchase_price := priceResult.price
                potential_payout := potentialPayout
                payout_amount := 0 }
            let contracts := s.market_contracts.map fun c =>
              if c.id = contractId then
                { c with
                  yes_pool := priceResult.newYesPool
                  no_pool := priceResult.newNoPool
                  current_yes_probability := priceResult.newProbability }
              else c
            let point : PricePoint :=
              { contract_id := contractId
                yes_probability := priceResult.newProbability
                yes_pool := priceResult.newYesPool
                no_pool := priceResult.newNoPool }
            let users := s.users.map fun u =>
              if u.id = userId then
                { u with prediction_coins := u.prediction_coins - amount }
              else u
            ({ users := users
               market_contracts := contracts
               market_bets := s.market_bets ++ [bet]
               contract_price_history := s.contract_price_history ++ [point] },
             .placed
               { id := lastID
                 userId := userId
                 contractId := contractId
                 position := position
                 amount := amount
                 shares := priceResult.shares
                 price := priceResult.price
                 potentialPayout := potentialPayout
                 newProbability := priceResult.newProbability })

/-- The route `POST /:id/bet` with its middleware `validateContractId` and
`validateBetPlacement` in front of the handler (`marketContracts.js`, line 100). -/
def placeBetRoute (s : Store) (contractId userId : ℤ) (position : String) (amount : ℚ) :
    Store × BetResponse :=
  if contractId ≤ 0 then (s, .error 400 "Invalid contract ID")
  else if validateBetPlacement userId position amount ≠ [] then
    (s, .error 400 "Validation failed")
  else placeBet s contractId userId position amount

/-- A place-bet request. -/
structure BetRequest where
  contractId : ℤ
  userId : ℤ
  position : String
  amount : ℚ
  deriving DecidableEq

/-- The store after a sequence of place-bet requests, served one after another. -/
def placeBets (s : Store) (requests : List BetRequest) : Store :=
  requests.foldl
    (fun acc r => (placeBetRoute acc r.contractId r.userId r.position r.amount).1) s

/-- The rows inserted by `seedDatabase` into `users` and `market_contracts`
(`database.js`, lines 334-348): three users with 1000 prediction coins, two
open contracts and a closed one, each with pools 500/500; the probability
column takes its default 0.5 and no bet or price point is seeded. -/
def seedStore : Store :=
  { users :=
      [ { id := 1, prediction_coins := 1000 },
        { id := 2, prediction_coins := 1000 },
        { id := 3, prediction_coins := 1000 } ]
    market_contracts :=
      [ { id := 1, title := "Will it rain tomorrow?", status := "open",
          resolution := none, current_yes_probability := 1 / 2,
          liquidity_pool := 1000, yes_pool := 500, no_pool := 500,
          category := "weather" },
        { id := 2, title := "Will the stock market go up?", status := "open",
          resolution := none, current_yes_probability := 1 / 2,
          liquidity_pool := 1000, yes_pool := 500, no_pool := 500,
          category := "finance" },
        { id := 3, title := "Will the home team win?", status := "closed",
          resolution := none, current_yes_probability := 1 / 2,
          liquidity_pool := 1000, yes_pool := 500, no_pool := 500,
          category := "sports" } ]
    market_bets := []
    contract_price_history := [] }

/-- The body of a successful resolve response
(`marketContracts.js`, lines 323-329). -/
structure ResolveSummary where
  contractId : ℤ
  resolution : String
  totalPayouts : ℚ
  totalBets : Nat
  deriving DecidableEq

/-- Responses of the resolve route: an error status with its message, a failed
database statement (status 500), or the summary. -/
inductive ResolveResponse where
  | error (status : Nat) (message : String)
  | databaseError
  | resolved (summary : ResolveSummary)
  deriving DecidableEq

/-- One pass of the `bets.forEach` body of the resolve handler
(`marketContracts.js`, lines 274-301) on the store and the running
`totalPayouts`: the payout is written to the bet rows with the bet's key, and a
positive payout is credited to the user rows with the bet's user key. -/
def settleBet (resolution : String) (totalPool : ℚ) (acc : Store × ℚ) (bet : Bet) :
    Store × ℚ :=
  let actualPayout := calculateActualPayout bet.shares totalPool bet.position resolution
  let s1 : Store :=
    { acc.1 with
      market_bets := acc.1.market_bets.map fun b =>
        if b.id = bet.id then { b with payout_amount := actualPayout } else b }
  if actualPayout > 0 then
    ({ s1 with
       users := s1.users.map fun u =>
         if u.id = bet.user_id then
           { u with prediction_coins := u.prediction_coins + actualPayout }
         else u },
     acc.2 + actualPayout)
  else (s1, acc.2)

/-- The handler of `POST /:id/resolve` (`marketContracts.js`, lines 234-333).
The update of `market_contracts` fails on a resolution outside the column's
`CHECK` list. The contract row is read before the update and its status is not
inspected. The ranking updates, achievement checks and statistics refreshes
queued per bet run after the response is composed and write the ranking,
achievement and statistics tables only, which are not part of the store. -/
def resolveContract (s : Store) (contractId : ℤ) (resolution : String) :
    Store × ResolveResponse :=
  match getContract s.market_contracts contractId with
  | none => (s, .error 404 "Contract not found")
  | some contract =>
    if ¬ (resolution = "yes" ∨ resolution = "no") then (s, .databaseError)
    else
      let changes := (s.market_contracts.filter fun c => decide (c.id = contractId)).length
      let s1 : Store :=
        { s with
          market_contracts := s.market_contracts.map fun c =>
            if c.id = contractId then
              { c with status := "closed", resolution := some resolution }
            else c }
      if changes = 0 then (s1, .error 404 "Contract not found")
      else
        let bets := s1.market_bets.filter fun b => decide (b.contract_id = contractId)
        let totalPool := contract.yes_pool + contract.no_pool
        let out := bets.foldl (settleBet resolution totalPool) (s1, 0)
        (out.1,
         .resolved
           { contractId := contractId
             resolution := resolution
             totalPayouts := out.2
             totalBets := bets.length })

/-- The error list of `validateContractResolution` (`validation.js`, lines 86-102). -/
def validateContractResolution (resolution : String) : List String :=
  if resolution = "" ∨ ¬ (resolution = "yes" ∨ resolution = "no")
    then ["resolution must be \"yes\" or \"no\""] else []

/-- The route `POST /:id/resolve` with its middleware `validateContractId` and
`validateContractResolution` in front of the handler
(`marketContracts.js`, line 230). -/
def resolveContractRoute (s : Store) (contractId : ℤ) (resolution : String) :
    Store × ResolveResponse :=
  if contractId ≤ 0 then (s, .error 400 "Invalid contract ID")
  else if validateContractResolution resolution ≠ [] then
    (s, .error 400 "Validation failed")
  else resolveContract s contractId resolution

/-- The seeded store after user 2 has put 100 coins on yes and user 3 has then
put 100 coins on no, both on contract 1. -/
def twoBetStore : Store :=
  (placeBetRoute (placeBetRoute seedStore 1 2 "yes" 100).1 1 3 "no" 100).1

/-- The store `twoBetStore` after contract 1 has been resolved to yes. -/
def resolvedStore : Store :=
  (resolveContractRoute twoBetStore 1 "yes").1

/-- The 1-based position in `rows` of the first row with key `userId`, as
`findIndex(..) + 1` computes it (0 when there is no such row). -/
def rankIn (rows : List UserRanking) (userId : ℤ) : ℤ :=
  findIndex rows (fun u => decide (u.user_id = userId)) + 1

/-- The key an `AUTOINCREMENT` column gives to the next inserted contract: one
more than the largest key in use (contracts are never deleted). -/
def nextContractId (contracts : List Contract) : ℤ :=
  (contracts.map (fun c => c.id)).foldl max 0 + 1

/-- The body of a successful create response (`marketContracts.js`, lines 86-95). -/
structure CreatedContract where
  id : ℤ
  title : String
  description : String
  category : String
  status : String
  current_yes_probability : ℚ
  yes_pool : ℚ
  no_pool : ℚ
  deriving DecidableEq

/-- Responses of the create route: an error status with its message, a failed
database statement (status 500), or the created contract. -/
inductive CreateResponse where
  | error (status : Nat) (message : String)
  | databaseError
  | created (contract : CreatedContract)
  deriving DecidableEq

/-- The handler of `POST /` (`marketContracts.js`, lines 52-96): the insert
fails when the title is already taken (`UNIQUE`); otherwise the contract is
stored open with pools 500/500, liquidity 1000 and probability 0.5, and the
first price point is recorded. The creator and the closing date are written to
columns that are not part of the store's contract row. -/
def createContract (s : Store) (title description category : String) :
    Store × CreateResponse :=
  let initialPool : ℚ := 500
  let initialProbability : ℚ := 1 / 2
  if s.market_contracts.any (fun c => decide (c.title = title)) then (s, .databaseError)
  else
    let lastID := nextContractId s.market_contracts
    let contract : Contract :=
      { id := lastID
        title := title
        status := "open"
        resolution := none
        current_yes_probability := initialProbability
        liquidity_pool := initialPool * 2
        yes_pool := initialPool
        no_pool := initialPool
        category := category }
    let point : PricePoint :=
      { contract_id := lastID
        yes_probability := initialProbability
        yes_pool := initialPool
        no_pool := initialPool }
    ({ s with
       market_contracts := s.market_contracts ++ [contract]
       contract_price_history := s.contract_price_history ++ [point] },
     .created
       { id := lastID
         title := title
         description := description
         category := category
         status := "open"
         current_yes_probability := initialProbability
         yes_pool := initialPool
         no_pool := initialPool })

/-- The categories accepted by `validateContractCreation`. -/
def contractCategories : List String :=
  ["general", "sports", "politics", "entertainment", "finance", "weather", "technology"]

/-- The error list of `validateContractCreation` (`validation.js`, lines 45-81)
on a body whose `title` and `description` are strings; `category` is `none`
when the body has none, and `closingDateValid` tells whether the closing date is
absent or parses as a date. String lengths are counted in characters. -/
def validateContractCreation (title description : String) (category : Option String)
    (closingDateValid : Bool) : List String :=
  (if title = "" ∨ title.trim.length = 0
    then ["title is required and must be a non-empty string"] else []) ++
  (if title ≠ "" ∧ title.length > 200
    then ["title must be 200 characters or less"] else []) ++
  (if description ≠ "" ∧ description.length > 1000
    then ["description must be 1000 characters or less"] else []) ++
  (match category with
   | some c =>
     if c ≠ "" ∧ ¬ c ∈ contractCategories
       then ["category must be one of: general, sports, politics, entertainment, "
         ++ "finance, weather, technology"] else []
   | none => []) ++
  (if closingDateValid = false then ["closingDate must be a valid date"] else [])

/-- The route `POST /` with its middleware `validateContractCreation` in front
of the handler (`marketContracts.js`, line 51); a missing category defaults to
`general`. -/
def createContractRoute (s : Store) (title description : String)
    (category : Option String) (closingDateValid : Bool) : Store × CreateResponse :=
  if validateContractCreation title description category closingDateValid ≠ [] then
    (s, .error 400 "Validation failed")
  else createContract s title description (category.getD "general")

/-- A row returned by `getActivePositions`
(`userStatsController.js`, lines 104-137). -/
structure ActivePosition where
  id : ℤ
  contract_id : ℤ
  contract_title : String
  position : String
  amount : ℚ
  shares : ℚ
  purchase_price : ℚ
  current_yes_probability : ℚ
  yes_pool : ℚ
  no_pool : ℚ
  potential_payout : ℚ
  potential_profit : ℚ
  deriving DecidableEq

/-- The potential payout `getActivePositions` computes for a row
(`userStatsController.js`, lines 128-130). -/
def activePotentialPayout (shares yes_pool no_pool : ℚ) (position : String) : ℚ :=
  let totalPool := yes_pool + no_pool
  if totalPool > 0 then
    (shares * totalPool) / (if position = "yes" then yes_pool else no_pool)
  else 0

/-- Active positions of a user (`userStatsController.js`, lines 101-143): the
user's bets joined with their contract when it is open, each with its
potential payout and profit. The rows are listed newest key first; the order
by creation time is not modelled further. -/
def getActivePositions (s : Store) (userId : ℤ) : List ActivePosition :=
  (s.market_bets.reverse.filter fun mb => decide (mb.user_id = userId)).filterMap fun mb =>
    match getContract s.market_contracts mb.contract_id with
    | none => none
    | some mc =>
      if mc.status = "open" then
        let potentialPayout := activePotentialPayout mb.shares mc.yes_pool mc.no_pool mb.position
        some
          { id := mb.id
            contract_id := mb.contract_id
            contract_title := mc.title
            position := mb.position
            amount := mb.amount
            shares := mb.shares
            purchase_price := mb.purchase_price
            current_yes_probability := mc.current_yes_probability
            yes_pool := mc.yes_pool
            no_pool := mc.no_pool
            potential_payout := potentialPayout
            potential_profit := potentialPayout - mb.amount }
      else none

/-- The seeded store after users 2 and 3 have each put 1000 coins, their whole
seeded balance, on yes on contract 1. -/
def heavyYesStore : Store :=
  (placeBetRoute (placeBetRoute seedStore 1 2 "yes" 1000).1 1 3 "yes" 1000).1

/-- The cached probability of every contract row is the probability of its
pools. -/
def PoolsConsistent (s : Store) : Prop :=
  ∀ c ∈ s.market_contracts,
    c.current_yes_probability = calculateProbability c.yes_pool c.no_pool

/-! ## Binary64 arithmetic

JavaScript numbers are IEEE 754 binary64 values and every arithmetic operation
rounds its exact result to the nearest such value, ties to the even
significand. The definitions of this section compute that rounding on exact
rationals, and `Binary64.calculateProbability`, `Binary64.calculatePrice`,
`Binary64.calculatePotentialPayout` and `Binary64.calculateActualPayout`
repeat the functions of `marketMaker.js` over these numbers. -/

/-- Nearest integer to `q`, the even neighbour at a tie. -/
def roundHalfEven (q : ℚ) : ℤ :=
  if q - ⌊q⌋ < 1 / 2 then ⌊q⌋
  else if 1 / 2 < q - ⌊q⌋ then ⌊q⌋ + 1
  else if ⌊q⌋ % 2 = 0 then ⌊q⌋
  else ⌊q⌋ + 1

/-- Spacing of the binary64 values at magnitude `m`: `2 ^ (e - 52)` where `e`
is the binary exponent of `m`, and the subnormal spacing `2 ^ (-1074)` below
`2 ^ (-1022)`. -/
def quantum (m : ℚ) : ℚ := (2 : ℚ) ^ (max (Int.log 2 m) (-1022) - 52)

/-- Rounding of a magnitude `0 ≤ m` to binary64: the nearest multiple of the
spacing, ties to even; `none` is the overflow to `Infinity`, reached when the
rounded magnitude is `2 ^ 1024` or more. -/
def roundMagnitude (m : ℚ) : Option ℚ :=
  if (roundHalfEven (m / quantum m) : ℚ) * quantum m < 2 ^ 1024 then
    some ((roundHalfEven (m / quantum m) : ℚ) * quantum m)
  else none

/-- A JavaScript number: `NaN`, or a sign bit with a magnitude, where the
magnitude `none` is `Infinity` and `some m` is the finite binary64 magnitude
`m` (so both `+0` and `-0` are values). -/
inductive JSNumber where
  | nan
  | num (negative : Bool) (magnitude : Option ℚ)
  deriving DecidableEq

/-- The finite non-negative number of magnitude `m`. -/
def jsPos (m : ℚ) : JSNumber := JSNumber.num false (some m)

/-- The value `Infinity`. -/
def jsInfinity : JSNumber := JSNumber.num false none

/-- Unary minus. -/
def jsNeg : JSNumber → JSNumber
  | JSNumber.nan => JSNumber.nan
  | JSNumber.num s m => JSNumber.num (!s) m

/-- JavaScript `+` on numbers. -/
def jsAdd : JSNumber → JSNumber → JSNumber
  | JSNumber.num s1 (some a), JSNumber.num s2 (some b) =>
    if s1 = s2 then JSNumber.num s1 (roundMagnitude (a + b))
    else if a = b then JSNumber.num false (some 0)
    else if b < a then JSNumber.num s1 (roundMagnitude (a - b))
    else JSNumber.num s2 (roundMagnitude (b - a))
  | JSNumber.num s1 none, JSNumber.num s2 none =>
    if s1 = s2 then JSNumber.num s1 none else JSNumber.nan
  | JSNumber.num s1 none, JSNumber.num _ (some _) => JSNumber.num s1 none
  | JSNumber.num _ (some _), JSNumber.num s2 none => JSNumber.num s2 none
  | _, _ => JSNumber.nan

/-- JavaScript `-` on numbers. -/
def jsSub (x y : JSNumber) : JSNumber := jsAdd x (jsNeg y)

/-- JavaScript `*` on numbers. -/
def jsMul : JSNumber → JSNumber → JSNumber
  | JSNumber.num s1 (some a), JSNumber.num s2 (some b) =>
    JSNumber.num (xor s1 s2) (roundMagnitude (a * b))
  | JSNumber.num s1 none, JSNumber.num s2 (some b) =>
    if b = 0 then JSNumber.nan else JSNumber.num (xor s1 s2) none
  | JSNumber.num s1 (some a), JSNumber.num s2 none =>
    if a = 0 then JSNumber.nan else JSNumber.num (xor s1 s2) none
  | JSNumber.num s1 none, JSNumber.num s2 none => JSNumber.num (xor s1 s2) none
  | _, _ => JSNumber.nan

/-- JavaScript `/` on numbers: a non-zero number over zero is an infinity,
zero over zero and infinity over infinity are `NaN`. -/
def jsDiv : JSNumber → JSNumber → JSNumber
  | JSNumber.num s1 (some a), JSNumber.num s2 (some b) =>
    if b = 0 then (if a = 0 then JSNumber.nan else JSNumber.num (xor s1 s2) none)
    else JSNumber.num (xor s1 s2) (roundMagnitude (a / b))
  | JSNumber.num s1 (some _), JSNumber.num s2 none => JSNumber.num (xor s1 s2) (some 0)
  | JSNumber.num s1 none, JSNumber.num s2 (some _) => JSNumber.num (xor s1 s2) none
  | _, _ => JSNumber.nan

/-- JavaScript `===` on numbers: `NaN` equals nothing, `+0` equals `-0`. -/
def jsStrictEq : JSNumber → JSNumber → Bool
  | JSNumber.num s1 (some a), JSNumber.num s2 (some b) =>
    decide (a = b) && (decide (a = 0) || decide (s1 = s2))
  | JSNumber.num s1 none, JSNumber.num s2 none => decide (s1 = s2)
  | _, _ => false

/-- JavaScript `<` on numbers: false when either side is `NaN`. -/
def jsLt : JSNumber → JSNumber → Bool
  | JSNumber.num false (some a), JSNumber.num false (some b) => decide (a < b)
  | JSNumber.num false (some _), JSNumber.num false none => true
  | JSNumber.num false none, JSNumber.num false _ => false
  | JSNumber.num true (some a), JSNumber.num true (some b) => decide (b < a)
  | JSNumber.num true none, JSNumber.num true (some _) => true
  | JSNumber.num true _, JSNumber.num true none => false
  | JSNumber.num true (some a), JSNumber.num false (some b) => decide (0 < a ∨ 0 < b)
  | JSNumber.num true _, JSNumber.num false _ => true
  | JSNumber.num false _, JSNumber.num true _ => false
  | _, _ => false

namespace Binary64

/-- Probability of YES from the pool sizes (`marketMaker.js`, lines 12-15),
in binary64. -/
def calculateProbability (yesPool noPool : JSNumber) : JSNumber :=
  if jsStrictEq (jsAdd yesPool noPool) (jsPos 0) then jsPos (1 / 2)
  else jsDiv yesPool (jsAdd yesPool noPool)

/-- The object returned by `calculatePrice`. -/
structure PriceResult where
  shares : JSNumber
  price : JSNumber
  newYesPool : JSNumber
  newNoPool : JSNumber
  newProbability : JSNumber
  deriving DecidableEq

/-- Quote for buying into a position (`marketMaker.js`, lines 37-69), in
binary64. -/
def calculatePrice (amount yesPool noPool : JSNumber) (position : String) : PriceResult :=
  let probability := calculateProbability yesPool noPool
  if position = "yes" then
    let shares := jsDiv amount probability
    let newYesPool := jsAdd yesPool amount
    let newNoPool := noPool
    { shares := shares
      price := probability
      newYesPool := newYesPool
      newNoPool := newNoPool
      newProbability := calculateProbability newYesPool newNoPool }
  else
    let noProbability := jsSub (jsPos 1) probability
    let shares := jsDiv amount noProbability
    let newNoPool := jsAdd noPool amount
    let newYesPool := yesPool
    { shares := shares
      price := noProbability
      newYesPool := newYesPool
      newNoPool := newNoPool
      newProbability := calculateProbability newYesPool newNoPool }

/-- Potential payout of a position (`marketMaker.js`, lines 79-88), in
binary64. -/
def calculatePotentialPayout (shares yesPool noPool : JSNumber) (position : String) :
    JSNumber :=
  let totalPool := jsAdd yesPool noPool
  if jsStrictEq totalPool (jsPos 0) then jsPos 0
  else if position = "yes" then jsDiv (jsMul shares totalPool) (jsAdd yesPool shares)
  else jsDiv (jsMul shares totalPool) (jsAdd noPool shares)

/-- Payout at resolution (`marketMaker.js`, lines 98-103), in binary64. -/
def calculateActualPayout (shares _totalPool : JSNumber) (position resolution : String) :
    JSNumber :=
  if position ≠ resolution then jsPos 0 else shares

end Binary64

/-! ## Theorems -/

/-- With both pools positive the probability is the yes share of the total pool,
and neither it nor its complement vanishes. -/
theorem calculateProbability_pos_pools (yesPool noPool : ℚ)
    (hy : 0 < yesPool) (hn : 0 < noPool) :
    calculateProbability yesPool noPool = yesPool / (yesPool + noPool) ∧
    0 < calculateProbability yesPool noPool ∧
    0 < 1 - calculateProbability yesPool noPool := by
  have hs : 0 < yesPool + noPool := by linarith
  have hne : yesPool + noPool ≠ 0 := ne_of_gt hs
  have hp : calculateProbability yesPool noPool = yesPool / (yesPool + noPool) := by
    simp [calculateProbability, hne]
  refine ⟨hp, ?_, ?_⟩
  · rw [hp]; exact div_pos hy hs
  · rw [hp]
    have : 1 - yesPool / (yesPool + noPool) = noPool / (yesPool + noPool) := by
      field_simp
    rw [this]; exact div_pos hn hs

/-- C1: for positive pools and any amount, a yes quote has price `p` and shares
`amount / p`, a no quote has price `1 - p` and shares `amount / (1 - p)`, where
`p = calculateProbability yesPool noPool = yesPool / (yesPool + noPool)`; both
divisors are non-zero, so the shares are the exact quotient
(`shares * price = amount`). -/
theorem calculatePrice_price_shares (amount yesPool noPool : ℚ)
    (hy : 0 < yesPool) (hn : 0 < noPool) :
    (calculatePrice amount yesPool noPool "yes").price
        = calculateProbability yesPool noPool ∧
    (calculatePrice amount yesPool noPool "yes").shares
        = amount / calculateProbability yesPool noPool ∧
    (calculatePrice amount yesPool noPool "no").price
        = 1 - calculateProbability yesPool noPool ∧
    (calculatePrice amount yesPool noPool "no").shares
        = amount / (1 - calculateProbability yesPool noPool) ∧
    calculateProbability yesPool noPool = yesPool / (yesPool + noPool) ∧
    (calculatePrice amount yesPool noPool "yes").shares
        * (calculatePrice amount yesPool noPool "yes").price = amount ∧
    (calculatePrice amount yesPool noPool "no").shares
        * (calculatePrice amount yesPool noPool "no").price = amount := by
  obtain ⟨hp, hp0, hq0⟩ := calculateProbability_pos_pools yesPool noPool hy hn
  have hno : ("no" : String) ≠ "yes" := by decide
  refine ⟨?_, ?_, ?_, ?_, hp, ?_, ?_⟩
  · simp [calculatePrice]
  · simp [calculatePrice]
  · simp [calculatePrice, hno]
  · simp [calculatePrice, hno]
  · simp only [calculatePrice, if_true]
    exact div_mul_cancel₀ amount (ne_of_gt hp0)
  · simp only [calculatePrice, hno, if_false]
    exact div_mul_cancel₀ amount (ne_of_gt hq0)

/-- C1 witness: pools 500/500, amount 100, side yes: price 1/2 and shares 200. -/
theorem calculatePrice_price_shares_witness :
    (0 : ℚ) < 500 ∧
    (calculatePrice 100 500 500 "yes").price = 1 / 2 ∧
    (calculatePrice 100 500 500 "yes").shares = 200 := by
  have h := calculatePrice_price_shares 100 500 500 (by norm_num) (by norm_num)
  obtain ⟨h1, h2, -, -, h5, -, -⟩ := h
  have hp : calculateProbability 500 500 = 1 / 2 := by rw [h5]; norm_num
  refine ⟨by norm_num, ?_, ?_⟩
  · rw [h1, hp]
  · rw [h2, hp]; norm_num

/-- C2: a yes quote credits the yes pool by the amount and leaves the no pool
unchanged; a quote on any other side credits the no pool and leaves the yes
pool unchanged. -/
theorem calculatePrice_pools (amount yesPool noPool : ℚ) (position : String) :
    (calculatePrice amount yesPool noPool "yes").newYesPool = yesPool + amount ∧
    (calculatePrice amount yesPool noPool "yes").newNoPool = noPool ∧
    (calculatePrice amount yesPool noPool position).newYesPool
        = (if position = "yes" then yesPool + amount else yesPool) ∧
    (calculatePrice amount yesPool noPool position).newNoPool
        = (if position = "yes" then noPool else noPool + amount) := by
  refine ⟨by simp [calculatePrice], by simp [calculatePrice], ?_, ?_⟩
  · by_cases h : position = "yes" <;> simp [calculatePrice, h]
  · by_cases h : position = "yes" <;> simp [calculatePrice, h]

/-- C3: for non-negative pools the probability is 1/2 when both pools are zero
and `yesPool / (yesPool + noPool)`, with a non-zero divisor, otherwise. -/
theorem calculateProbability_spec (yesPool noPool : ℚ)
    (hy : 0 ≤ yesPool) (hn : 0 ≤ noPool) :
    calculateProbability yesPool noPool
        = (if yesPool = 0 ∧ noPool = 0 then 1 / 2 else yesPool / (yesPool + noPool)) ∧
    (¬ (yesPool = 0 ∧ noPool = 0) → yesPool + noPool ≠ 0) := by
  have key : yesPool + noPool = 0 ↔ (yesPool = 0 ∧ noPool = 0) := by
    constructor
    · intro h; constructor <;> linarith
    · rintro ⟨h1, h2⟩; rw [h1, h2]; norm_num
  refine ⟨?_, fun h hs => h (key.mp hs)⟩
  unfold calculateProbability
  by_cases h : yesPool + noPool = 0
  · rw [if_pos h, if_pos (key.mp h)]
  · rw [if_neg h, if_neg (fun hc => h (key.mpr hc))]

/-- C3 witness: pools 0/0 give 1/2 and pools 600/500 give 6/11. -/
theorem calculateProbability_spec_witness :
    calculateProbability 0 0 = 1 / 2 ∧ calculateProbability 600 500 = 6 / 11 := by
  constructor
  · rw [(calculateProbability_spec 0 0 (le_refl 0) (le_refl 0)).1]; norm_num
  · rw [(calculateProbability_spec 600 500 (by norm_num) (by norm_num)).1]; norm_num

/-- C4: the actual payout is the share count when the position equals the
resolution and 0 otherwise, whatever the total pool. -/
theorem calculateActualPayout_spec (shares totalPool : ℚ) (position resolution : String) :
    calculateActualPayout shares totalPool position resolution
        = (if position = resolution then shares else 0) ∧
    (∀ otherPool : ℚ, calculateActualPayout shares otherPool position resolution
        = calculateActualPayout shares totalPool position resolution) := by
  constructor
  · by_cases h : position = resolution <;> simp [calculateActualPayout, h]
  · intro otherPool; rfl

/-- C5: for non-negative shares and pools the potential payout is 0 on an empty
total pool, `shares * (yesPool + noPool) / (yesPool + shares)` for a yes
position and `shares * (yesPool + noPool) / (noPool + shares)` for a no
position; with positive shares both divisors are positive. -/
theorem calculatePotentialPayout_spec (shares yesPool noPool : ℚ)
    (hs : 0 ≤ shares) (hy : 0 ≤ yesPool) (hn : 0 ≤ noPool) :
    (∀ position : String, yesPool + noPool = 0 →
        calculatePotentialPayout shares yesPool noPool position = 0) ∧
    calculatePotentialPayout shares yesPool noPool "yes"
        = shares * (yesPool + noPool) / (yesPool + shares) ∧
    calculatePotentialPayout shares yesPool noPool "no"
        = shares * (yesPool + noPool) / (noPool + shares) ∧
    0 ≤ yesPool + shares ∧ 0 ≤ noPool + shares ∧
    (0 < shares → 0 < yesPool + shares ∧ 0 < noPool + shares) := by
  have hno : ("no" : String) ≠ "yes" := by decide
  refine ⟨?_, ?_, ?_, by linarith, by linarith, ?_⟩
  · intro position h
    simp [calculatePotentialPayout, h]
  · by_cases h : yesPool + noPool = 0
    · simp [calculatePotentialPayout, h]
    · simp [calculatePotentialPayout, h]
  · by_cases h : yesPool + noPool = 0
    · simp [calculatePotentialPayout, h]
    · simp [calculatePotentialPayout, h, hno]
  · intro h; constructor <;> linarith

/-- C5 witness: 200 shares on pools 600/500 give 275 for yes and 2200/7 for no. -/
theorem calculatePotentialPayout_spec_witness :
    calculatePotentialPayout 200 600 500 "yes" = 275 ∧
    calculatePotentialPayout 200 600 500 "no" = 2200 / 7 := by
  have h := calculatePotentialPayout_spec 200 600 500 (by norm_num) (by norm_num) (by norm_num)
  refine ⟨?_, ?_⟩
  · rw [h.2.1]; norm_num
  · rw [h.2.2.1]; norm_num

/-- The value of `mathRound` is the integer within one half of its argument,
the upper end excluded. -/
theorem mathRound_bounds (x : ℚ) :
    (mathRound x : ℚ) - 1 / 2 ≤ x ∧ x < (mathRound x : ℚ) + 1 / 2 := by
  unfold mathRound
  have h1 := Int.floor_le (x + 1 / 2)
  have h2 := Int.lt_floor_add_one (x + 1 / 2)
  constructor <;> linarith

/-- Closed form of the tier lookup by thresholds. -/
theorem getTierFromPoints_thresholds (points : ℤ) :
    getTierFromPoints points =
      (if points ≤ 100 then "Rookie"
       else if points ≤ 500 then "Amateur"
       else if points ≤ 1500 then "Semi-Pro"
       else if points ≤ 5000 then "Professional"
       else if points ≤ 15000 then "Expert"
       else if points ≤ 50000 then "Master"
       else "Legend") := by
  unfold getTierFromPoints
  simp only [TIERS, List.find?, inBand]
  by_cases h0 : 0 ≤ points
  · by_cases h1 : points ≤ 100
    · simp [h0, h1]
    · by_cases h2 : points ≤ 500
      · have : 101 ≤ points := by omega
        simp [h0, h1, h2, this]
      · by_cases h3 : points ≤ 1500
        · have : 101 ≤ points := by omega
          have : 501 ≤ points := by omega
          simp [h0, h1, h2, h3, *]
        · by_cases h4 : points ≤ 5000
          · have : 101 ≤ points := by omega
            have : 501 ≤ points := by omega
            have : 1501 ≤ points := by omega
            simp [h0, h1, h2, h3, h4, *]
          · by_cases h5 : points ≤ 15000
            · have : 101 ≤ points := by omega
              have : 501 ≤ points := by omega
              have : 1501 ≤ points := by omega
              have : 5001 ≤ points := by omega
              simp [h0, h1, h2, h3, h4, h5, *]
            · by_cases h6 : points ≤ 50000
              · have : 101 ≤ points := by omega
                have : 501 ≤ points := by omega
                have : 1501 ≤ points := by omega
                have : 5001 ≤ points := by omega
                have : 15001 ≤ points := by omega
                simp [h0, h1, h2, h3, h4, h5, h6, *]
              · have : 101 ≤ points := by omega
                have : 501 ≤ points := by omega
                have : 1501 ≤ points := by omega
                have : 5001 ≤ points := by omega
                have : 15001 ≤ points := by omega
                have : 50001 ≤ points := by omega
                simp [h0, h1, h2, h3, h4, h5, h6, *]
  · have a1 : ¬ 101 ≤ points := by omega
    have a2 : ¬ 501 ≤ points := by omega
    have a3 : ¬ 1501 ≤ points := by omega
    have a4 : ¬ 5001 ≤ points := by omega
    have a5 : ¬ 15001 ≤ points := by omega
    have a6 : ¬ 50001 ≤ points := by omega
    have a7 : points ≤ 100 := by omega
    simp [h0, a1, a2, a3, a4, a5, a6, a7]

/-- A loss scores -5 whatever the amount, the odds and the flags. -/
theorem calculateBetPoints_loss (betAmount odds : ℚ) (isUnderdog isHighConfidence : Bool) :
    calculateBetPoints "loss" betAmount odds isUnderdog isHighConfidence = -5 := by
  have hlw : ("loss" : String) ≠ "win" := by decide
  simp only [calculateBetPoints, hlw, if_false, if_true, mathRound]
  norm_num

/-- A win at odds 3 with amount 150 scores `round(10 * 3 * 3 * 2) = 180`. -/
theorem calculateBetPoints_win_150_3 :
    calculateBetPoints "win" 150 3 (decide ((3 : ℚ) > 2)) (decide ((150 : ℚ) > 100))
      = 180 := by
  simp only [calculateBetPoints, mathRound]
  norm_num

/-- C6: with the flags derived as `updateUserRanking` derives them, a win scores
`round(10 * odds * u * h)` with `u = 3` if `odds > 2` else `1` and `h = 2` if
`amount > 100` else `1`; a loss scores -5 whatever the amount, odds and flags;
a win at odds 3 with amount 150 scores 180. -/
theorem calculateBetPoints_spec (betAmount odds : ℚ) :
    calculateBetPoints "win" betAmount odds (decide (odds > 2)) (decide (betAmount > 100))
        = mathRound (10 * odds * (if odds > 2 then 3 else 1)
            * (if betAmount > 100 then 2 else 1)) ∧
    (∀ isUnderdog isHighConfidence : Bool,
        calculateBetPoints "loss" betAmount odds isUnderdog isHighConfidence = -5) ∧
    calculateBetPoints "win" 150 3 (decide ((3 : ℚ) > 2)) (decide ((150 : ℚ) > 100)) = 180 := by
  refine ⟨?_, ?_, ?_⟩
  · unfold calculateBetPoints
    by_cases ho : odds > 2 <;> by_cases ha : betAmount > 100 <;> simp [ho, ha]
  · intro u h
    exact calculateBetPoints_loss betAmount odds u h
  · exact calculateBetPoints_win_150_3

/-- C7: the streak bonus is 0 for a streak `s ≤ 0` and `min (5 * s) 50`
otherwise; it always lies between 0 and 50, equals 50 for every `s ≥ 10`, and
a streak of 20 gives 50. -/
theorem calculateStreakBonus_spec (s : ℤ) :
    calculateStreakBonus s = (if s ≤ 0 then 0 else min (5 * s) 50) ∧
    0 ≤ calculateStreakBonus s ∧ calculateStreakBonus s ≤ 50 ∧
    (10 ≤ s → calculateStreakBonus s = 50) ∧
    calculateStreakBonus 20 = 50 := by
  refine ⟨?_, ?_, ?_, ?_, by decide⟩
  · unfold calculateStreakBonus
    rw [mul_comm]
  · unfold calculateStreakBonus
    split_ifs <;> omega
  · unfold calculateStreakBonus
    split_ifs <;> omega
  · intro h
    unfold calculateStreakBonus
    split_ifs <;> omega

/-- C8: the tier returned for `points` is the tier of the band of `TIERS` that
contains `points`; the bands are Rookie 0..100, Amateur 101..500, Semi-Pro
501..1500, Professional 1501..5000, Expert 5001..15000, Master 15001..50000 and
Legend from 50001 on; every `points ≥ 0` lies in exactly one band, and every
negative `points` maps to Rookie. -/
theorem getTierFromPoints_spec (points : ℤ) :
    (∀ entry ∈ TIERS, inBand points entry.2 = true →
        getTierFromPoints points = entry.1) ∧
    (0 ≤ points → (TIERS.filter (fun entry => inBand points entry.2)).length = 1) ∧
    (points < 0 → getTierFromPoints points = "Rookie") ∧
    (0 ≤ points ∧ points ≤ 100 → getTierFromPoints points = "Rookie") ∧
    (101 ≤ points ∧ points ≤ 500 → getTierFromPoints points = "Amateur") ∧
    (501 ≤ points ∧ points ≤ 1500 → getTierFromPoints points = "Semi-Pro") ∧
    (1501 ≤ points ∧ points ≤ 5000 → getTierFromPoints points = "Professional") ∧
    (5001 ≤ points ∧ points ≤ 15000 → getTierFromPoints points = "Expert") ∧
    (15001 ≤ points ∧ points ≤ 50000 → getTierFromPoints points = "Master") ∧
    (50001 ≤ points → getTierFromPoints points = "Legend") ∧
    getTierFromPoints 100 = "Rookie" ∧ getTierFromPoints 101 = "Amateur" ∧
    getTierFromPoints 50001 = "Legend" := by
  refine ⟨?_, ?_, ?_, ?_, ?_, ?_, ?_, ?_, ?_, ?_, by decide, by decide, by decide⟩
  · intro entry he hb
    rw [getTierFromPoints_thresholds]
    simp only [TIERS, List.mem_cons, List.mem_singleton, List.not_mem_nil, or_false] at he
    rcases he with rfl | rfl | rfl | rfl | rfl | rfl | rfl <;>
      simp only [inBand, Bool.and_eq_true, decide_eq_true_eq, ge_iff_le, and_true] at hb <;>
      (repeat' split) <;> first | rfl | omega
  · intro _
    rw [← List.countP_eq_length_filter]
    simp only [TIERS, List.countP_cons, List.countP_nil, inBand, Bool.and_eq_true,
      decide_eq_true_eq, ge_iff_le, and_true]
    split_ifs <;> omega
  all_goals
    intro h
    rw [getTierFromPoints_thresholds]
    (repeat' split) <;> first | rfl | omega

/-! ### The ranking table -/

theorem writeRanks_coreColumns (table : List UserRanking) (userId globalRank tierRank : ℤ) :
    (writeRanks table userId globalRank tierRank).map coreColumns
      = table.map coreColumns := by
  unfold writeRanks
  rw [List.map_map]
  apply List.map_congr_left
  intro row _
  by_cases h : row.user_id = userId <;> simp [coreColumns, h]

theorem foldl_coreColumns {β : Type} (f : List UserRanking → β → List UserRanking)
    (hf : ∀ acc b, (f acc b).map coreColumns = acc.map coreColumns)
    (steps : List β) (acc : List UserRanking) :
    (steps.foldl f acc).map coreColumns = acc.map coreColumns := by
  induction steps generalizing acc with
  | nil => rfl
  | cons b rest ih => rw [List.foldl_cons, ih, hf]

/-- Recomputing the ranks changes no column other than the two rank columns,
and neither adds, removes nor reorders rows. -/
theorem updateGlobalRankings_coreColumns (table : List UserRanking) :
    (updateGlobalRankings table).map coreColumns = table.map coreColumns := by
  unfold updateGlobalRankings
  exact foldl_coreColumns _ (fun acc b => writeRanks_coreColumns acc _ _ _) _ _

/-- Tables that agree on the core columns give rows that agree on them. -/
theorem getRanking_coreColumns (userId : ℤ) :
    ∀ (t1 t2 : List UserRanking), t1.map coreColumns = t2.map coreColumns →
      (getRanking t1 userId).map coreColumns = (getRanking t2 userId).map coreColumns
  | [], [], _ => rfl
  | [], _ :: _, h => by simp at h
  | _ :: _, [], h => by simp at h
  | a :: t1, b :: t2, h => by
    simp only [List.map_cons, List.cons.injEq] at h
    obtain ⟨hab, ht⟩ := h
    have hid : a.user_id = b.user_id := congrArg Prod.fst hab
    have ih := getRanking_coreColumns userId t1 t2 ht
    unfold getRanking at ih ⊢
    by_cases hb : b.user_id = userId
    · have ha : a.user_id = userId := hid.trans hb
      simp [List.find?, ha, hb, hab]
    · have ha : ¬ a.user_id = userId := fun hc => hb (hid.symm.trans hc)
      simpa [List.find?, ha, hb] using ih

/-- The row read back after `writeRanking` carries the written values. -/
theorem getRanking_writeRanking (userId : ℤ) (v : RankingValues) (ranking : UserRanking) :
    ∀ (table : List UserRanking), getRanking table userId = some ranking →
      getRanking (writeRanking table userId v) userId =
        some { ranking with
          tier := v.newTier
          rank_points := v.totalPoints
          win_streak := v.newWinStreak
          best_streak := v.newBestStreak
          loss_streak := v.newLossStreak }
  | [], h => by simp [getRanking] at h
  | a :: table, h => by
    have ih := getRanking_writeRanking userId v ranking table
    unfold getRanking writeRanking at *
    by_cases ha : a.user_id = userId
    · simp only [List.find?, ha, decide_True, Option.some.injEq] at h
      subst h
      simp [List.find?, ha]
    · simp only [List.find?, ha, decide_False] at h
      simpa [List.find?, ha] using ih h

/-- For a user with a ranking row, `updateUserRanking` succeeds, resolves with
the computed values, and the row read back afterwards stores them. -/
theorem updateUserRanking_existing (table : List UserRanking) (userId : ℤ)
    (betResult : String) (betAmount odds : ℚ) (ranking : UserRanking)
    (h : getRanking table userId = some ranking) :
    ∃ table2 stored,
      updateUserRanking table userId betResult betAmount odds
        = some (table2, computeRankingValues ranking betResult betAmount odds) ∧
      getRanking table2 userId = some stored ∧
      stored.user_id = ranking.user_id ∧
      stored.tier = (computeRankingValues ranking betResult betAmount odds).newTier ∧
      stored.rank_points
        = (computeRankingValues ranking betResult betAmount odds).totalPoints ∧
      stored.win_streak
        = (computeRankingValues ranking betResult betAmount odds).newWinStreak ∧
      stored.best_streak
        = (computeRankingValues ranking betResult betAmount odds).newBestStreak ∧
      stored.loss_streak
        = (computeRankingValues ranking betResult betAmount odds).newLossStreak := by
  set v := computeRankingValues ranking betResult betAmount odds with hv
  have h1 := getRanking_writeRanking userId v ranking table h
  have h2 := getRanking_coreColumns userId _ _
    (updateGlobalRankings_coreColumns (writeRanking table userId v))
  rw [h1] at h2
  cases hg : getRanking (updateGlobalRankings (writeRanking table userId v)) userId with
  | none => rw [hg] at h2; simp at h2
  | some stored =>
    rw [hg] at h2
    simp only [Option.map_some', Option.some.injEq, coreColumns, Prod.mk.injEq] at h2
    obtain ⟨e1, e2, e3, e4, e5, e6⟩ := h2
    refine ⟨updateGlobalRankings (writeRanking table userId v), stored, ?_, hg,
      e1, e2, e3, e4, e5, e6⟩
    simp only [updateUserRanking, updateUserRankingFuel, h]

/-- C9: for an existing ranking row with streaks `w`, `l`, `b`, a win stores
`win_streak = w + 1`, `loss_streak = 0` and `best_streak = max b (w + 1)`; a
loss stores `win_streak = 0`, `loss_streak = l + 1` and `best_streak = b`. -/
theorem updateUserRanking_streaks (table : List UserRanking) (userId : ℤ)
    (betAmount odds : ℚ) (ranking : UserRanking)
    (h : getRanking table userId = some ranking) :
    (∃ table2 res stored,
      updateUserRanking table userId "win" betAmount odds = some (table2, res) ∧
      getRanking table2 userId = some stored ∧
      stored.win_streak = ranking.win_streak + 1 ∧
      stored.loss_streak = 0 ∧
      stored.best_streak = max ranking.best_streak (ranking.win_streak + 1)) ∧
    (∃ table2 res stored,
      updateUserRanking table userId "loss" betAmount odds = some (table2, res) ∧
      getRanking table2 userId = some stored ∧
      stored.win_streak = 0 ∧
      stored.loss_streak = ranking.loss_streak + 1 ∧
      stored.best_streak = ranking.best_streak) := by
  have hlw : ("loss" : String) ≠ "win" := by decide
  constructor
  · obtain ⟨table2, stored, hu, hg, -, -, -, hw, hb, hl⟩ :=
      updateUserRanking_existing table userId "win" betAmount odds ranking h
    refine ⟨table2, _, stored, hu, hg, ?_, ?_, ?_⟩
    · rw [hw]; simp [computeRankingValues]
    · rw [hl]; simp [computeRankingValues]
    · rw [hb]
      simp only [computeRankingValues, if_true]
      split_ifs with hc
      · rw [max_eq_right (le_of_lt hc)]
      · rw [max_eq_left (not_lt.mp hc)]
  · obtain ⟨table2, stored, hu, hg, -, -, -, hw, hb, hl⟩ :=
      updateUserRanking_existing table userId "loss" betAmount odds ranking h
    refine ⟨table2, _, stored, hu, hg, ?_, ?_, ?_⟩
    · rw [hw]; simp [computeRankingValues, hlw]
    · rw [hl]; simp [computeRankingValues, hlw]
    · rw [hb]; simp [computeRankingValues, hlw]

/-- C9 witness: the seeded row of user 1 (streaks 3, 0, 5) becomes (4, 0, 5)
after a win and (0, 1, 5) after a loss. -/
theorem updateUserRanking_streaks_witness :
    (∃ table2 res stored,
      updateUserRanking seedRankings 1 "win" 150 3 = some (table2, res) ∧
      getRanking table2 1 = some stored ∧
      stored.win_streak = 4 ∧ stored.loss_streak = 0 ∧ stored.best_streak = 5) ∧
    (∃ table2 res stored,
      updateUserRanking seedRankings 1 "loss" 150 3 = some (table2, res) ∧
      getRanking table2 1 = some stored ∧
      stored.win_streak = 0 ∧ stored.loss_streak = 1 ∧ stored.best_streak = 5) :=
  updateUserRanking_streaks seedRankings 1 150 3
    { user_id := 1, tier := "Amateur", rank_points := 150, global_rank := 1,
      tier_rank := 1, win_streak := 3, best_streak := 5, loss_streak := 0 } rfl

/-- Recomputing the ranks keeps every win streak non-negative. -/
theorem updateGlobalRankings_win_streak (table : List UserRanking)
    (hinv : ∀ row ∈ table, 0 ≤ row.win_streak) :
    ∀ row ∈ updateGlobalRankings table, 0 ≤ row.win_streak := by
  intro row hrow
  have hmem : coreColumns row ∈ (updateGlobalRankings table).map coreColumns :=
    List.mem_map_of_mem _ hrow
  rw [updateGlobalRankings_coreColumns] at hmem
  obtain ⟨row0, hrow0, he⟩ := List.mem_map.mp hmem
  have hw : row0.win_streak = row.win_streak := by
    simp only [coreColumns, Prod.mk.injEq] at he
    exact he.2.2.2.1
  rw [← hw]
  exact hinv row0 hrow0

/-- Inserting a row with a non-negative win streak keeps every win streak
non-negative. -/
theorem insertRanking_win_streak (table : List UserRanking) (new : UserRanking)
    (hinv : ∀ row ∈ table, 0 ≤ row.win_streak) (hnew : 0 ≤ new.win_streak) :
    ∀ row ∈ insertRanking table new, 0 ≤ row.win_streak := by
  intro row hrow
  unfold insertRanking at hrow
  rcases (List.mem_orderedInsert _).mp hrow with e | hmem
  · rw [e]; exact hnew
  · exact hinv row hmem

/-- The write of `updateUserRanking` on an existing row, and the ranks
recomputed after it, keep every win streak non-negative. -/
theorem writeRanking_win_streak (table : List UserRanking) (userId : ℤ)
    (betResult : String) (betAmount odds : ℚ) (ranking : UserRanking)
    (hinv : ∀ row ∈ table, 0 ≤ row.win_streak)
    (h : getRanking table userId = some ranking) :
    ∀ row ∈ updateGlobalRankings
        (writeRanking table userId (computeRankingValues ranking betResult betAmount odds)),
      0 ≤ row.win_streak := by
  apply updateGlobalRankings_win_streak
  have hr : 0 ≤ ranking.win_streak := hinv ranking (List.mem_of_find?_eq_some h)
  have hv : 0 ≤ (computeRankingValues ranking betResult betAmount odds).newWinStreak := by
    simp only [computeRankingValues]
    split_ifs <;> omega
  intro row hrow
  unfold writeRanking at hrow
  obtain ⟨row0, hrow0, he⟩ := List.mem_map.mp hrow
  by_cases hid : row0.user_id = userId
  · rw [if_pos hid] at he
    rw [← he]
    exact hv
  · rw [if_neg hid] at he
    rw [← he]
    exact hinv row0 hrow0

/-- Inserting the missing rows of a list keeps every win streak non-negative
when the rows of the list have one. -/
theorem insertMissing_win_streak (rows : List UserRanking) :
    ∀ table : List UserRanking, (∀ r ∈ rows, 0 ≤ r.win_streak) →
      (∀ row ∈ table, 0 ≤ row.win_streak) →
      ∀ row ∈ rows.foldl
          (fun acc row =>
            match getRanking acc row.user_id with
            | some _ => acc
            | none => insertRanking acc row)
          table,
        0 ≤ row.win_streak := by
  induction rows with
  | nil => intro table _ hinv; exact hinv
  | cons r rest ihr =>
    intro table hrows hinv
    rw [List.foldl_cons]
    apply ihr
    · intro x hx
      exact hrows x (List.mem_cons_of_mem _ hx)
    · cases hg : getRanking table r.user_id with
      | some _ => exact hinv
      | none =>
        exact insertRanking_win_streak table r hinv (hrows r (List.mem_cons_self _ _))

/-- Every row of a table the program can produce has a non-negative win
streak: the seed rows hold 3, 1 and 2, a new row holds 0, and an update
stores `w + 1`, `0` or `w`. -/
theorem rankingsReachable_win_streak (table : List UserRanking)
    (hreach : RankingsReachable table) : ∀ row ∈ table, 0 ≤ row.win_streak := by
  induction hreach with
  | created => intro row hrow; simp at hrow
  | seeded table _ ih =>
    exact insertMissing_win_streak seedRankings table (by decide) ih
  | updated table userId betResult betAmount odds table2 res _ hu ih =>
    unfold updateUserRanking at hu
    rw [updateUserRankingFuel] at hu
    cases hg : getRanking table userId with
    | some ranking =>
      rw [hg] at hu
      simp only [Option.some.injEq, Prod.mk.injEq] at hu
      rw [← hu.1]
      exact writeRanking_win_streak table userId betResult betAmount odds ranking ih hg
    | none =>
      rw [hg] at hu
      simp only at hu
      have ih2 := insertRanking_win_streak table (initialRanking userId) ih (le_refl _)
      rw [updateUserRankingFuel] at hu
      cases hg2 : getRanking (insertRanking table (initialRanking userId)) userId with
      | some ranking =>
        rw [hg2] at hu
        simp only [Option.some.injEq, Prod.mk.injEq] at hu
        rw [← hu.1]
        exact writeRanking_win_streak _ userId betResult betAmount odds ranking ih2 hg2
      | none =>
        rw [hg2] at hu
        simp [updateUserRankingFuel] at hu
  | ranked table _ ih => exact updateGlobalRankings_win_streak table ih

/-- Seeding the freshly created table gives the three seed rows. -/
theorem seedRankingsInto_nil : seedRankingsInto [] = seedRankings := by decide

/-- The seeded table is a table the program can produce. -/
theorem rankingsReachable_seedRankings : RankingsReachable seedRankings := by
  rw [← seedRankingsInto_nil]
  exact RankingsReachable.seeded [] RankingsReachable.created

/-- C10: for an existing ranking row with points `P` and win streak `w`, the
stored points are `P + calculateBetPoints(..) + calculateStreakBonus` of the
stored win streak, with no lower bound, and the stored tier is
`getTierFromPoints` of that total; on every table the program can produce a
win adds `min (5 * (w + 1)) 50` on top of the bet points, and a loss changes
the points by exactly -5, which makes them negative whenever `P < 5`. -/
theorem updateUserRanking_points (table : List UserRanking) (userId : ℤ)
    (betResult : String) (betAmount odds : ℚ) (ranking : UserRanking)
    (h : getRanking table userId = some ranking) :
    ∃ table2 res stored,
      updateUserRanking table userId betResult betAmount odds = some (table2, res) ∧
      getRanking table2 userId = some stored ∧
      stored.rank_points = ranking.rank_points
        + calculateBetPoints betResult betAmount odds
            (decide (odds > 2)) (decide (betAmount > 100))
        + calculateStreakBonus stored.win_streak ∧
      stored.tier = getTierFromPoints stored.rank_points ∧
      (RankingsReachable table → betResult = "win" →
        stored.rank_points = ranking.rank_points
          + calculateBetPoints "win" betAmount odds
              (decide (odds > 2)) (decide (betAmount > 100))
          + min (5 * (ranking.win_streak + 1)) 50) ∧
      (betResult = "loss" →
        stored.rank_points = ranking.rank_points - 5 ∧
        (ranking.rank_points < 5 → stored.rank_points < 0)) := by
  have hlw : ("loss" : String) ≠ "win" := by decide
  obtain ⟨table2, stored, hu, hg, -, ht, hp, hw, -, -⟩ :=
    updateUserRanking_existing table userId betResult betAmount odds ranking h
  have hmain : stored.rank_points = ranking.rank_points
        + calculateBetPoints betResult betAmount odds
            (decide (odds > 2)) (decide (betAmount > 100))
        + calculateStreakBonus stored.win_streak := by
    rw [hp, hw]; rfl
  refine ⟨table2, _, stored, hu, hg, hmain, ?_, ?_, ?_⟩
  · rw [ht, hp]; rfl
  · intro hreach hwin
    have hw0 : 0 ≤ ranking.win_streak :=
      rankingsReachable_win_streak table hreach ranking (List.mem_of_find?_eq_some h)
    subst hwin
    have hsw : stored.win_streak = ranking.win_streak + 1 := by
      rw [hw]; simp [computeRankingValues]
    rw [hmain, hsw]
    congr 1
    unfold calculateStreakBonus
    split_ifs <;> omega
  · intro hloss
    subst hloss
    have hsw : stored.win_streak = 0 := by
      rw [hw]; simp [computeRankingValues, hlw]
    have hpts : stored.rank_points = ranking.rank_points - 5 := by
      rw [hmain, hsw, calculateBetPoints_loss]
      simp [calculateStreakBonus]
      ring
    exact ⟨hpts, fun hlt => by omega⟩

/-- C10 witness: the seeded table is one the program produces, and its row of
user 1 (150 points, win streak 3) stores `150 + 180 + 20 = 350` points and
tier Amateur after a win at odds 3 with amount 150. -/
theorem updateUserRanking_points_witness :
    RankingsReachable seedRankings ∧
    getRanking seedRankings 1 = some
      { user_id := 1, tier := "Amateur", rank_points := 150, global_rank := 1,
        tier_rank := 1, win_streak := 3, best_streak := 5, loss_streak := 0 } ∧
    ∃ table2 res stored,
      updateUserRanking seedRankings 1 "win" 150 3 = some (table2, res) ∧
      getRanking table2 1 = some stored ∧
      stored.rank_points = 350 ∧ stored.tier = "Amateur" := by
  refine ⟨rankingsReachable_seedRankings, rfl, ?_⟩
  obtain ⟨table2, res, stored, hu, hg, -, ht, hwin, -⟩ :=
    updateUserRanking_points seedRankings 1 "win" 150 3
      { user_id := 1, tier := "Amateur", rank_points := 150, global_rank := 1,
        tier_rank := 1, win_streak := 3, best_streak := 5, loss_streak := 0 } rfl
  have hp : stored.rank_points = 350 := by
    rw [hwin rankingsReachable_seedRankings rfl, calculateBetPoints_win_150_3]; decide
  refine ⟨table2, res, stored, hu, hg, hp, ?_⟩
  rw [ht, hp]; decide

/-- C11 fails as stated: a bet result that is neither a win nor a loss leaves
the win streak unchanged, so the seeded row of user 1 (150 points, win streak
3) is credited a streak bonus of 15 and stores 165 points. -/
theorem updateUserRanking_bonus_counterexample :
    ∃ table2 res stored,
      getRanking seedRankings 1 = some
        { user_id := 1, tier := "Amateur", rank_points := 150, global_rank := 1,
          tier_rank := 1, win_streak := 3, best_streak := 5, loss_streak := 0 } ∧
      updateUserRanking seedRankings 1 "push" 150 3 = some (table2, res) ∧
      getRanking table2 1 = some stored ∧
      res.betPoints = 0 ∧ res.streakBonus = 15 ∧ res.streakBonus ≠ 0 ∧
      stored.rank_points = 165 := by
  have hpw : ("push" : String) ≠ "win" := by decide
  have hpl : ("push" : String) ≠ "loss" := by decide
  obtain ⟨table2, stored, hu, hg, -, -, hp, -, -, -⟩ :=
    updateUserRanking_existing seedRankings 1 "push" 150 3
      { user_id := 1, tier := "Amateur", rank_points := 150, global_rank := 1,
        tier_rank := 1, win_streak := 3, best_streak := 5, loss_streak := 0 } rfl
  have hb : (computeRankingValues
      { user_id := 1, tier := "Amateur", rank_points := 150, global_rank := 1,
        tier_rank := 1, win_streak := 3, best_streak := 5, loss_streak := 0 }
      "push" 150 3).betPoints = 0 := by
    simp only [computeRankingValues, calculateBetPoints, hpw, hpl, if_false, mathRound]
    norm_num
  have hs : (computeRankingValues
      { user_id := 1, tier := "Amateur", rank_points := 150, global_rank := 1,
        tier_rank := 1, win_streak := 3, best_streak := 5, loss_streak := 0 }
      "push" 150 3).streakBonus = 15 := by
    simp only [computeRankingValues, hpw, hpl, if_false]
    decide
  have ht : (computeRankingValues
      { user_id := 1, tier := "Amateur", rank_points := 150, global_rank := 1,
        tier_rank := 1, win_streak := 3, best_streak := 5, loss_streak := 0 }
      "push" 150 3).totalPoints = 150 + 0 + 15 := by
    rw [← hb, ← hs]; rfl
  refine ⟨table2, _, stored, rfl, hu, hg, hb, hs, ?_, ?_⟩
  · rw [hs]; decide
  · rw [hp, ht]; decide

/-- C11, amended: for an existing ranking row, a loss adds a streak bonus of 0
(the points change by the bet points alone); a bet result that is neither a
win nor a loss leaves the win streak `w` unchanged and adds
`calculateStreakBonus w`, which is 0 exactly when `w ≤ 0`. -/
theorem updateUserRanking_bonus (table : List UserRanking) (userId : ℤ)
    (betResult : String) (betAmount odds : ℚ) (ranking : UserRanking)
    (h : getRanking table userId = some ranking) :
    ∃ table2 res stored,
      updateUserRanking table userId betResult betAmount odds = some (table2, res) ∧
      getRanking table2 userId = some stored ∧
      stored.rank_points = ranking.rank_points + res.betPoints + res.streakBonus ∧
      (betResult = "loss" →
        res.streakBonus = 0 ∧ stored.rank_points = ranking.rank_points + res.betPoints) ∧
      (betResult ≠ "win" → betResult ≠ "loss" →
        stored.win_streak = ranking.win_streak ∧
        res.streakBonus = calculateStreakBonus ranking.win_streak ∧
        (res.streakBonus = 0 ↔ ranking.win_streak ≤ 0)) := by
  have hlw : ("loss" : String) ≠ "win" := by decide
  obtain ⟨table2, stored, hu, hg, -, -, hp, hw, -, -⟩ :=
    updateUserRanking_existing table userId betResult betAmount odds ranking h
  have hmain : stored.rank_points = ranking.rank_points
      + (computeRankingValues ranking betResult betAmount odds).betPoints
      + (computeRankingValues ranking betResult betAmount odds).streakBonus := by
    rw [hp]; rfl
  refine ⟨table2, _, stored, hu, hg, hmain, ?_, ?_⟩
  · intro hloss
    subst hloss
    have hs : (computeRankingValues ranking "loss" betAmount odds).streakBonus = 0 := by
      simp [computeRankingValues, hlw, calculateStreakBonus]
    refine ⟨hs, ?_⟩
    rw [hmain, hs, add_zero]
  · intro hnw hnl
    have hs : (computeRankingValues ranking betResult betAmount odds).streakBonus
        = calculateStreakBonus ranking.win_streak := by
      simp [computeRankingValues, hnw, hnl]
    refine ⟨?_, hs, ?_⟩
    · rw [hw]; simp [computeRankingValues, hnw, hnl]
    · rw [hs]
      unfold calculateStreakBonus
      constructor
      · intro h0
        by_contra hc
        rw [if_neg hc] at h0
        omega
      · intro hle
        rw [if_pos hle]

/-- C11 witness: a loss on the seeded row of user 1 (150 points, win streak 3)
adds no streak bonus. -/
theorem updateUserRanking_bonus_witness :
    ∃ table2 res stored,
      updateUserRanking seedRankings 1 "loss" 150 3 = some (table2, res) ∧
      getRanking table2 1 = some stored ∧
      res.streakBonus = 0 ∧ stored.rank_points = 150 + res.betPoints := by
  obtain ⟨table2, res, stored, hu, hg, -, hloss, -⟩ :=
    updateUserRanking_bonus seedRankings 1 "loss" 150 3
      { user_id := 1, tier := "Amateur", rank_points := 150, global_rank := 1,
        tier_rank := 1, win_streak := 3, best_streak := 5, loss_streak := 0 } rfl
  exact ⟨table2, res, stored, hu, hg, (hloss rfl).1, (hloss rfl).2⟩

/-- C19, amended: in exact rational arithmetic, with both pools positive the
probability lies strictly between 0 and 1. -/
theorem calculateProbability_range (yesPool noPool : ℚ)
    (hy : 0 < yesPool) (hn : 0 < noPool) :
    0 < calculateProbability yesPool noPool ∧ calculateProbability yesPool noPool < 1 := by
  obtain ⟨-, hp0, hq0⟩ := calculateProbability_pos_pools yesPool noPool hy hn
  exact ⟨hp0, by linarith⟩

/-- C19 witness: pools 500/500. -/
theorem calculateProbability_range_witness :
    0 < calculateProbability 500 500 ∧ calculateProbability 500 500 < 1 :=
  calculateProbability_range 500 500 (by norm_num) (by norm_num)

/-- The price of a quote on positive pools is positive, on either branch. -/
theorem calculatePrice_price_pos (amount yesPool noPool : ℚ) (position : String)
    (hy : 0 < yesPool) (hn : 0 < noPool) :
    0 < (calculatePrice amount yesPool noPool position).price ∧
    (calculatePrice amount yesPool noPool position).shares
      = amount / (calculatePrice amount yesPool noPool position).price := by
  obtain ⟨-, hp0, hq0⟩ := calculateProbability_pos_pools yesPool noPool hy hn
  by_cases hpos : position = "yes"
  · simp only [calculatePrice, hpos, if_true]
    exact ⟨hp0, trivial⟩
  · simp only [calculatePrice, hpos, if_false]
    exact ⟨hq0, trivial⟩

/-- The price of a quote does not depend on the amount. -/
theorem calculatePrice_price_amount (a1 a2 yesPool noPool : ℚ) (position : String) :
    (calculatePrice a1 yesPool noPool position).price
      = (calculatePrice a2 yesPool noPool position).price := by
  by_cases hpos : position = "yes" <;> simp [calculatePrice, hpos]

/-- C20, amended: in exact rational arithmetic, for positive pools and a fixed
side, a larger amount buys strictly more shares. -/
theorem calculatePrice_shares_strictMono (a1 a2 yesPool noPool : ℚ) (position : String)
    (hy : 0 < yesPool) (hn : 0 < noPool) (h : a1 < a2) :
    (calculatePrice a1 yesPool noPool position).shares
      < (calculatePrice a2 yesPool noPool position).shares := by
  obtain ⟨hp1, hs1⟩ := calculatePrice_price_pos a1 yesPool noPool position hy hn
  obtain ⟨-, hs2⟩ := calculatePrice_price_pos a2 yesPool noPool position hy hn
  rw [hs1, hs2, ← calculatePrice_price_amount a1 a2 yesPool noPool position]
  exact div_lt_div_of_pos_right h hp1

/-- C20 witness: on pools 500/500 a yes order of 100 buys fewer shares than one
of 150, and likewise on the no side. -/
theorem calculatePrice_shares_strictMono_witness :
    (calculatePrice 100 500 500 "yes").shares < (calculatePrice 150 500 500 "yes").shares ∧
    (calculatePrice 100 500 500 "no").shares < (calculatePrice 150 500 500 "no").shares :=
  ⟨calculatePrice_shares_strictMono 100 150 500 500 "yes" (by norm_num) (by norm_num)
      (by norm_num),
   calculatePrice_shares_strictMono 100 150 500 500 "no" (by norm_num) (by norm_num)
      (by norm_num)⟩

/-! ### Placing a bet -/

/-- C12: on an open contract, a bet by an existing user whose balance is below
the amount is answered with status 400, `Insufficient prediction coins`, and
the store is returned unchanged: no bet row, no pool or probability change, no
price point and no balance change. -/
theorem placeBet_insufficient_funds (s : Store) (contractId userId : ℤ)
    (position : String) (amount : ℚ) (contract : Contract) (user : User)
    (hc : getContract s.market_contracts contractId = some contract)
    (ho : contract.status = "open")
    (hu : getUser s.users userId = some user)
    (hlt : user.prediction_coins < amount) :
    placeBet s contractId userId position amount
      = (s, .error 400 "Insufficient prediction coins") ∧
    (placeBet s contractId userId position amount).1.market_bets = s.market_bets ∧
    (placeBet s contractId userId position amount).1.market_contracts
      = s.market_contracts ∧
    (placeBet s contractId userId position amount).1.contract_price_history
      = s.contract_price_history ∧
    (placeBet s contractId userId position amount).1.users = s.users ∧
    (placeBetRoute s contractId userId position amount).1 = s ∧
    (0 < contractId → validateBetPlacement userId position amount = [] →
      placeBetRoute s contractId userId position amount
        = (s, .error 400 "Insufficient prediction coins")) := by
  have hmain : placeBet s contractId userId position amount
      = (s, .error 400 "Insufficient prediction coins") := by
    simp only [placeBet, hc, hu, ho, ne_eq, not_true_eq_false, if_false, hlt, if_true]
  refine ⟨hmain, by rw [hmain], by rw [hmain], by rw [hmain], by rw [hmain], ?_, ?_⟩
  · unfold placeBetRoute
    split_ifs
    · rfl
    · rfl
    · rw [hmain]
  · intro hpos hval
    unfold placeBetRoute
    rw [if_neg (not_le.mpr hpos), if_neg (by simp [hval]), hmain]

/-- C12 witness: seeded user 2 holds 1000 coins and asks for 1200 on the open
contract 1. -/
theorem placeBet_insufficient_funds_witness :
    placeBet seedStore 1 2 "yes" 1200
      = (seedStore, .error 400 "Insufficient prediction coins") ∧
    placeBetRoute seedStore 1 2 "yes" 1200
      = (seedStore, .error 400 "Insufficient prediction coins") := by
  have h := placeBet_insufficient_funds seedStore 1 2 "yes" 1200
    { id := 1, title := "Will it rain tomorrow?", status := "open",
      resolution := none, current_yes_probability := 1 / 2,
      liquidity_pool := 1000, yes_pool := 500, no_pool := 500,
      category := "weather" }
    { id := 2, prediction_coins := 1000 } rfl rfl rfl (by norm_num)
  refine ⟨h.1, h.2.2.2.2.2.2 (by decide) ?_⟩
  simp [validateBetPlacement]
  norm_num

/-- C13: a bet on a contract whose status is not `open` is answered with status
400 and the store is returned unchanged; a bet on a missing contract is
answered with status 404, `Contract not found`, whether or not the user
exists. The seeded contract 3 is closed and no contract 9 is seeded. -/
theorem placeBet_not_open (s : Store) (contractId userId : ℤ)
    (position : String) (amount : ℚ) :
    (∀ contract, getContract s.market_contracts contractId = some contract →
      contract.status ≠ "open" →
      placeBet s contractId userId position amount
        = (s, .error 400 "Contract is not open for betting") ∧
      (placeBetRoute s contractId userId position amount).1 = s) ∧
    (getContract s.market_contracts contractId = none →
      placeBet s contractId userId position amount
        = (s, .error 404 "Contract not found") ∧
      (placeBetRoute s contractId userId position amount).1 = s) ∧
    (getContract s.market_contracts contractId = none → getUser s.users userId = none →
      placeBet s contractId userId position amount
        = (s, .error 404 "Contract not found")) ∧
    placeBet seedStore 3 2 "yes" 100
      = (seedStore, .error 400 "Contract is not open for betting") ∧
    placeBet seedStore 9 7 "yes" 100 = (seedStore, .error 404 "Contract not found") := by
  have hclosed : ∀ contract, getContract s.market_contracts contractId = some contract →
      contract.status ≠ "open" →
      placeBet s contractId userId position amount
        = (s, .error 400 "Contract is not open for betting") := by
    intro contract hc hs
    simp only [placeBet, hc, hs, ne_eq, not_false_eq_true, if_true]
  have hmissing : getContract s.market_contracts contractId = none →
      placeBet s contractId userId position amount
        = (s, .error 404 "Contract not found") := by
    intro hc
    simp only [placeBet, hc]
  have hroute : ∀ r : Store × BetResponse, placeBet s contractId userId position amount = r →
      r.1 = s → (placeBetRoute s contractId userId position amount).1 = s := by
    intro r hr hrs
    unfold placeBetRoute
    split_ifs
    · rfl
    · rfl
    · rw [hr, hrs]
  refine ⟨?_, ?_, ?_, rfl, rfl⟩
  · intro contract hc hs
    exact ⟨hclosed contract hc hs, hroute _ (hclosed contract hc hs) rfl⟩
  · intro hc
    exact ⟨hmissing hc, hroute _ (hmissing hc) rfl⟩
  · intro hc _
    exact hmissing hc

/-- The users table after the handler: untouched, or debited for a user whose
balance covers the amount. -/
theorem placeBet_users (s : Store) (contractId userId : ℤ) (position : String)
    (amount : ℚ) :
    (placeBet s contractId userId position amount).1.users = s.users ∨
    ∃ user, getUser s.users userId = some user ∧ amount ≤ user.prediction_coins ∧
      (placeBet s contractId userId position amount).1.users
        = s.users.map (fun u =>
            if u.id = userId then
              { u with prediction_coins := u.prediction_coins - amount }
            else u) := by
  unfold placeBet
  cases hc : getContract s.market_contracts contractId with
  | none => left; rfl
  | some contract =>
    by_cases ho : contract.status = "open"
    · cases hu : getUser s.users userId with
      | none => left; simp [ho]
      | some user =>
        by_cases hlt : user.prediction_coins < amount
        · left; simp [ho, hlt]
        · by_cases hp : position = "yes" ∨ position = "no"
          · right
            refine ⟨user, rfl, not_lt.mp hlt, ?_⟩
            simp [ho, hlt, hp]
          · left; simp [ho, hlt, hp]
    · left; simp [ho]

/-- An accepted bet went through every check of the handler. -/
theorem placeBet_placed (s s2 : Store) (contractId userId : ℤ) (position : String)
    (amount : ℚ) (bet : PlacedBet)
    (h : placeBet s contractId userId position amount = (s2, .placed bet)) :
    ∃ user, getUser s.users userId = some user ∧ amount ≤ user.prediction_coins ∧
      s2.users = s.users.map (fun u =>
        if u.id = userId then
          { u with prediction_coins := u.prediction_coins - amount }
        else u) := by
  unfold placeBet at h
  cases hc : getContract s.market_contracts contractId with
  | none => rw [hc] at h; simp at h
  | some contract =>
    rw [hc] at h
    by_cases ho : contract.status = "open"
    · cases hu : getUser s.users userId with
      | none => rw [hu] at h; simp [ho] at h
      | some user =>
        rw [hu] at h
        by_cases hlt : user.prediction_coins < amount
        · simp [ho, hlt] at h
        · by_cases hp : position = "yes" ∨ position = "no"
          · refine ⟨user, rfl, not_lt.mp hlt, ?_⟩
            simp only [ho, hlt, hp, ne_eq, not_true_eq_false, if_false, not_false_eq_true,
              Prod.mk.injEq] at h
            rw [← h.1]
          · simp [ho, hlt, hp] at h
    · simp [ho] at h

/-- The route accepts a bet only if the handler does. -/
theorem placeBetRoute_placed (s s2 : Store) (contractId userId : ℤ) (position : String)
    (amount : ℚ) (bet : PlacedBet)
    (h : placeBetRoute s contractId userId position amount = (s2, .placed bet)) :
    placeBet s contractId userId position amount = (s2, .placed bet) := by
  unfold placeBetRoute at h
  split_ifs at h
  · simp at h
  · simp at h
  · exact h

/-- The row read back after a debit carries the reduced balance. -/
theorem getUser_debit (userId : ℤ) (amount : ℚ) (user : User) :
    ∀ (users : List User), getUser users userId = some user →
      getUser (users.map (fun u =>
        if u.id = userId then
          { u with prediction_coins := u.prediction_coins - amount }
        else u)) userId
        = some { user with prediction_coins := user.prediction_coins - amount }
  | [], h => by simp [getUser] at h
  | a :: users, h => by
    have ih := getUser_debit userId amount user users
    unfold getUser at *
    by_cases ha : a.id = userId
    · simp only [List.find?, ha, decide_True, Option.some.injEq] at h
      subst h
      simp [List.find?, ha]
    · simp only [List.find?, ha, decide_False] at h
      simpa [List.find?, ha] using ih h

/-- With unique keys, the row found for a key is the only row with that key. -/
theorem getUser_unique (userId : ℤ) (user : User) :
    ∀ (users : List User), (users.map (fun u => u.id)).Nodup →
      getUser users userId = some user → ∀ u ∈ users, u.id = userId → u = user
  | [], _, h => by simp [getUser] at h
  | a :: users, hnd, h => by
    intro u hu hid
    have ih := getUser_unique userId user users
    rw [List.map_cons, List.nodup_cons] at hnd
    unfold getUser at *
    by_cases ha : a.id = userId
    · simp only [List.find?, ha, decide_True, Option.some.injEq] at h
      subst h
      rcases List.mem_cons.mp hu with rfl | hmem
      · rfl
      · exfalso
        apply hnd.1
        rw [ha, ← hid]
        exact List.mem_map_of_mem (fun u => u.id) hmem
    · simp only [List.find?, ha, decide_False] at h
      rcases List.mem_cons.mp hu with rfl | hmem
      · exact absurd hid ha
      · exact ih hnd.2 h u hmem hid

/-- One request keeps the keys of `users` and, when they are unique, keeps
every balance non-negative. -/
theorem placeBetRoute_invariant (s : Store) (contractId userId : ℤ) (position : String)
    (amount : ℚ) (hpk : (s.users.map (fun u => u.id)).Nodup)
    (hnn : ∀ u ∈ s.users, 0 ≤ u.prediction_coins) :
    ((placeBetRoute s contractId userId position amount).1.users.map
        (fun u => u.id)).Nodup ∧
    ∀ u ∈ (placeBetRoute s contractId userId position amount).1.users,
      0 ≤ u.prediction_coins := by
  have hstep : (placeBetRoute s contractId userId position amount).1.users = s.users ∨
      ∃ user, getUser s.users userId = some user ∧ amount ≤ user.prediction_coins ∧
        (placeBetRoute s contractId userId position amount).1.users
          = s.users.map (fun u =>
              if u.id = userId then
                { u with prediction_coins := u.prediction_coins - amount }
              else u) := by
    unfold placeBetRoute
    split_ifs
    · left; rfl
    · left; rfl
    · exact placeBet_users s contractId userId position amount
  rcases hstep with heq | ⟨user, hget, hle, heq⟩
  · rw [heq]; exact ⟨hpk, hnn⟩
  · rw [heq]
    constructor
    · have hids : (s.users.map (fun u =>
          if u.id = userId then
            { u with prediction_coins := u.prediction_coins - amount }
          else u)).map (fun u => u.id) = s.users.map (fun u => u.id) := by
        rw [List.map_map]
        apply List.map_congr_left
        intro u _
        by_cases hu : u.id = userId <;> simp [hu]
      rw [hids]; exact hpk
    · intro u hu
      obtain ⟨u0, hu0, rfl⟩ := List.mem_map.mp hu
      by_cases hid : u0.id = userId
      · have := getUser_unique userId user s.users hpk hget u0 hu0 hid
        subst this
        simp only [hid, if_true]
        linarith
      · simp only [hid, if_false]
        exact hnn u0 hu0

/-- C14: with unique user keys, an accepted bet of amount `a` by a user holding
`B` coins has `a ≤ B` and leaves exactly `B - a`; so balances that are all
non-negative stay non-negative over any sequence of place-bet requests. -/
theorem placeBet_balance (s : Store) (hpk : (s.users.map (fun u => u.id)).Nodup) :
    (∀ (contractId userId : ℤ) (position : String) (amount : ℚ) (s2 : Store)
        (bet : PlacedBet),
      placeBetRoute s contractId userId position amount = (s2, .placed bet) →
      ∃ user, getUser s.users userId = some user ∧
        amount ≤ user.prediction_coins ∧
        getUser s2.users userId
          = some { user with prediction_coins := user.prediction_coins - amount } ∧
        0 ≤ user.prediction_coins - amount) ∧
    (∀ requests : List BetRequest, (∀ u ∈ s.users, 0 ≤ u.prediction_coins) →
      ∀ u ∈ (placeBets s requests).users, 0 ≤ u.prediction_coins) := by
  constructor
  · intro contractId userId position amount s2 bet h
    obtain ⟨user, hget, hle, husers⟩ :=
      placeBet_placed s s2 contractId userId position amount bet
        (placeBetRoute_placed s s2 contractId userId position amount bet h)
    refine ⟨user, hget, hle, ?_, by linarith⟩
    rw [husers]
    exact getUser_debit userId amount user s.users hget
  · intro requests
    unfold placeBets
    induction requests generalizing s with
    | nil => intro hnn; exact hnn
    | cons r rest ih =>
      intro hnn
      obtain ⟨hpk2, hnn2⟩ :=
        placeBetRoute_invariant s r.contractId r.userId r.position r.amount hpk hnn
      exact ih _ hpk2 hnn2

/-- C14 witness: seeded user 2 (1000 coins) places 100 on contract 1 and keeps
900; after two requests of 600 each, the second of which is refused, no
seeded balance is negative. -/
theorem placeBet_balance_witness :
    (∃ user, getUser seedStore.users 2 = some user ∧
      (100 : ℚ) ≤ user.prediction_coins ∧
      getUser (placeBetRoute seedStore 1 2 "yes" 100).1.users 2
        = some { user with prediction_coins := user.prediction_coins - 100 } ∧
      0 ≤ user.prediction_coins - 100) ∧
    ∀ u ∈ (placeBets seedStore
        [ { contractId := 1, userId := 2, position := "yes", amount := 600 },
          { contractId := 1, userId := 2, position := "no", amount := 600 } ]).users,
      0 ≤ u.prediction_coins := by
  have h := placeBet_balance seedStore (by decide)
  have hbet : ∃ bet, placeBetRoute seedStore 1 2 "yes" 100
      = ((placeBetRoute seedStore 1 2 "yes" 100).1, .placed bet) := ⟨_, rfl⟩
  obtain ⟨bet, hbet⟩ := hbet
  refine ⟨h.1 1 2 "yes" 100 _ bet hbet, h.2 _ ?_⟩
  intro u hu
  simp only [seedStore, List.mem_cons, List.mem_singleton, List.not_mem_nil, or_false] at hu
  rcases hu with rfl | rfl | rfl <;> norm_num

/-! ### Resolving a contract -/

/-- The amount one pass of the settlement loop credits and adds to the total. -/
theorem settleBet_total (resolution : String) (totalPool : ℚ) (acc : Store × ℚ) (bet : Bet) :
    (settleBet resolution totalPool acc bet).2
      = acc.2 + (if calculateActualPayout bet.shares totalPool bet.position resolution > 0
          then calculateActualPayout bet.shares totalPool bet.position resolution else 0) := by
  unfold settleBet
  by_cases h : calculateActualPayout bet.shares totalPool bet.position resolution > 0
  · simp only [h, if_true]
  · simp only [h, if_false, add_zero]

theorem settleBet_users (resolution : String) (totalPool : ℚ) (acc : Store × ℚ) (bet : Bet) :
    (settleBet resolution totalPool acc bet).1.users
      = acc.1.users.map (fun u =>
          { u with prediction_coins := u.prediction_coins +
              (if u.id = bet.user_id ∧
                  calculateActualPayout bet.shares totalPool bet.position resolution > 0
                then calculateActualPayout bet.shares totalPool bet.position resolution
                else 0) }) := by
  unfold settleBet
  by_cases h : calculateActualPayout bet.shares totalPool bet.position resolution > 0
  · simp only [h, if_true, and_true]
    apply List.map_congr_left
    intro u _
    by_cases hu : u.id = bet.user_id <;> simp [hu]
  · simp only [h, if_false, and_false, add_zero]
    exact (List.map_id _).symm

theorem settleBet_bets (resolution : String) (totalPool : ℚ) (acc : Store × ℚ) (bet : Bet) :
    (settleBet resolution totalPool acc bet).1.market_bets
      = acc.1.market_bets.map (fun b =>
          if b.id = bet.id then
            { b with payout_amount :=
                calculateActualPayout bet.shares totalPool bet.position resolution }
          else b) := by
  unfold settleBet
  by_cases h : calculateActualPayout bet.shares totalPool bet.position resolution > 0
  · simp only [h, if_true]
  · simp only [h, if_false]

theorem settleBet_contracts (resolution : String) (totalPool : ℚ) (acc : Store × ℚ)
    (bet : Bet) :
    (settleBet resolution totalPool acc bet).1.market_contracts = acc.1.market_contracts ∧
    (settleBet resolution totalPool acc bet).1.contract_price_history
      = acc.1.contract_price_history := by
  unfold settleBet
  by_cases h : calculateActualPayout bet.shares totalPool bet.position resolution > 0
  · simp only [h, if_true, and_self]
  · simp only [h, if_false, and_self]

/-- The settlement loop leaves contracts and price history alone. -/
theorem settle_contracts (resolution : String) (totalPool : ℚ) (bets : List Bet) :
    ∀ acc : Store × ℚ,
      (bets.foldl (settleBet resolution totalPool) acc).1.market_contracts
        = acc.1.market_contracts ∧
      (bets.foldl (settleBet resolution totalPool) acc).1.contract_price_history
        = acc.1.contract_price_history := by
  induction bets with
  | nil => intro acc; exact ⟨rfl, rfl⟩
  | cons b rest ih =>
    intro acc
    rw [List.foldl_cons]
    obtain ⟨h1, h2⟩ := ih (settleBet resolution totalPool acc b)
    obtain ⟨h3, h4⟩ := settleBet_contracts resolution totalPool acc b
    exact ⟨h1.trans h3, h2.trans h4⟩

/-- The total reported by the settlement loop. -/
theorem settle_total (resolution : String) (totalPool : ℚ) (bets : List Bet) :
    ∀ acc : Store × ℚ,
      (bets.foldl (settleBet resolution totalPool) acc).2
        = acc.2 + (bets.map (fun bet =>
            if calculateActualPayout bet.shares totalPool bet.position resolution > 0
            then calculateActualPayout bet.shares totalPool bet.position resolution
            else 0)).sum := by
  induction bets with
  | nil => intro acc; simp
  | cons b rest ih =>
    intro acc
    rw [List.foldl_cons, ih, settleBet_total, List.map_cons, List.sum_cons, add_assoc]

/-- The balances after the settlement loop. -/
theorem settle_users (resolution : String) (totalPool : ℚ) (bets : List Bet) :
    ∀ acc : Store × ℚ,
      (bets.foldl (settleBet resolution totalPool) acc).1.users
        = acc.1.users.map (fun u =>
            { u with prediction_coins := u.prediction_coins +
                (bets.map (fun bet =>
                  if u.id = bet.user_id ∧
                      calculateActualPayout bet.shares totalPool bet.position resolution > 0
                  then calculateActualPayout bet.shares totalPool bet.position resolution
                  else 0)).sum }) := by
  induction bets with
  | nil =>
    intro acc
    simp only [List.foldl_nil, List.map_nil, List.sum_nil, add_zero]
    exact (List.map_id _).symm
  | cons b rest ih =>
    intro acc
    rw [List.foldl_cons, ih, settleBet_users, List.map_map]
    apply List.map_congr_left
    intro u _
    simp only [Function.comp_apply, List.map_cons, List.sum_cons, add_assoc]

/-- The bet rows after the settlement loop over bets with distinct keys. -/
theorem settle_bets (resolution : String) (totalPool : ℚ) (bets : List Bet) :
    (bets.map (fun b => b.id)).Nodup →
    ∀ acc : Store × ℚ,
      (bets.foldl (settleBet resolution totalPool) acc).1.market_bets
        = acc.1.market_bets.map (fun row =>
            match bets.find? (fun b => decide (b.id = row.id)) with
            | some b =>
              { row with payout_amount :=
                  calculateActualPayout b.shares totalPool b.position resolution }
            | none => row) := by
  induction bets with
  | nil =>
    intro _ acc
    simp only [List.foldl_nil, List.find?_nil]
    exact (List.map_id _).symm
  | cons b rest ih =>
    intro hnd acc
    rw [List.map_cons, List.nodup_cons] at hnd
    rw [List.foldl_cons, ih hnd.2, settleBet_bets, List.map_map]
    apply List.map_congr_left
    intro row _
    simp only [Function.comp_apply, List.find?_cons]
    by_cases hid : row.id = b.id
    · have hnone : rest.find? (fun x => decide (x.id = b.id)) = none := by
        rw [List.find?_eq_none]
        intro x hx hxid
        apply hnd.1
        rw [← of_decide_eq_true hxid]
        exact List.mem_map_of_mem (fun b => b.id) hx
      simp [hid, hnone]
    · have hne : ¬ b.id = row.id := fun hc => hid hc.symm
      simp [hid, hne]

/-- In a table with distinct keys, looking a row's key up among the rows that
pass a filter finds the row itself, or nothing when the row does not pass. -/
theorem find_filter_key (p : Bet → Bool) :
    ∀ (table : List Bet), (table.map (fun b => b.id)).Nodup → ∀ row ∈ table,
      (table.filter p).find? (fun b => decide (b.id = row.id))
        = if p row = true then some row else none
  | [], _, row, hrow => by simp at hrow
  | a :: table, hnd, row, hrow => by
    rw [List.map_cons, List.nodup_cons] at hnd
    have ih := find_filter_key p table hnd.2
    have hfresh : ∀ x ∈ table.filter p, ¬ x.id = a.id := by
      intro x hx hxid
      apply hnd.1
      rw [← hxid]
      exact List.mem_map_of_mem (fun b => b.id) (List.mem_filter.mp hx).1
    rcases List.mem_cons.mp hrow with rfl | hmem
    · by_cases hp : p row = true
      · simp [List.filter_cons, hp]
      · have hnone : (table.filter p).find? (fun b => decide (b.id = row.id)) = none := by
          rw [List.find?_eq_none]
          intro x hx hxid
          exact hfresh x hx (of_decide_eq_true hxid)
        simp [List.filter_cons, hp, hnone]
    · have hne : ¬ a.id = row.id := by
        intro hc
        apply hnd.1
        rw [hc]
        exact List.mem_map_of_mem (fun b => b.id) hmem
      by_cases hp : p a = true
      · simp only [List.filter_cons, hp, if_true, List.find?_cons, hne, decide_False]
        exact ih row hmem
      · simp only [List.filter_cons, hp, if_false]
        exact ih row hmem

/-- A sum of values guarded by a test is the sum over the rows passing it. -/
theorem sum_guarded {α : Type} (c : α → Prop) [DecidablePred c] (f : α → ℚ) :
    ∀ (xs : List α),
      (xs.map (fun x => if c x then f x else 0)).sum
        = ((xs.filter (fun x => decide (c x))).map f).sum
  | [] => rfl
  | x :: xs => by
    have ih := sum_guarded c f xs
    by_cases hx : c x
    · simp [List.filter_cons, hx, ih]
    · simp [List.filter_cons, hx, ih]

/-- A contract that is found is changed by the closing update. -/
theorem getContract_changes (contracts : List Contract) (contractId : ℤ) (contract : Contract)
    (hc : getContract contracts contractId = some contract) :
    (contracts.filter fun c => decide (c.id = contractId)).length ≠ 0 := by
  have hmem : contract ∈ contracts := List.mem_of_find?_eq_some hc
  have hp : decide (contract.id = contractId) = true := by
    unfold getContract at hc
    have h := List.find?_eq_some.mp hc
    exact h.1
  have : contract ∈ contracts.filter fun c => decide (c.id = contractId) :=
    List.mem_filter.mpr ⟨hmem, hp⟩
  exact Nat.pos_iff_ne_zero.mp (List.length_pos_of_mem this)

/-- The store and the response of the resolve handler for a contract that
exists, whatever its status, a resolution in the `CHECK` list and bet rows
with distinct keys. -/
theorem resolveContract_found (s : Store) (contractId : ℤ) (resolution : String)
    (contract : Contract)
    (hc : getContract s.market_contracts contractId = some contract)
    (hr : resolution = "yes" ∨ resolution = "no")
    (hpk : (s.market_bets.map (fun b => b.id)).Nodup) :
    (resolveContract s contractId resolution).1.market_contracts
      = s.market_contracts.map (fun c =>
          if c.id = contractId then
            { c with status := "closed", resolution := some resolution }
          else c) ∧
    (resolveContract s contractId resolution).1.contract_price_history
      = s.contract_price_history ∧
    (resolveContract s contractId resolution).1.market_bets
      = s.market_bets.map (fun b =>
          if b.contract_id = contractId then
            { b with
              payout_amount :=
                calculateActualPayout b.shares (contract.yes_pool + contract.no_pool)
                  b.position resolution }
          else b) ∧
    (resolveContract s contractId resolution).1.users
      = s.users.map (fun u =>
          { u with prediction_coins := u.prediction_coins +
              ((s.market_bets.filter fun b => decide (b.contract_id = contractId)).map
                (fun bet =>
                  if u.id = bet.user_id ∧
                      calculateActualPayout bet.shares (contract.yes_pool + contract.no_pool)
                        bet.position resolution > 0
                  then calculateActualPayout bet.shares (contract.yes_pool + contract.no_pool)
                    bet.position resolution
                  else 0)).sum }) ∧
    (resolveContract s contractId resolution).2
      = .resolved
          { contractId := contractId
            resolution := resolution
            totalPayouts :=
              ((s.market_bets.filter fun b => decide (b.contract_id = contractId)).map
                (fun bet =>
                  if calculateActualPayout bet.shares (contract.yes_pool + contract.no_pool)
                      bet.position resolution > 0
                  then calculateActualPayout bet.shares (contract.yes_pool + contract.no_pool)
                    bet.position resolution
                  else 0)).sum
            totalBets :=
              (s.market_bets.filter fun b => decide (b.contract_id = contractId)).length } := by
  have hch := getContract_changes s.market_contracts contractId contract hc
  have hnd : ((s.market_bets.filter fun b => decide (b.contract_id = contractId)).map
      (fun b => b.id)).Nodup :=
    hpk.sublist (List.Sublist.map _ (List.filter_sublist _))
  simp only [resolveContract, hc, hr, not_true_eq_false, if_false, hch]
  refine ⟨?_, ?_, ?_, ?_, ?_⟩
  · rw [(settle_contracts _ _ _ _).1]
  · rw [(settle_contracts _ _ _ _).2]
  · rw [settle_bets _ _ _ hnd]
    apply List.map_congr_left
    intro row hrow
    rw [find_filter_key _ s.market_bets hpk row hrow]
    by_cases hcid : row.contract_id = contractId <;> simp [hcid]
  · rw [settle_users]
  · rw [settle_total, zero_add]

/-- The resolve route runs the handler on a positive contract key and a
resolution in the validated list. -/
theorem resolveContractRoute_valid (s : Store) (contractId : ℤ) (resolution : String)
    (hid : 0 < contractId) (hr : resolution = "yes" ∨ resolution = "no") :
    resolveContractRoute s contractId resolution = resolveContract s contractId resolution := by
  have hne : resolution ≠ "" := by
    rcases hr with rfl | rfl <;> decide
  unfold resolveContractRoute validateContractResolution
  rw [if_neg (not_le.mpr hid)]
  simp [hne, hr]

/-- The value of `twoBetStore`: pools 600/600, balances 1000, 900, 900, a yes
bet of 200 shares bought at 1/2 and a no bet of 220 shares bought at 5/11. -/
theorem twoBetStore_eq :
    twoBetStore =
      { users :=
          [ { id := 1, prediction_coins := 1000 },
            { id := 2, prediction_coins := 900 },
            { id := 3, prediction_coins := 900 } ]
        market_contracts :=
          [ { id := 1, title := "Will it rain tomorrow?", status := "open",
              resolution := none, current_yes_probability := 1 / 2,
              liquidity_pool := 1000, yes_pool := 600, no_pool := 600,
              category := "weather" },
            { id := 2, title := "Will the stock market go up?", status := "open",
              resolution := none, current_yes_probability := 1 / 2,
              liquidity_pool := 1000, yes_pool := 500, no_pool := 500,
              category := "finance" },
            { id := 3, title := "Will the home team win?", status := "closed",
              resolution := none, current_yes_probability := 1 / 2,
              liquidity_pool := 1000, yes_pool := 500, no_pool := 500,
              category := "sports" } ]
        market_bets :=
          [ { id := 1, user_id := 2, contract_id := 1, position := "yes",
              amount := 100, shares := 200, purchase_price := 1 / 2,
              potential_payout := 275, payout_amount := 0 },
            { id := 2, user_id := 3, contract_id := 1, position := "no",
              amount := 100, shares := 220, purchase_price := 5 / 11,
              potential_payout := 13200 / 41, payout_amount := 0 } ]
        contract_price_history :=
          [ { contract_id := 1, yes_probability := 6 / 11, yes_pool := 600,
              no_pool := 500 },
            { contract_id := 1, yes_probability := 1 / 2, yes_pool := 600,
              no_pool := 600 } ] } := by
  simp [twoBetStore, placeBetRoute, validateBetPlacement, placeBet, seedStore, getContract,
    getUser, List.find?, calculatePrice, calculateProbability, calculatePotentialPayout,
    nextBetId]
  norm_num

/-- The value of `resolvedStore`: contract 1 closed with resolution yes, the
yes bet paid 200 to user 2, the no bet paid nothing. -/
theorem resolvedStore_eq :
    resolvedStore =
      { users :=
          [ { id := 1, prediction_coins := 1000 },
            { id := 2, prediction_coins := 1100 },
            { id := 3, prediction_coins := 900 } ]
        market_contracts :=
          [ { id := 1, title := "Will it rain tomorrow?", status := "closed",
              resolution := some "yes", current_yes_probability := 1 / 2,
              liquidity_pool := 1000, yes_pool := 600, no_pool := 600,
              category := "weather" },
            { id := 2, title := "Will the stock market go up?", status := "open",
              resolution := none, current_yes_probability := 1 / 2,
              liquidity_pool := 1000, yes_pool := 500, no_pool := 500,
              category := "finance" },
            { id := 3, title := "Will the home team win?", status := "closed",
              resolution := none, current_yes_probability := 1 / 2,
              liquidity_pool := 1000, yes_pool := 500, no_pool := 500,
              category := "sports" } ]
        market_bets :=
          [ { id := 1, user_id := 2, contract_id := 1, position := "yes",
              amount := 100, shares := 200, purchase_price := 1 / 2,
              potential_payout := 275, payout_amount := 200 },
            { id := 2, user_id := 3, contract_id := 1, position := "no",
              amount := 100, shares := 220, purchase_price := 5 / 11,
              potential_payout := 13200 / 41, payout_amount := 0 } ]
        contract_price_history :=
          [ { contract_id := 1, yes_probability := 6 / 11, yes_pool := 600,
              no_pool := 500 },
            { contract_id := 1, yes_probability := 1 / 2, yes_pool := 600,
              no_pool := 600 } ] } := by
  unfold resolvedStore
  rw [twoBetStore_eq]
  simp [resolveContractRoute, validateContractResolution, resolveContract, getContract,
    List.find?, settleBet, calculateActualPayout]
  norm_num

/-- The closing update is what a later read of the contract returns. -/
theorem getContract_close (contractId : ℤ) (resolution : String) (contract : Contract) :
    ∀ (contracts : List Contract), getContract contracts contractId = some contract →
      getContract (contracts.map (fun c =>
        if c.id = contractId then
          { c with status := "closed", resolution := some resolution }
        else c)) contractId
        = some { contract with status := "closed", resolution := some resolution }
  | [], h => by simp [getContract] at h
  | a :: contracts, h => by
    have ih := getContract_close contractId resolution contract contracts
    unfold getContract at *
    by_cases ha : a.id = contractId
    · simp only [List.find?, ha, decide_True, Option.some.injEq] at h
      subst h
      simp [List.find?, ha]
    · simp only [List.find?, ha, decide_False] at h
      simpa [List.find?, ha] using ih h

/-- C16: for an existing contract, a resolution `r` in {yes, no} and bets of
the contract with positive shares (bet keys being distinct), resolving sets
each of its bets' `payout_amount` to the shares if the position equals `r` and
to 0 otherwise, leaves the other bets alone, adds to each user's balance the
sum of the shares of that user's bets on the contract with position `r`, and
reports that sum over all users as `totalPayouts` and the number of the
contract's bets as `totalBets`. -/
theorem resolveContract_payouts (s : Store) (contractId : ℤ) (resolution : String)
    (contract : Contract)
    (hc : getContract s.market_contracts contractId = some contract)
    (hr : resolution = "yes" ∨ resolution = "no")
    (hpk : (s.market_bets.map (fun b => b.id)).Nodup)
    (hpos : ∀ b ∈ s.market_bets, b.contract_id = contractId → 0 < b.shares) :
    (resolveContract s contractId resolution).1.market_bets
      = s.market_bets.map (fun b =>
          if b.contract_id = contractId then
            { b with payout_amount := if b.position = resolution then b.shares else 0 }
          else b) ∧
    (resolveContract s contractId resolution).1.users
      = s.users.map (fun u =>
          { u with prediction_coins := u.prediction_coins +
              (((s.market_bets.filter fun b => decide (b.contract_id = contractId)).filter
                  fun b => decide (b.user_id = u.id ∧ b.position = resolution)).map
                (fun b => b.shares)).sum }) ∧
    (resolveContract s contractId resolution).2
      = .resolved
          { contractId := contractId
            resolution := resolution
            totalPayouts :=
              (((s.market_bets.filter fun b => decide (b.contract_id = contractId)).filter
                  fun b => decide (b.position = resolution)).map (fun b => b.shares)).sum
            totalBets :=
              (s.market_bets.filter fun b => decide (b.contract_id = contractId)).length } ∧
    (0 < contractId →
      resolveContractRoute s contractId resolution
        = resolveContract s contractId resolution) := by
  obtain ⟨-, -, hb, hu, hresp⟩ := resolveContract_found s contractId resolution contract hc hr hpk
  have hpay : ∀ b ∈ s.market_bets.filter (fun b => decide (b.contract_id = contractId)),
      calculateActualPayout b.shares (contract.yes_pool + contract.no_pool) b.position resolution
        = (if b.position = resolution then b.shares else 0) ∧
      (calculateActualPayout b.shares (contract.yes_pool + contract.no_pool) b.position
          resolution > 0 ↔ b.position = resolution) := by
    intro b hbm
    obtain ⟨hmem, hcid⟩ := List.mem_filter.mp hbm
    have hsh := hpos b hmem (of_decide_eq_true hcid)
    unfold calculateActualPayout
    by_cases hp : b.position = resolution
    · simp [hp, hsh]
    · simp [hp]
  refine ⟨?_, ?_, ?_, fun hid => resolveContractRoute_valid s contractId resolution hid hr⟩
  · rw [hb]
    apply List.map_congr_left
    intro b _
    by_cases hcid : b.contract_id = contractId
    · simp only [hcid, if_true]
      unfold calculateActualPayout
      by_cases hp : b.position = resolution <;> simp [hp]
    · simp only [hcid, if_false]
  · rw [hu]
    apply List.map_congr_left
    intro u _
    rw [← sum_guarded (fun b : Bet => b.user_id = u.id ∧ b.position = resolution)
      (fun b => b.shares)]
    congr 3
    apply List.map_congr_left
    intro b hbm
    obtain ⟨h1, h2⟩ := hpay b hbm
    by_cases hp : b.position = resolution
    · by_cases hid : u.id = b.user_id
      · rw [if_pos ⟨hid, h2.mpr hp⟩, if_pos ⟨hid.symm, hp⟩, h1, if_pos hp]
      · have hid2 : ¬ b.user_id = u.id := fun hc => hid hc.symm
        rw [if_neg (fun hc => hid hc.1), if_neg (fun hc => hid2 hc.1)]
    · rw [if_neg (fun hc => hp (h2.mp hc.2)), if_neg (fun hc => hp hc.2)]
  · rw [hresp]
    congr 2
    rw [← sum_guarded (fun b : Bet => b.position = resolution) (fun b => b.shares)]
    congr 1
    apply List.map_congr_left
    intro b hbm
    obtain ⟨h1, h2⟩ := hpay b hbm
    by_cases hp : b.position = resolution
    · rw [if_pos (h2.mpr hp), if_pos hp, h1, if_pos hp]
    · rw [if_neg (fun hc => hp (h2.mp hc)), if_neg hp]

/-- C16 witness: on `twoBetStore` (a 200-share yes bet of user 2 and a
220-share no bet of user 3 on contract 1) resolving to yes stores the payouts
200 and 0, pays 200 to user 2 and reports total 200 over 2 bets. -/
theorem resolveContract_payouts_witness :
    (resolveContractRoute twoBetStore 1 "yes").1.market_bets.map
        (fun b => (b.id, b.payout_amount)) = [(1, 200), (2, 0)] ∧
    (resolveContractRoute twoBetStore 1 "yes").1.users
      = [ { id := 1, prediction_coins := 1000 },
          { id := 2, prediction_coins := 1100 },
          { id := 3, prediction_coins := 900 } ] ∧
    (resolveContractRoute twoBetStore 1 "yes").2
      = .resolved
          { contractId := 1, resolution := "yes", totalPayouts := 200, totalBets := 2 } := by
  have hc : getContract twoBetStore.market_contracts 1 = some
      { id := 1, title := "Will it rain tomorrow?", status := "open",
        resolution := none, current_yes_probability := 1 / 2,
        liquidity_pool := 1000, yes_pool := 600, no_pool := 600,
        category := "weather" } := by
    rw [twoBetStore_eq]; rfl
  have hpk : (twoBetStore.market_bets.map (fun b => b.id)).Nodup := by
    rw [twoBetStore_eq]; decide
  have hpos : ∀ b ∈ twoBetStore.market_bets, b.contract_id = 1 → 0 < b.shares := by
    rw [twoBetStore_eq]
    intro b hb _
    simp only [List.mem_cons, List.mem_singleton, List.not_mem_nil, or_false] at hb
    rcases hb with rfl | rfl <;> norm_num
  obtain ⟨hb, hu, hresp, hroute⟩ :=
    resolveContract_payouts twoBetStore 1 "yes" _ hc (Or.inl rfl) hpk hpos
  rw [hroute (by decide)]
  refine ⟨?_, ?_, ?_⟩
  · rw [hb, twoBetStore_eq]
    simp
  · rw [hu, twoBetStore_eq]
    simp
    norm_num
  · rw [hresp, twoBetStore_eq]
    simp

/-- C15 fails as stated: `resolvedStore` holds contract 1 closed with
resolution yes, the yes bet paid 200 and user 3 at 900 coins; resolving it
again to no is answered with the success summary, stores resolution no,
rewrites the payouts to 0 and 220 and credits 220 to user 3, while user 2 keeps
the 200 paid by the first resolution. -/
theorem resolveContract_closed_counterexample :
    getContract resolvedStore.market_contracts 1 = some
      { id := 1, title := "Will it rain tomorrow?", status := "closed",
        resolution := some "yes", current_yes_probability := 1 / 2,
        liquidity_pool := 1000, yes_pool := 600, no_pool := 600,
        category := "weather" } ∧
    (resolveContractRoute resolvedStore 1 "no").2
      = .resolved
          { contractId := 1, resolution := "no", totalPayouts := 220, totalBets := 2 } ∧
    (getContract (resolveContractRoute resolvedStore 1 "no").1.market_contracts 1).map
        (fun c => c.resolution) = some (some "no") ∧
    (resolveContractRoute resolvedStore 1 "no").1.market_bets.map
        (fun b => (b.id, b.payout_amount)) = [(1, 0), (2, 220)] ∧
    (resolveContractRoute resolvedStore 1 "no").1.users
      = [ { id := 1, prediction_coins := 1000 },
          { id := 2, prediction_coins := 1100 },
          { id := 3, prediction_coins := 1120 } ] ∧
    (resolveContractRoute resolvedStore 1 "no").1 ≠ resolvedStore := by
  have hev : resolveContractRoute resolvedStore 1 "no" =
      ({ users :=
          [ { id := 1, prediction_coins := 1000 },
            { id := 2, prediction_coins := 1100 },
            { id := 3, prediction_coins := 1120 } ]
         market_contracts :=
          [ { id := 1, title := "Will it rain tomorrow?", status := "closed",
              resolution := some "no", current_yes_probability := 1 / 2,
              liquidity_pool := 1000, yes_pool := 600, no_pool := 600,
              category := "weather" },
            { id := 2, title := "Will the stock market go up?", status := "open",
              resolution := none, current_yes_probability := 1 / 2,
              liquidity_pool := 1000, yes_pool := 500, no_pool := 500,
              category := "finance" },
            { id := 3, title := "Will the home team win?", status := "closed",
              resolution := none, current_yes_probability := 1 / 2,
              liquidity_pool := 1000, yes_pool := 500, no_pool := 500,
              category := "sports" } ]
         market_bets :=
          [ { id := 1, user_id := 2, contract_id := 1, position := "yes",
              amount := 100, shares := 200, purchase_price := 1 / 2,
              potential_payout := 275, payout_amount := 0 },
            { id := 2, user_id := 3, contract_id := 1, position := "no",
              amount := 100, shares := 220, purchase_price := 5 / 11,
              potential_payout := 13200 / 41, payout_amount := 220 } ]
         contract_price_history :=
          [ { contract_id := 1, yes_probability := 6 / 11, yes_pool := 600,
              no_pool := 500 },
            { contract_id := 1, yes_probability := 1 / 2, yes_pool := 600,
              no_pool := 600 } ] },
       .resolved
          { contractId := 1, resolution := "no", totalPayouts := 220, totalBets := 2 }) := by
    rw [resolvedStore_eq]
    simp [resolveContractRoute, validateContractResolution, resolveContract, getContract,
      List.find?, settleBet, calculateActualPayout]
    norm_num
  refine ⟨by rw [resolvedStore_eq]; rfl, by rw [hev], by rw [hev]; rfl, by rw [hev]; rfl,
    by rw [hev], ?_⟩
  rw [hev, resolvedStore_eq]
  simp

/-- C15, amended: resolving a contract that is already closed is not rejected.
With a resolution in {yes, no} (bet keys being distinct) the handler answers
with the success summary, as for a first resolution; the contract keeps every
column but `resolution`, which is overwritten with the new value; the payout of
every bet of the contract is rewritten for the new resolution; and every
positive payout is credited to its user again. -/
theorem resolveContract_closed (s : Store) (contractId : ℤ) (resolution : String)
    (contract : Contract)
    (hc : getContract s.market_contracts contractId = some contract)
    (hclosed : contract.status = "closed")
    (hr : resolution = "yes" ∨ resolution = "no")
    (hpk : (s.market_bets.map (fun b => b.id)).Nodup) :
    (∃ summary, (resolveContract s contractId resolution).2 = .resolved summary ∧
      summary.resolution = resolution) ∧
    getContract (resolveContract s contractId resolution).1.market_contracts contractId
      = some { contract with resolution := some resolution } ∧
    (resolveContract s contractId resolution).1.market_bets
      = s.market_bets.map (fun b =>
          if b.contract_id = contractId then
            { b with
              payout_amount :=
                calculateActualPayout b.shares (contract.yes_pool + contract.no_pool)
                  b.position resolution }
          else b) ∧
    (resolveContract s contractId resolution).1.users
      = s.users.map (fun u =>
          { u with prediction_coins := u.prediction_coins +
              ((s.market_bets.filter fun b => decide (b.contract_id = contractId)).map
                (fun bet =>
                  if u.id = bet.user_id ∧
                      calculateActualPayout bet.shares (contract.yes_pool + contract.no_pool)
                        bet.position resolution > 0
                  then calculateActualPayout bet.shares (contract.yes_pool + contract.no_pool)
                    bet.position resolution
                  else 0)).sum }) ∧
    (0 < contractId →
      resolveContractRoute s contractId resolution
        = resolveContract s contractId resolution) := by
  obtain ⟨hcs, -, hb, hu, hresp⟩ :=
    resolveContract_found s contractId resolution contract hc hr hpk
  refine ⟨⟨_, hresp, rfl⟩, ?_, hb, hu,
    fun hid => resolveContractRoute_valid s contractId resolution hid hr⟩
  rw [hcs, getContract_close contractId resolution contract s.market_contracts hc, ← hclosed]

/-- C15 witness: on `resolvedStore`, where contract 1 is closed with resolution
yes, resolving to no is answered with a summary and stores resolution no. -/
theorem resolveContract_closed_witness :
    (∃ summary, (resolveContract resolvedStore 1 "no").2 = .resolved summary ∧
      summary.resolution = "no") ∧
    getContract (resolveContract resolvedStore 1 "no").1.market_contracts 1
      = some
        { id := 1, title := "Will it rain tomorrow?", status := "closed",
          resolution := some "no", current_yes_probability := 1 / 2,
          liquidity_pool := 1000, yes_pool := 600, no_pool := 600,
          category := "weather" } := by
  have hc : getContract resolvedStore.market_contracts 1 = some
      { id := 1, title := "Will it rain tomorrow?", status := "closed",
        resolution := some "yes", current_yes_probability := 1 / 2,
        liquidity_pool := 1000, yes_pool := 600, no_pool := 600,
        category := "weather" } := by
    rw [resolvedStore_eq]; rfl
  have hpk : (resolvedStore.market_bets.map (fun b => b.id)).Nodup := by
    rw [resolvedStore_eq]; decide
  have h := resolveContract_closed resolvedStore 1 "no" _ hc rfl (Or.inr rfl) hpk
  exact ⟨h.1, h.2.1⟩

/-! ### Global and tier ranks -/

/-- In a list with distinct keys the key of the row at index `i` is first
found at index `i`. -/
theorem findIdx_key (row : UserRanking) :
    ∀ (rows : List UserRanking) (i : Nat), (rows.map (fun u => u.user_id)).Nodup →
      rows[i]? = some row →
      rows.findIdx? (fun u => decide (u.user_id = row.user_id)) = some i
  | [], i, _, h => by simp at h
  | a :: rows, 0, _, h => by
    simp only [List.getElem?_cons_zero, Option.some.injEq] at h
    subst h
    simp [List.findIdx?_cons]
  | a :: rows, i + 1, hnd, h => by
    rw [List.map_cons, List.nodup_cons] at hnd
    rw [List.getElem?_cons_succ] at h
    have hne : ¬ a.user_id = row.user_id := by
      intro hc
      apply hnd.1
      rw [hc]
      exact List.mem_map_of_mem (fun u => u.user_id) (List.mem_iff_getElem?.mpr ⟨i, h⟩)
    have ih := findIdx_key row rows i hnd.2 h
    simp [List.findIdx?_cons, hne, List.findIdx?_succ, ih]

/-- In a list with distinct keys, a row at index `i` that passes a filter is
found among the passing rows after the passing rows that precede it. -/
theorem findIdx_filter_key (p : UserRanking → Bool) (row : UserRanking) (hp : p row = true) :
    ∀ (rows : List UserRanking) (i : Nat), (rows.map (fun u => u.user_id)).Nodup →
      rows[i]? = some row →
      (rows.filter p).findIdx? (fun u => decide (u.user_id = row.user_id))
        = some ((rows.take i).countP p)
  | [], i, _, h => by simp at h
  | a :: rows, 0, _, h => by
    simp only [List.getElem?_cons_zero, Option.some.injEq] at h
    subst h
    simp [List.filter_cons, hp, List.findIdx?_cons]
  | a :: rows, i + 1, hnd, h => by
    rw [List.map_cons, List.nodup_cons] at hnd
    rw [List.getElem?_cons_succ] at h
    have hne : ¬ a.user_id = row.user_id := by
      intro hc
      apply hnd.1
      rw [hc]
      exact List.mem_map_of_mem (fun u => u.user_id) (List.mem_iff_getElem?.mpr ⟨i, h⟩)
    have ih := findIdx_filter_key p row hp rows i hnd.2 h
    by_cases hpa : p a = true
    · simp [List.filter_cons, hpa, List.findIdx?_cons, hne, List.findIdx?_succ, ih,
        List.countP_cons]
    · simp [List.filter_cons, hpa, ih, List.countP_cons]

/-- The rank of the row at index `i` of a list with distinct keys is `i + 1`. -/
theorem rankIn_getElem (rows : List UserRanking) (i : Nat) (row : UserRanking)
    (hnd : (rows.map (fun u => u.user_id)).Nodup) (h : rows[i]? = some row) :
    rankIn rows row.user_id = (i : ℤ) + 1 := by
  unfold rankIn findIndex
  rw [findIdx_key row rows i hnd h]

/-- The rank of a row among the rows passing a filter is one more than the
number of passing rows before it. -/
theorem rankIn_filter (p : UserRanking → Bool) (rows : List UserRanking) (i : Nat)
    (row : UserRanking) (hnd : (rows.map (fun u => u.user_id)).Nodup)
    (h : rows[i]? = some row) (hp : p row = true) :
    rankIn (rows.filter p) row.user_id = ((rows.take i).countP p : ℤ) + 1 := by
  unfold rankIn findIndex
  rw [findIdx_filter_key p row hp rows i hnd h]

/-- Ranking every row of a list with distinct keys within that list gives
1, 2, .., n in order. -/
theorem map_rankIn (rows : List UserRanking)
    (hnd : (rows.map (fun u => u.user_id)).Nodup) :
    rows.map (fun u => rankIn rows u.user_id)
      = (List.range rows.length).map (fun i : ℕ => (i : ℤ) + 1) := by
  apply List.ext_getElem?
  intro n
  rw [List.getElem?_map, List.getElem?_map]
  cases hn : rows[n]? with
  | none =>
    have hlen : rows.length ≤ n := List.getElem?_eq_none_iff.mp hn
    have : (List.range rows.length)[n]? = none :=
      List.getElem?_eq_none_iff.mpr (by rw [List.length_range]; exact hlen)
    rw [this]; rfl
  | some row =>
    have hlt : n < rows.length := (List.getElem?_eq_some_iff.mp hn).1
    rw [List.getElem?_range hlt]
    simp only [Option.map_some']
    rw [rankIn_getElem rows n row hnd hn]

/-- Writing ranks step by step is folding the steps over each row. -/
theorem foldl_writeRanks {β : Type} (key g t : β → ℤ) :
    ∀ (steps : List β) (table : List UserRanking),
      steps.foldl (fun acc e => writeRanks acc (key e) (g e) (t e)) table
        = table.map (fun row => steps.foldl (fun r e =>
            if r.user_id = key e then
              { r with global_rank := g e, tier_rank := t e }
            else r) row)
  | [], table => by simp
  | e :: steps, table => by
    rw [List.foldl_cons, foldl_writeRanks key g t steps]
    unfold writeRanks
    rw [List.map_map]
    rfl

/-- Steps for other keys leave a row as it is. -/
theorem foldl_rank_other {β : Type} (key g t : β → ℤ) :
    ∀ (steps : List β) (r : UserRanking), (∀ e ∈ steps, key e ≠ r.user_id) →
      steps.foldl (fun r e =>
        if r.user_id = key e then
          { r with global_rank := g e, tier_rank := t e }
        else r) r = r
  | [], _, _ => rfl
  | e :: steps, r, h => by
    have he : ¬ r.user_id = key e := fun hc => h e (List.mem_cons_self _ _) hc.symm
    rw [List.foldl_cons, if_neg he]
    exact foldl_rank_other key g t steps r
      (fun e2 he2 => h e2 (List.mem_cons_of_mem _ he2))

/-- With distinct step keys, a row takes the ranks of the step for its key. -/
theorem foldl_rank_own {β : Type} (key g t : β → ℤ) :
    ∀ (steps : List β) (r : UserRanking) (e : β), (steps.map key).Nodup →
      e ∈ steps → key e = r.user_id →
      steps.foldl (fun r e =>
        if r.user_id = key e then
          { r with global_rank := g e, tier_rank := t e }
        else r) r = { r with global_rank := g e, tier_rank := t e }
  | [], _, _, _, hmem, _ => by simp at hmem
  | e0 :: steps, r, e, hnd, hmem, hkey => by
    rw [List.map_cons, List.nodup_cons] at hnd
    rw [List.foldl_cons]
    rcases List.mem_cons.mp hmem with rfl | hin
    · rw [if_pos hkey.symm]
      apply foldl_rank_other key g t steps
      intro e2 he2 hc
      apply hnd.1
      have : key e2 = key e := hc.trans hkey.symm
      rw [← this]
      exact List.mem_map_of_mem key he2
    · have hne : ¬ r.user_id = key e0 := by
        intro hc
        apply hnd.1
        rw [← hc, ← hkey]
        exact List.mem_map_of_mem key hin
      rw [if_neg hne]
      exact foldl_rank_own key g t steps r e hnd.2 hin hkey

/-- The sorted query result is a rearrangement of the table, in descending
order of points, with the same distinct keys. -/
theorem selectByRankPointsDesc_spec (table : List UserRanking) :
    (selectByRankPointsDesc table).Perm table ∧
    (selectByRankPointsDesc table).Sorted (fun a b => a.rank_points ≥ b.rank_points) ∧
    ((table.map (fun u => u.user_id)).Nodup →
      ((selectByRankPointsDesc table).map (fun u => u.user_id)).Nodup) := by
  have hperm : (selectByRankPointsDesc table).Perm table := List.perm_insertionSort _ table
  haveI : IsTotal UserRanking (fun a b => a.rank_points ≥ b.rank_points) :=
    ⟨fun a b => le_total b.rank_points a.rank_points⟩
  haveI : IsTrans UserRanking (fun a b => a.rank_points ≥ b.rank_points) :=
    ⟨fun _ _ _ h1 h2 => le_trans h2 h1⟩
  refine ⟨hperm, List.sorted_insertionSort _ table, fun h => ?_⟩
  exact ((hperm.map (fun u => u.user_id)).nodup_iff).mpr h

/-- With distinct user keys, `updateGlobalRankings` gives every row its rank
in the sorted list and its rank among the sorted rows of its tier. -/
theorem updateGlobalRankings_eq (table : List UserRanking)
    (hpk : (table.map (fun u => u.user_id)).Nodup) :
    updateGlobalRankings table
      = table.map (fun row =>
          { row with
            global_rank := rankIn (selectByRankPointsDesc table) row.user_id
            tier_rank :=
              rankIn ((selectByRankPointsDesc table).filter
                (fun u => decide (u.tier = row.tier))) row.user_id }) := by
  obtain ⟨hperm, -, hnd⟩ := selectByRankPointsDesc_spec table
  have hnd := hnd hpk
  unfold updateGlobalRankings
  refine (foldl_writeRanks
    (fun e : ℕ × UserRanking => e.2.user_id)
    (fun e : ℕ × UserRanking => (e.1 : ℤ) + 1)
    (fun e : ℕ × UserRanking =>
      rankIn ((selectByRankPointsDesc table).filter
        (fun u => decide (u.tier = e.2.tier))) e.2.user_id)
    (selectByRankPointsDesc table).enum table).trans ?_
  apply List.map_congr_left
  intro row hrow
  obtain ⟨i, hi⟩ := List.mem_iff_getElem?.mp (hperm.mem_iff.mpr hrow)
  have hmem : (i, row) ∈ (selectByRankPointsDesc table).enum :=
    List.mk_mem_enum_iff_getElem?.mpr hi
  have hkeys : ((selectByRankPointsDesc table).enum.map
      (fun e : ℕ × UserRanking => e.2.user_id)).Nodup := by
    have : (selectByRankPointsDesc table).enum.map (fun e : ℕ × UserRanking => e.2.user_id)
        = ((selectByRankPointsDesc table).enum.map Prod.snd).map (fun u => u.user_id) := by
      rw [List.map_map]; rfl
    rw [this, List.enum_map_snd]
    exact hnd
  rw [foldl_rank_own _ _ _ _ row (i, row) hkeys hmem rfl,
    rankIn_getElem (selectByRankPointsDesc table) i row hnd hi]

/-- With distinct user keys, every row written by `updateGlobalRankings` comes
from a table row found at some index `i` of the sorted list: it keeps key, tier
and points, its global rank is `i + 1` and its tier rank is one more than the
number of rows of its tier before index `i`. -/
theorem updateGlobalRankings_row (table : List UserRanking)
    (hpk : (table.map (fun u => u.user_id)).Nodup) :
    ∀ r ∈ updateGlobalRankings table, ∃ (i : ℕ) (row : UserRanking),
      row ∈ table ∧ (selectByRankPointsDesc table)[i]? = some row ∧
      r.user_id = row.user_id ∧ r.tier = row.tier ∧ r.rank_points = row.rank_points ∧
      r.global_rank = (i : ℤ) + 1 ∧
      r.tier_rank = (((selectByRankPointsDesc table).take i).countP
        (fun u => decide (u.tier = row.tier)) : ℤ) + 1 := by
  obtain ⟨hperm, -, hnd⟩ := selectByRankPointsDesc_spec table
  have hnd := hnd hpk
  intro r hr
  rw [updateGlobalRankings_eq table hpk] at hr
  obtain ⟨row, hrow, rfl⟩ := List.mem_map.mp hr
  obtain ⟨i, hi⟩ := List.mem_iff_getElem?.mp (hperm.mem_iff.mpr hrow)
  refine ⟨i, row, hrow, hi, rfl, rfl, rfl, ?_, ?_⟩
  · exact rankIn_getElem (selectByRankPointsDesc table) i row hnd hi
  · exact rankIn_filter (fun u => decide (u.tier = row.tier))
      (selectByRankPointsDesc table) i row hnd hi (by simp)

/-- Rows of a sorted list at increasing indices have non-increasing points. -/
theorem sorted_points (users : List UserRanking)
    (hs : users.Sorted (fun a b => a.rank_points ≥ b.rank_points))
    (i j : ℕ) (a b : UserRanking) (hi : users[i]? = some a) (hj : users[j]? = some b)
    (hij : i < j) : a.rank_points ≥ b.rank_points := by
  obtain ⟨hi1, hi2⟩ := List.getElem?_eq_some_iff.mp hi
  obtain ⟨hj1, hj2⟩ := List.getElem?_eq_some_iff.mp hj
  have h := List.pairwise_iff_getElem.mp hs i j hi1 hj1 hij
  rw [hi2, hj2] at h
  exact h

/-- A passing row at index `i` is counted in every longer prefix. -/
theorem countP_take_lt (p : UserRanking → Bool) (users : List UserRanking) (i j : ℕ)
    (a : UserRanking) (hi : users[i]? = some a) (hp : p a = true) (hij : i < j) :
    (users.take i).countP p < (users.take j).countP p := by
  have h1 : (users.take (i + 1)).countP p = (users.take i).countP p + 1 := by
    rw [List.take_succ, hi, List.countP_append]
    simp [hp]
  have h2 : (users.take (i + 1)).countP p ≤ (users.take j).countP p := by
    have hsub : List.Sublist (users.take (i + 1)) (users.take j) := by
      have : users.take (i + 1) = (users.take j).take (i + 1) := by
        rw [List.take_take, Nat.min_eq_left (Nat.succ_le_of_lt hij)]
      rw [this]
      exact List.take_sublist _ _
    exact List.Sublist.countP_le p hsub
  omega

/-- C17: with distinct user keys, `updateGlobalRankings` gives each row the
global rank equal to its 1-based position in the list sorted by points in
descending order (a rearrangement of the table): the global ranks are exactly
1..n, each once, and a row with strictly more points gets a strictly smaller
global rank. -/
theorem updateGlobalRankings_global_rank (table : List UserRanking)
    (hpk : (table.map (fun u => u.user_id)).Nodup) :
    (selectByRankPointsDesc table).Perm table ∧
    (selectByRankPointsDesc table).Sorted (fun a b => a.rank_points ≥ b.rank_points) ∧
    (updateGlobalRankings table).map coreColumns = table.map coreColumns ∧
    (∀ r ∈ updateGlobalRankings table, ∃ (i : ℕ) (u : UserRanking),
      (selectByRankPointsDesc table)[i]? = some u ∧ u.user_id = r.user_id ∧
      r.global_rank = (i : ℤ) + 1) ∧
    ((updateGlobalRankings table).map (fun r => r.global_rank)).Perm
      ((List.range table.length).map (fun i : ℕ => (i : ℤ) + 1)) ∧
    (∀ r1 ∈ updateGlobalRankings table, ∀ r2 ∈ updateGlobalRankings table,
      r1.rank_points > r2.rank_points → r1.global_rank < r2.global_rank) := by
  obtain ⟨hperm, hsorted, hnd⟩ := selectByRankPointsDesc_spec table
  have hnd := hnd hpk
  refine ⟨hperm, hsorted, updateGlobalRankings_coreColumns table, ?_, ?_, ?_⟩
  · intro r hr
    obtain ⟨i, row, -, hi, hid, -, -, hg, -⟩ := updateGlobalRankings_row table hpk r hr
    exact ⟨i, row, hi, hid.symm, hg⟩
  · rw [updateGlobalRankings_eq table hpk, List.map_map]
    have h1 : (table.map ((fun r : UserRanking => r.global_rank) ∘ fun row =>
          { row with
            global_rank := rankIn (selectByRankPointsDesc table) row.user_id
            tier_rank :=
              rankIn ((selectByRankPointsDesc table).filter
                (fun u => decide (u.tier = row.tier))) row.user_id })).Perm
        ((selectByRankPointsDesc table).map
          (fun u => rankIn (selectByRankPointsDesc table) u.user_id)) :=
      (hperm.map _).symm
    rw [map_rankIn (selectByRankPointsDesc table) hnd, hperm.length_eq] at h1
    exact h1
  · intro r1 hr1 r2 hr2 hgt
    obtain ⟨i1, row1, -, hi1, -, -, hp1, hg1, -⟩ := updateGlobalRankings_row table hpk r1 hr1
    obtain ⟨i2, row2, -, hi2, -, -, hp2, hg2, -⟩ := updateGlobalRankings_row table hpk r2 hr2
    rw [hg1, hg2]
    rw [hp1, hp2] at hgt
    have hlt : i1 < i2 := by
      by_contra hc
      rcases Nat.lt_or_eq_of_le (not_lt.mp hc) with h | h
      · have := sorted_points _ hsorted i2 i1 row2 row1 hi2 hi1 h
        omega
      · subst h
        rw [hi2] at hi1
        have : row2 = row1 := Option.some.inj hi1
        subst this
        omega
    omega

/-- C17 witness: the seeded rows (users 1, 2, 3 with 150, 75 and 120 points)
get the global ranks 1, 3 and 2. -/
theorem updateGlobalRankings_global_rank_witness :
    (seedRankings.map (fun u => u.user_id)).Nodup ∧
    ((updateGlobalRankings seedRankings).map (fun r => r.global_rank)).Perm
      ((List.range seedRankings.length).map (fun i : ℕ => (i : ℤ) + 1)) ∧
    (updateGlobalRankings seedRankings).map (fun r => (r.user_id, r.global_rank))
      = [(1, 1), (2, 3), (3, 2)] :=
  ⟨by decide,
   (updateGlobalRankings_global_rank seedRankings (by decide)).2.2.2.2.1,
   by decide⟩

/-- C18: with distinct user keys, `updateGlobalRankings` gives each row the
tier rank equal to its 1-based position among the rows of its tier, taken in
the order of the sorted list: within each tier of k rows the tier ranks are
exactly 1..k, each once, rows of one tier are ordered by tier rank as they are
by global rank, and the tier rank never exceeds the global rank. -/
theorem updateGlobalRankings_tier_rank (table : List UserRanking)
    (hpk : (table.map (fun u => u.user_id)).Nodup) :
    (∀ r ∈ updateGlobalRankings table, ∃ (i : ℕ) (u : UserRanking),
      (selectByRankPointsDesc table)[i]? = some u ∧ u.user_id = r.user_id ∧
      r.global_rank = (i : ℤ) + 1 ∧
      r.tier_rank = (((selectByRankPointsDesc table).take i).countP
        (fun u => decide (u.tier = r.tier)) : ℤ) + 1) ∧
    (∀ t : String,
      (((updateGlobalRankings table).filter (fun r => decide (r.tier = t))).map
          (fun r => r.tier_rank)).Perm
        ((List.range (table.filter (fun r => decide (r.tier = t))).length).map
          (fun i : ℕ => (i : ℤ) + 1))) ∧
    (∀ r1 ∈ updateGlobalRankings table, ∀ r2 ∈ updateGlobalRankings table,
      r1.tier = r2.tier → r1.global_rank < r2.global_rank →
      r1.tier_rank < r2.tier_rank) ∧
    (∀ r ∈ updateGlobalRankings table, 1 ≤ r.tier_rank ∧ r.tier_rank ≤ r.global_rank) := by
  obtain ⟨hperm, -, hnd⟩ := selectByRankPointsDesc_spec table
  have hnd := hnd hpk
  refine ⟨?_, ?_, ?_, ?_⟩
  · intro r hr
    obtain ⟨i, row, -, hi, hid, ht, -, hg, htr⟩ := updateGlobalRankings_row table hpk r hr
    refine ⟨i, row, hi, hid.symm, hg, ?_⟩
    rw [htr, ht]
  · intro t
    have hndt : (((selectByRankPointsDesc table).filter
        (fun u => decide (u.tier = t))).map (fun u => u.user_id)).Nodup :=
      hnd.sublist (List.Sublist.map _ (List.filter_sublist _))
    have hfilter : (updateGlobalRankings table).filter (fun r => decide (r.tier = t))
        = (table.filter (fun r => decide (r.tier = t))).map (fun row =>
            { row with
              global_rank := rankIn (selectByRankPointsDesc table) row.user_id
              tier_rank :=
                rankIn ((selectByRankPointsDesc table).filter
                  (fun u => decide (u.tier = row.tier))) row.user_id }) := by
      rw [updateGlobalRankings_eq table hpk, List.filter_map]
      rfl
    have hranks : ((updateGlobalRankings table).filter (fun r => decide (r.tier = t))).map
          (fun r => r.tier_rank)
        = (table.filter (fun r => decide (r.tier = t))).map (fun u =>
            rankIn ((selectByRankPointsDesc table).filter
              (fun u => decide (u.tier = t))) u.user_id) := by
      rw [hfilter, List.map_map]
      apply List.map_congr_left
      intro row hrow
      have ht : row.tier = t := of_decide_eq_true (List.mem_filter.mp hrow).2
      simp only [Function.comp_apply, ht]
    rw [hranks]
    have h1 := ((hperm.filter (fun r => decide (r.tier = t))).map (fun u =>
      rankIn ((selectByRankPointsDesc table).filter
        (fun u => decide (u.tier = t))) u.user_id)).symm
    rw [map_rankIn _ hndt, (hperm.filter (fun r => decide (r.tier = t))).length_eq] at h1
    exact h1
  · intro r1 hr1 r2 hr2 ht hlt
    obtain ⟨i1, row1, -, hi1, -, ht1, -, hg1, htr1⟩ := updateGlobalRankings_row table hpk r1 hr1
    obtain ⟨i2, row2, -, hi2, -, ht2, -, hg2, htr2⟩ := updateGlobalRankings_row table hpk r2 hr2
    rw [hg1, hg2] at hlt
    have hidx : i1 < i2 := by omega
    have htier : row2.tier = row1.tier := by rw [← ht1, ← ht2, ht]
    rw [htr1, htr2, htier]
    have := countP_take_lt (fun u => decide (u.tier = row1.tier))
      (selectByRankPointsDesc table) i1 i2 row1 hi1 (by simp) hidx
    omega
  · intro r hr
    obtain ⟨i, row, -, hi, -, -, -, hg, htr⟩ := updateGlobalRankings_row table hpk r hr
    rw [hg, htr]
    have h1 : ((selectByRankPointsDesc table).take i).countP
        (fun u => decide (u.tier = row.tier)) ≤ ((selectByRankPointsDesc table).take i).length :=
      List.countP_le_length _
    have h2 := List.length_take_le i (selectByRankPointsDesc table)
    omega

/-- C18 witness: of the seeded rows, user 1 is alone in Amateur with tier rank
1, and users 3 and 2 are first and second in Rookie. -/
theorem updateGlobalRankings_tier_rank_witness :
    (∀ t : String,
      (((updateGlobalRankings seedRankings).filter (fun r => decide (r.tier = t))).map
          (fun r => r.tier_rank)).Perm
        ((List.range (seedRankings.filter (fun r => decide (r.tier = t))).length).map
          (fun i : ℕ => (i : ℤ) + 1))) ∧
    (updateGlobalRankings seedRankings).map
        (fun r => (r.user_id, r.tier, r.global_rank, r.tier_rank))
      = [(1, "Amateur", 1, 1), (2, "Rookie", 3, 2), (3, "Rookie", 2, 1)] :=
  ⟨(updateGlobalRankings_tier_rank seedRankings (by decide)).2.1, by decide⟩

/-! ### Further properties of the market maker -/

/-- C21, amended: in exact rational arithmetic, for positive pools and a
positive amount a yes purchase raises the probability strictly and a no
purchase lowers it strictly, while the pools returned by a quote on any side
add up to the old total plus the amount. -/
theorem calculatePrice_newProbability (amount yesPool noPool : ℚ)
    (hy : 0 < yesPool) (hn : 0 < noPool) (ha : 0 < amount) :
    calculateProbability yesPool noPool
      < (calculatePrice amount yesPool noPool "yes").newProbability ∧
    (calculatePrice amount yesPool noPool "no").newProbability
      < calculateProbability yesPool noPool ∧
    (∀ position : String,
      (calculatePrice amount yesPool noPool position).newYesPool
        + (calculatePrice amount yesPool noPool position).newNoPool
        = yesPool + noPool + amount) := by
  have hno : ("no" : String) ≠ "yes" := by decide
  obtain ⟨hp, -, -⟩ := calculateProbability_pos_pools yesPool noPool hy hn
  obtain ⟨hpy, -, -⟩ :=
    calculateProbability_pos_pools (yesPool + amount) noPool (by linarith) hn
  obtain ⟨hpn, -, -⟩ :=
    calculateProbability_pos_pools yesPool (noPool + amount) hy (by linarith)
  refine ⟨?_, ?_, ?_⟩
  · simp only [calculatePrice, if_true]
    rw [hp, hpy, div_lt_div_iff₀ (by linarith) (by linarith)]
    nlinarith [mul_pos ha hn]
  · simp only [calculatePrice, hno, if_false]
    rw [hp, hpn, div_lt_div_iff₀ (by linarith) (by linarith)]
    nlinarith [mul_pos ha hy]
  · intro position
    by_cases hpos : position = "yes"
    · simp only [calculatePrice, hpos, if_true]; ring
    · simp only [calculatePrice, hpos, if_false]; ring

/-- C21 witness: on pools 500/500 a yes order of 100 moves the probability
from 1/2 up, a no order moves it down, and the pools then total 1100. -/
theorem calculatePrice_newProbability_witness :
    calculateProbability 500 500 < (calculatePrice 100 500 500 "yes").newProbability ∧
    (calculatePrice 100 500 500 "no").newProbability < calculateProbability 500 500 ∧
    (calculatePrice 100 500 500 "yes").newYesPool
      + (calculatePrice 100 500 500 "yes").newNoPool = 500 + 500 + 100 := by
  have h := calculatePrice_newProbability 100 500 500 (by norm_num) (by norm_num)
    (by norm_num)
  exact ⟨h.1, h.2.1, h.2.2 "yes"⟩

/-- C22: the product of the pools is not kept by a quote. On pools 500/500 a
yes order of 100 returns pools 600/500, whose product 300000 is not 250000; in
general a yes quote returns the product `yesPool * noPool + amount * noPool`
and a quote on another side `yesPool * noPool + amount * yesPool`. -/
theorem calculatePrice_product :
    (calculatePrice 100 500 500 "yes").newYesPool
        * (calculatePrice 100 500 500 "yes").newNoPool = 300000 ∧
    (calculatePrice 100 500 500 "yes").newYesPool
        * (calculatePrice 100 500 500 "yes").newNoPool ≠ 500 * 500 ∧
    (∀ (amount yesPool noPool : ℚ) (position : String),
      (calculatePrice amount yesPool noPool position).newYesPool
          * (calculatePrice amount yesPool noPool position).newNoPool
        = yesPool * noPool
          + (if position = "yes" then amount * noPool else amount * yesPool)) := by
  refine ⟨?_, ?_, ?_⟩
  · simp only [calculatePrice, if_true]; norm_num
  · simp only [calculatePrice, if_true]; norm_num
  · intro amount yesPool noPool position
    by_cases hpos : position = "yes"
    · simp only [calculatePrice, hpos, if_true]; ring
    · simp only [calculatePrice, hpos, if_false]; ring

/-- C24, amended: in exact rational arithmetic, for positive shares and
non-negative pools with a positive total, the potential payout of a yes
position equals its actual payout when it wins if and only if the no pool
equals the shares, and symmetrically for a no position and the yes pool. -/
theorem potential_eq_actual_iff (shares yesPool noPool : ℚ)
    (hs : 0 < shares) (hy : 0 ≤ yesPool) (hn : 0 ≤ noPool) (ht : 0 < yesPool + noPool) :
    (calculatePotentialPayout shares yesPool noPool "yes"
        = calculateActualPayout shares (yesPool + noPool) "yes" "yes" ↔ noPool = shares) ∧
    (calculatePotentialPayout shares yesPool noPool "no"
        = calculateActualPayout shares (yesPool + noPool) "no" "no" ↔ yesPool = shares) := by
  have hno : ("no" : String) ≠ "yes" := by decide
  have htne : yesPool + noPool ≠ 0 := ne_of_gt ht
  have hdy : yesPool + shares ≠ 0 := by linarith
  have hdn : noPool + shares ≠ 0 := by linarith
  have hsne : shares ≠ 0 := ne_of_gt hs
  constructor
  · simp only [calculatePotentialPayout, calculateActualPayout, htne, if_false, if_true,
      ne_eq, not_true_eq_false]
    rw [div_eq_iff hdy]
    constructor
    · intro h
      have h2 : shares * (noPool - shares) = 0 := by linarith
      rcases mul_eq_zero.mp h2 with h3 | h3
      · exact absurd h3 hsne
      · linarith
    · intro h; rw [h]
  · simp only [calculatePotentialPayout, calculateActualPayout, htne, if_false, hno,
      ne_eq, not_true_eq_false]
    rw [div_eq_iff hdn]
    constructor
    · intro h
      have h2 : shares * (yesPool - shares) = 0 := by linarith
      rcases mul_eq_zero.mp h2 with h3 | h3
      · exact absurd h3 hsne
      · linarith
    · intro h; rw [h]; ring

/-- C24 witness: 200 shares on pools 600/500 have potential payout 275 and
actual payout 200. -/
theorem potential_eq_actual_iff_witness :
    calculatePotentialPayout 200 600 500 "yes" = 275 ∧
    calculateActualPayout 200 (600 + 500) "yes" "yes" = 200 ∧
    ¬ (calculatePotentialPayout 200 600 500 "yes"
        = calculateActualPayout 200 (600 + 500) "yes" "yes") := by
  have h := potential_eq_actual_iff 200 600 500 (by norm_num) (by norm_num) (by norm_num)
    (by norm_num)
  refine ⟨?_, ?_, ?_⟩
  · simp only [calculatePotentialPayout]; norm_num
  · simp only [calculateActualPayout]; norm_num
  · rw [h.1]; norm_num

/-- C27, amended: in exact rational arithmetic, for positive pools and a
positive amount the shares bought on any side exceed the amount, so the actual
payout of the position when it wins exceeds the stake. -/
theorem calculatePrice_shares_gt_amount (amount yesPool noPool : ℚ) (position : String)
    (hy : 0 < yesPool) (hn : 0 < noPool) (ha : 0 < amount) :
    amount < (calculatePrice amount yesPool noPool position).shares ∧
    (∀ totalPool : ℚ,
      amount < calculateActualPayout (calculatePrice amount yesPool noPool position).shares
        totalPool position position) := by
  obtain ⟨-, hp0, hq0⟩ := calculateProbability_pos_pools yesPool noPool hy hn
  have hsh : amount < (calculatePrice amount yesPool noPool position).shares := by
    by_cases hpos : position = "yes"
    · simp only [calculatePrice, hpos, if_true]
      rw [lt_div_iff₀ hp0]
      nlinarith
    · simp only [calculatePrice, hpos, if_false]
      rw [lt_div_iff₀ hq0]
      nlinarith
  refine ⟨hsh, fun totalPool => ?_⟩
  simp only [calculateActualPayout, ne_eq, not_true_eq_false, if_false]
  exact hsh

/-- C27 witness: 100 coins on yes at pools 500/500 buy 200 shares. -/
theorem calculatePrice_shares_gt_amount_witness :
    (100 : ℚ) < (calculatePrice 100 500 500 "yes").shares ∧
    (100 : ℚ) < calculateActualPayout (calculatePrice 100 500 500 "yes").shares
      1100 "yes" "yes" := by
  have h := calculatePrice_shares_gt_amount 100 500 500 "yes" (by norm_num) (by norm_num)
    (by norm_num)
  exact ⟨h.1, h.2 1100⟩

/-! ### Further properties of the ranking system -/

/-- C25: the seeded ranking row of user 3 stores tier Rookie with 120 points,
for which `getTierFromPoints` returns Amateur; the rows of users 1 and 2 store
the tier of their points. -/
theorem seedRankings_tier :
    seedRankings.map (fun r => (r.user_id, r.rank_points, r.tier,
        getTierFromPoints r.rank_points))
      = [ (1, 150, "Amateur", "Amateur"),
          (2, 75, "Rookie", "Rookie"),
          (3, 120, "Rookie", "Amateur") ] ∧
    ¬ (∀ r ∈ seedRankings, r.tier = getTierFromPoints r.rank_points) := by
  refine ⟨by decide, ?_⟩
  intro h
  have h3 := h
    { user_id := 3, tier := "Rookie", rank_points := 120, global_rank := 3,
      tier_rank := 2, win_streak := 2, best_streak := 3, loss_streak := 0 } (by decide)
  revert h3
  decide

/-- C30: for an existing ranking row with `best_streak ≥ win_streak ≥ 0` and
any bet result, the stored row again has `best_streak ≥ win_streak ≥ 0`, its
best streak is not smaller than before, and after a win or a loss at least one
of the win streak and the loss streak is 0. -/
theorem updateUserRanking_best_streak (table : List UserRanking) (userId : ℤ)
    (betResult : String) (betAmount odds : ℚ) (ranking : UserRanking)
    (h : getRanking table userId = some ranking)
    (hbest : ranking.win_streak ≤ ranking.best_streak) (hwin : 0 ≤ ranking.win_streak) :
    ∃ table2 res stored,
      updateUserRanking table userId betResult betAmount odds = some (table2, res) ∧
      getRanking table2 userId = some stored ∧
      stored.win_streak ≤ stored.best_streak ∧ 0 ≤ stored.win_streak ∧
      ranking.best_streak ≤ stored.best_streak ∧
      (betResult = "win" ∨ betResult = "loss" →
        stored.win_streak = 0 ∨ stored.loss_streak = 0) := by
  have hlw : ("loss" : String) ≠ "win" := by decide
  obtain ⟨table2, stored, hu, hg, -, -, -, hw, hb, hl⟩ :=
    updateUserRanking_existing table userId betResult betAmount odds ranking h
  refine ⟨table2, _, stored, hu, hg, ?_, ?_, ?_, ?_⟩
  · rw [hw, hb]
    simp only [computeRankingValues]
    split_ifs <;> omega
  · rw [hw]
    simp only [computeRankingValues]
    split_ifs <;> omega
  · rw [hb]
    simp only [computeRankingValues]
    split_ifs <;> omega
  · intro hres
    rcases hres with rfl | rfl
    · right; rw [hl]; simp [computeRankingValues]
    · left; rw [hw]; simp [computeRankingValues, hlw]

/-- C30 witness: the seeded row of user 1 (win streak 3, best streak 5). -/
theorem updateUserRanking_best_streak_witness :
    ∃ table2 res stored,
      updateUserRanking seedRankings 1 "win" 150 3 = some (table2, res) ∧
      getRanking table2 1 = some stored ∧
      stored.win_streak ≤ stored.best_streak ∧ 0 ≤ stored.win_streak ∧
      (5 : ℤ) ≤ stored.best_streak ∧
      (stored.win_streak = 0 ∨ stored.loss_streak = 0) := by
  obtain ⟨table2, res, stored, hu, hg, h1, h2, h3, h4⟩ :=
    updateUserRanking_best_streak seedRankings 1 "win" 150 3
      { user_id := 1, tier := "Amateur", rank_points := 150, global_rank := 1,
        tier_rank := 1, win_streak := 3, best_streak := 5, loss_streak := 0 } rfl
      (by decide) (by decide)
  exact ⟨table2, res, stored, hu, hg, h1, h2, h3, h4 (Or.inl rfl)⟩

/-! ### Active positions -/

/-- Every row of `getActivePositions` carries the payout computed from its own
shares, pools and position. -/
theorem getActivePositions_row (s : Store) (userId : ℤ) (row : ActivePosition)
    (hrow : row ∈ getActivePositions s userId) :
    row.potential_payout
      = activePotentialPayout row.shares row.yes_pool row.no_pool row.position ∧
    row.potential_profit = row.potential_payout - row.amount := by
  unfold getActivePositions at hrow
  obtain ⟨mb, -, hmb⟩ := List.mem_filterMap.mp hrow
  cases hc : getContract s.market_contracts mb.contract_id with
  | none => rw [hc] at hmb; simp at hmb
  | some mc =>
    rw [hc] at hmb
    by_cases ho : mc.status = "open"
    · simp only [ho, if_true, Option.some.injEq] at hmb
      subst hmb
      exact ⟨rfl, rfl⟩
    · simp [ho] at hmb

/-- On positive pools the payout shown for an active position exceeds the
potential payout of the market maker. -/
theorem activePotentialPayout_gt (shares yes_pool no_pool : ℚ) (position : String)
    (hs : 0 < shares) (hy : 0 < yes_pool) (hn : 0 < no_pool) :
    activePotentialPayout shares yes_pool no_pool position
      = shares * (yes_pool + no_pool) / (if position = "yes" then yes_pool else no_pool) ∧
    calculatePotentialPayout shares yes_pool no_pool position
      < activePotentialPayout shares yes_pool no_pool position := by
  have ht : 0 < yes_pool + no_pool := by linarith
  have htne : yes_pool + no_pool ≠ 0 := ne_of_gt ht
  have hnum : 0 < shares * (yes_pool + no_pool) := mul_pos hs ht
  constructor
  · simp only [activePotentialPayout, gt_iff_lt, ht, if_true]
  · simp only [activePotentialPayout, calculatePotentialPayout, gt_iff_lt, ht, if_true, htne,
      if_false]
    by_cases hpos : position = "yes"
    · simp only [hpos, if_true]
      exact div_lt_div_of_pos_left hnum hy (by linarith)
    · simp only [hpos, if_false]
      exact div_lt_div_of_pos_left hnum hn (by linarith)

/-- C29: for every open position with positive shares on a contract with
positive pools, the potential payout computed by `getActivePositions`,
`shares * totalPool / (pool of the position's side)`, is strictly greater than
`calculatePotentialPayout` on the same shares, pools and position. -/
theorem getActivePositions_payout (s : Store) (userId : ℤ) (row : ActivePosition)
    (hrow : row ∈ getActivePositions s userId)
    (hs : 0 < row.shares) (hy : 0 < row.yes_pool) (hn : 0 < row.no_pool) :
    row.potential_payout
      = row.shares * (row.yes_pool + row.no_pool)
          / (if row.position = "yes" then row.yes_pool else row.no_pool) ∧
    calculatePotentialPayout row.shares row.yes_pool row.no_pool row.position
      < row.potential_payout := by
  obtain ⟨hp, -⟩ := getActivePositions_row s userId row hrow
  obtain ⟨h1, h2⟩ :=
    activePotentialPayout_gt row.shares row.yes_pool row.no_pool row.position hs hy hn
  rw [hp]
  exact ⟨h1, h2⟩

/-- The active positions of user 2 in `twoBetStore`: 200 yes shares on pools
600/600, shown with a potential payout of 400. -/
theorem getActivePositions_twoBetStore :
    getActivePositions twoBetStore 2
      = [ { id := 1, contract_id := 1, contract_title := "Will it rain tomorrow?",
            position := "yes", amount := 100, shares := 200, purchase_price := 1 / 2,
            current_yes_probability := 1 / 2, yes_pool := 600, no_pool := 600,
            potential_payout := 400, potential_profit := 300 } ] := by
  rw [twoBetStore_eq]
  simp [getActivePositions, getContract, List.find?, activePotentialPayout]
  norm_num

/-- C29 witness: user 2 in `twoBetStore` is shown 400 where the market maker
computes 300. -/
theorem getActivePositions_payout_witness :
    calculatePotentialPayout 200 600 600 "yes" < 400 ∧
    calculatePotentialPayout 200 600 600 "yes" = 300 := by
  have hmem :
      ({ id := 1, contract_id := 1, contract_title := "Will it rain tomorrow?",
         position := "yes", amount := 100, shares := 200, purchase_price := 1 / 2,
         current_yes_probability := 1 / 2, yes_pool := 600, no_pool := 600,
         potential_payout := 400, potential_profit := 300 } : ActivePosition)
        ∈ getActivePositions twoBetStore 2 := by
    rw [getActivePositions_twoBetStore]
    exact List.mem_singleton.mpr rfl
  have h := getActivePositions_payout twoBetStore 2 _ hmem (by norm_num) (by norm_num)
    (by norm_num)
  refine ⟨h.2, ?_⟩
  simp only [calculatePotentialPayout]
  norm_num

/-! ### Payouts against the pools -/

/-- The value of `heavyYesStore`: pools 2500/500, users 2 and 3 at 0 coins, a
yes bet of 2000 shares bought at 1/2 and one of 4000/3 shares bought at 3/4. -/
theorem heavyYesStore_eq :
    heavyYesStore =
      { users :=
          [ { id := 1, prediction_coins := 1000 },
            { id := 2, prediction_coins := 0 },
            { id := 3, prediction_coins := 0 } ]
        market_contracts :=
          [ { id := 1, title := "Will it rain tomorrow?", status := "open",
              resolution := none, current_yes_probability := 5 / 6,
              liquidity_pool := 1000, yes_pool := 2500, no_pool := 500,
              category := "weather" },
            { id := 2, title := "Will the stock market go up?", status := "open",
              resolution := none, current_yes_probability := 1 / 2,
              liquidity_pool := 1000, yes_pool := 500, no_pool := 500,
              category := "finance" },
            { id := 3, title := "Will the home team win?", status := "closed",
              resolution := none, current_yes_probability := 1 / 2,
              liquidity_pool := 1000, yes_pool := 500, no_pool := 500,
              category := "sports" } ]
        market_bets :=
          [ { id := 1, user_id := 2, contract_id := 1, position := "yes",
              amount := 1000, shares := 2000, purchase_price := 1 / 2,
              potential_payout := 8000 / 7, payout_amount := 0 },
            { id := 2, user_id := 3, contract_id := 1, position := "yes",
              amount := 1000, shares := 4000 / 3, purchase_price := 3 / 4,
              potential_payout := 24000 / 23, payout_amount := 0 } ]
        contract_price_history :=
          [ { contract_id := 1, yes_probability := 3 / 4, yes_pool := 1500,
              no_pool := 500 },
            { contract_id := 1, yes_probability := 5 / 6, yes_pool := 2500,
              no_pool := 500 } ] } := by
  simp [heavyYesStore, placeBetRoute, validateBetPlacement, placeBet, seedStore, getContract,
    getUser, List.find?, calculatePrice, calculateProbability, calculatePotentialPayout,
    nextBetId]
  norm_num

/-- C28: after the seeded users 2 and 3 have each put their 1000 coins on yes
on the 500/500 contract 1 (both bets are accepted), the pools are 2500/500 and
resolving to yes reports total payouts of 10000/3, more than the 3000 coins in
the two pools. -/
theorem resolveContract_exceeds_pools :
    (∃ s1 bet1 bet2,
      placeBetRoute seedStore 1 2 "yes" 1000 = (s1, .placed bet1) ∧
      placeBetRoute s1 1 3 "yes" 1000 = (heavyYesStore, .placed bet2)) ∧
    (getContract heavyYesStore.market_contracts 1).map
        (fun c => (c.status, c.yes_pool, c.no_pool)) = some ("open", 2500, 500) ∧
    (resolveContractRoute heavyYesStore 1 "yes").2
      = .resolved
          { contractId := 1, resolution := "yes", totalPayouts := 10000 / 3,
            totalBets := 2 } ∧
    (2500 : ℚ) + 500 < 10000 / 3 := by
  refine ⟨⟨_, _, _, rfl, rfl⟩, ?_, ?_, by norm_num⟩
  · rw [heavyYesStore_eq]; rfl
  · rw [heavyYesStore_eq]
    simp [resolveContractRoute, validateContractResolution, resolveContract, getContract,
      List.find?, settleBet, calculateActualPayout]
    norm_num

/-! ### Pools and cached probability over the life of a contract -/

/-- The probability returned by a quote is the probability of the returned
pools. -/
theorem calculatePrice_newProbability_eq (amount yesPool noPool : ℚ) (position : String) :
    (calculatePrice amount yesPool noPool position).newProbability
      = calculateProbability (calculatePrice amount yesPool noPool position).newYesPool
          (calculatePrice amount yesPool noPool position).newNoPool := by
  by_cases hpos : position = "yes" <;> simp [calculatePrice, hpos]

/-- A request that passes `validateBetPlacement` has a positive amount. -/
theorem validateBetPlacement_amount (userId : ℤ) (position : String) (amount : ℚ)
    (h : validateBetPlacement userId position amount = []) : 0 < amount := by
  by_contra hc
  have hle : amount ≤ 0 := not_lt.mp hc
  unfold validateBetPlacement at h
  simp [hle] at h

/-- Reading a contract after an update that keeps the keys. -/
theorem getContract_map (f : Contract → Contract) (hf : ∀ c, (f c).id = c.id)
    (contractId : ℤ) :
    ∀ (contracts : List Contract),
      getContract (contracts.map f) contractId = (getContract contracts contractId).map f
  | [] => rfl
  | a :: contracts => by
    have ih := getContract_map f hf contractId contracts
    unfold getContract at *
    by_cases ha : a.id = contractId
    · simp [List.find?, ha, hf]
    · simpa [List.find?, ha, hf] using ih

/-- The contracts table after the handler: untouched, or the rows of the bet's
contract rewritten with the pools and probability of the quote computed from
the contract that was read. -/
theorem placeBet_contracts (s : Store) (contractId userId : ℤ) (position : String)
    (amount : ℚ) :
    (placeBet s contractId userId position amount).1.market_contracts = s.market_contracts ∨
    ∃ contract, getContract s.market_contracts contractId = some contract ∧
      (placeBet s contractId userId position amount).1.market_contracts
        = s.market_contracts.map (fun c =>
            if c.id = contractId then
              { c with
                yes_pool :=
                  (calculatePrice amount contract.yes_pool contract.no_pool position).newYesPool
                no_pool :=
                  (calculatePrice amount contract.yes_pool contract.no_pool position).newNoPool
                current_yes_probability :=
                  (calculatePrice amount contract.yes_pool contract.no_pool
                    position).newProbability }
            else c) := by
  unfold placeBet
  cases hc : getContract s.market_contracts contractId with
  | none => left; rfl
  | some contract =>
    by_cases ho : contract.status = "open"
    · cases hu : getUser s.users userId with
      | none => left; simp [ho]
      | some user =>
        by_cases hlt : user.prediction_coins < amount
        · left; simp [ho, hlt]
        · by_cases hp : position = "yes" ∨ position = "no"
          · right
            refine ⟨contract, rfl, ?_⟩
            simp [ho, hlt, hp]
          · left; simp [ho, hlt, hp]
    · left; simp [ho]

/-- An accepted bet rewrote the rows of its contract. -/
theorem placeBet_placed_contracts (s s2 : Store) (contractId userId : ℤ)
    (position : String) (amount : ℚ) (bet : PlacedBet)
    (h : placeBet s contractId userId position amount = (s2, .placed bet)) :
    ∃ contract, getContract s.market_contracts contractId = some contract ∧
      s2.market_contracts
        = s.market_contracts.map (fun c =>
            if c.id = contractId then
              { c with
                yes_pool :=
                  (calculatePrice amount contract.yes_pool contract.no_pool position).newYesPool
                no_pool :=
                  (calculatePrice amount contract.yes_pool contract.no_pool position).newNoPool
                current_yes_probability :=
                  (calculatePrice amount contract.yes_pool contract.no_pool
                    position).newProbability }
            else c) := by
  unfold placeBet at h
  cases hc : getContract s.market_contracts contractId with
  | none => rw [hc] at h; simp at h
  | some contract =>
    rw [hc] at h
    by_cases ho : contract.status = "open"
    · cases hu : getUser s.users userId with
      | none => rw [hu] at h; simp [ho] at h
      | some user =>
        rw [hu] at h
        by_cases hlt : user.prediction_coins < amount
        · simp [ho, hlt] at h
        · by_cases hp : position = "yes" ∨ position = "no"
          · refine ⟨contract, rfl, ?_⟩
            simp only [ho, hlt, hp, ne_eq, not_true_eq_false, if_false, not_false_eq_true,
              Prod.mk.injEq] at h
            rw [← h.1]
          · simp [ho, hlt, hp] at h
    · simp [ho] at h

/-- The contracts table after the route: untouched, or rewritten by a handler
run on a positive amount. -/
theorem placeBetRoute_contracts (s : Store) (contractId userId : ℤ) (position : String)
    (amount : ℚ) :
    (placeBetRoute s contractId userId position amount).1.market_contracts
      = s.market_contracts ∨
    (0 < amount ∧
      ∃ contract, getContract s.market_contracts contractId = some contract ∧
        (placeBetRoute s contractId userId position amount).1.market_contracts
          = s.market_contracts.map (fun c =>
              if c.id = contractId then
                { c with
                  yes_pool :=
                    (calculatePrice amount contract.yes_pool contract.no_pool
                      position).newYesPool
                  no_pool :=
                    (calculatePrice amount contract.yes_pool contract.no_pool
                      position).newNoPool
                  current_yes_probability :=
                    (calculatePrice amount contract.yes_pool contract.no_pool
                      position).newProbability }
              else c)) := by
  unfold placeBetRoute
  by_cases hid : contractId ≤ 0
  · left; simp [hid]
  · by_cases hv : validateBetPlacement userId position amount = []
    · rw [if_neg hid, if_neg (by simp [hv])]
      rcases placeBet_contracts s contractId userId position amount with h | h
      · left; exact h
      · right; exact ⟨validateBetPlacement_amount userId position amount hv, h⟩
    · left; simp [hid, hv]

/-- A running maximum dominates its start value and every element. -/
theorem foldl_max_ge :
    ∀ (xs : List ℤ) (a : ℤ), a ≤ xs.foldl max a ∧ ∀ x ∈ xs, x ≤ xs.foldl max a
  | [], a => ⟨le_refl a, fun x hx => by simp at hx⟩
  | y :: xs, a => by
    obtain ⟨h1, h2⟩ := foldl_max_ge xs (max a y)
    rw [List.foldl_cons]
    refine ⟨le_trans (le_max_left a y) h1, ?_⟩
    intro x hx
    rcases List.mem_cons.mp hx with rfl | hmem
    · exact le_trans (le_max_right a x) h1
    · exact h2 x hmem

/-- The key of a new contract is larger than every key in the table. -/
theorem nextContractId_fresh (contracts : List Contract) :
    ∀ c ∈ contracts, c.id < nextContractId contracts := by
  intro c hc
  unfold nextContractId
  have h := (foldl_max_ge (contracts.map (fun c => c.id)) 0).2 c.id
    (List.mem_map_of_mem (fun c => c.id) hc)
  omega

/-- A created contract is appended under a fresh key as an open contract with
pools 500/500 and probability 1/2, and is what a later read returns. -/
theorem createContract_created (s s1 : Store) (title description category : String)
    (created : CreatedContract)
    (h : createContract s title description category = (s1, .created created)) :
    created.id = nextContractId s.market_contracts ∧
    s1.market_contracts = s.market_contracts ++
      [ { id := created.id, title := title, status := "open", resolution := none,
          current_yes_probability := 1 / 2, liquidity_pool := 500 * 2,
          yes_pool := 500, no_pool := 500, category := category } ] ∧
    getContract s1.market_contracts created.id = some
      { id := created.id, title := title, status := "open", resolution := none,
        current_yes_probability := 1 / 2, liquidity_pool := 500 * 2,
        yes_pool := 500, no_pool := 500, category := category } := by
  unfold createContract at h
  by_cases ht : s.market_contracts.any (fun c => decide (c.title = title)) = true
  · simp [ht] at h
  · simp only [ht, if_false, Prod.mk.injEq, CreateResponse.created.injEq, Bool.false_eq_true]
      at h
    obtain ⟨hs, hcr⟩ := h
    have hid : created.id = nextContractId s.market_contracts := by rw [← hcr]
    have hcs : s1.market_contracts = s.market_contracts ++
        [ { id := created.id, title := title, status := "open", resolution := none,
            current_yes_probability := 1 / 2, liquidity_pool := 500 * 2,
            yes_pool := 500, no_pool := 500, category := category } ] := by
      rw [← hs, hid]
    refine ⟨hid, hcs, ?_⟩
    rw [hcs]
    unfold getContract
    rw [List.find?_append]
    have hnone : s.market_contracts.find? (fun c => decide (c.id = created.id)) = none := by
      rw [List.find?_eq_none]
      intro c hc heq
      have h1 := nextContractId_fresh s.market_contracts c hc
      have h2 : c.id = created.id := of_decide_eq_true heq
      omega
    rw [hnone]
    simp [List.find?]

/-- The contracts table after the resolve handler: untouched, or with the rows
of the resolved contract closed; pools and probability are never written. -/
theorem resolveContract_contracts (s : Store) (contractId : ℤ) (resolution : String) :
    (resolveContract s contractId resolution).1.market_contracts = s.market_contracts ∨
    (resolveContract s contractId resolution).1.market_contracts
      = s.market_contracts.map (fun c =>
          if c.id = contractId then
            { c with status := "closed", resolution := some resolution }
          else c) := by
  unfold resolveContract
  cases hc : getContract s.market_contracts contractId with
  | none => left; rfl
  | some contract =>
    by_cases hr : resolution = "yes" ∨ resolution = "no"
    · right
      by_cases hch : (s.market_contracts.filter fun c => decide (c.id = contractId)).length = 0
      · simp [hr, hch]
      · simp only [hr, not_true_eq_false, if_false, hch]
        rw [(settle_contracts _ _ _ _).1]
    · left; simp [hr]

/-- A contract that is found carries the key it was looked up by. -/
theorem getContract_id (contracts : List Contract) (contractId : ℤ) (contract : Contract)
    (hc : getContract contracts contractId = some contract) : contract.id = contractId := by
  unfold getContract at hc
  exact of_decide_eq_true (List.find?_eq_some.mp hc).1

/-- On positive pools and a positive amount a quote returns positive pools and
a price strictly between 0 and 1. -/
theorem calculatePrice_positive (amount yesPool noPool : ℚ) (position : String)
    (hy : 0 < yesPool) (hn : 0 < noPool) (ha : 0 < amount) :
    0 < (calculatePrice amount yesPool noPool position).newYesPool ∧
    0 < (calculatePrice amount yesPool noPool position).newNoPool ∧
    0 < (calculatePrice amount yesPool noPool position).price ∧
    (calculatePrice amount yesPool noPool position).price < 1 := by
  obtain ⟨-, hp0, hq0⟩ := calculateProbability_pos_pools yesPool noPool hy hn
  by_cases hpos : position = "yes"
  · simp only [calculatePrice, hpos, if_true]
    exact ⟨by linarith, hn, hp0, by linarith⟩
  · simp only [calculatePrice, hpos, if_false]
    exact ⟨hy, by linarith, hq0, by linarith⟩

/-- One place-bet request keeps the pools of a contract positive. -/
theorem placeBetRoute_positive (s : Store) (contractId : ℤ) (r : BetRequest)
    (h : ∃ c, getContract s.market_contracts contractId = some c ∧
      0 < c.yes_pool ∧ 0 < c.no_pool) :
    ∃ c, getContract (placeBetRoute s r.contractId r.userId r.position
        r.amount).1.market_contracts contractId = some c ∧
      0 < c.yes_pool ∧ 0 < c.no_pool := by
  obtain ⟨c, hc, hy, hn⟩ := h
  rcases placeBetRoute_contracts s r.contractId r.userId r.position r.amount with
    heq | ⟨ha, contract, hget, heq⟩
  · rw [heq]; exact ⟨c, hc, hy, hn⟩
  · rw [heq, getContract_map _ (fun c => by by_cases hcid : c.id = r.contractId <;> simp [hcid]),
      hc]
    by_cases hcid : c.id = r.contractId
    · have hsame : contract = c := by
        have h1 := getContract_id _ _ _ hc
        rw [← hcid, h1, hc] at hget
        exact (Option.some.inj hget).symm
      subst hsame
      obtain ⟨h1, h2, -, -⟩ :=
        calculatePrice_positive r.amount contract.yes_pool contract.no_pool r.position hy hn ha
      refine ⟨_, rfl, ?_, ?_⟩
      · simp only [hcid, if_true]; exact h1
      · simp only [hcid, if_true]; exact h2
    · refine ⟨_, rfl, ?_, ?_⟩
      · simp only [hcid, if_false]; exact hy
      · simp only [hcid, if_false]; exact hn

/-- Any sequence of place-bet requests keeps the pools of a contract positive. -/
theorem placeBets_positive (contractId : ℤ) :
    ∀ (requests : List BetRequest) (s : Store),
      (∃ c, getContract s.market_contracts contractId = some c ∧
        0 < c.yes_pool ∧ 0 < c.no_pool) →
      ∃ c, getContract (placeBets s requests).market_contracts contractId = some c ∧
        0 < c.yes_pool ∧ 0 < c.no_pool
  | [], _, h => h
  | r :: requests, s, h => by
    have h1 := placeBetRoute_positive s contractId r h
    exact placeBets_positive contractId requests _ h1

/-- C26, amended: in exact rational arithmetic, on positive pools and a
positive amount a quote on either side returns positive pools and divides by a
price strictly between 0 and 1; hence after any sequence of place-bet requests
on a store holding a freshly created 500/500 contract, that contract still has
positive pools and every quote on it for a positive amount divides by a
non-zero price. -/
theorem pools_stay_positive :
    (∀ (amount yesPool noPool : ℚ) (position : String),
      0 < yesPool → 0 < noPool → 0 < amount →
      0 < (calculatePrice amount yesPool noPool position).newYesPool ∧
      0 < (calculatePrice amount yesPool noPool position).newNoPool ∧
      0 < (calculatePrice amount yesPool noPool position).price ∧
      (calculatePrice amount yesPool noPool position).price < 1) ∧
    (∀ (s0 s1 : Store) (title description category : String) (created : CreatedContract),
      createContract s0 title description category = (s1, .created created) →
      ∀ requests : List BetRequest,
        ∃ c, getContract (placeBets s1 requests).market_contracts created.id = some c ∧
          0 < c.yes_pool ∧ 0 < c.no_pool ∧
          ∀ (amount : ℚ) (position : String), 0 < amount →
            (calculatePrice amount c.yes_pool c.no_pool position).price ≠ 0 ∧
            0 < (calculatePrice amount c.yes_pool c.no_pool position).price ∧
            (calculatePrice amount c.yes_pool c.no_pool position).price < 1) ∧
    (∃ s1 created, createContract seedStore "Will it snow?" "" "weather"
      = (s1, .created created)) := by
  refine ⟨fun amount yesPool noPool position hy hn ha =>
    calculatePrice_positive amount yesPool noPool position hy hn ha, ?_, ⟨_, _, rfl⟩⟩
  intro s0 s1 title description category created hcreate requests
  obtain ⟨-, -, hget⟩ := createContract_created s0 s1 title description category created hcreate
  obtain ⟨c, hc, hy, hn⟩ := placeBets_positive created.id requests s1
    ⟨_, hget, by norm_num, by norm_num⟩
  refine ⟨c, hc, hy, hn, ?_⟩
  intro amount position ha
  obtain ⟨-, -, h3, h4⟩ := calculatePrice_positive amount c.yes_pool c.no_pool position hy hn ha
  exact ⟨ne_of_gt h3, h3, h4⟩

/-- C26 witness: a no quote of 100 on the pools 500/500 returns positive pools
and divides by a price strictly between 0 and 1. -/
theorem pools_stay_positive_witness :
    0 < (calculatePrice 100 500 500 "no").newYesPool ∧
    0 < (calculatePrice 100 500 500 "no").newNoPool ∧
    0 < (calculatePrice 100 500 500 "no").price ∧
    (calculatePrice 100 500 500 "no").price < 1 :=
  pools_stay_positive.1 100 500 500 "no" (by norm_num) (by norm_num) (by norm_num)

/-- Rewriting the rows of one contract with the values of a quote keeps the
cached probabilities consistent. -/
theorem poolsConsistent_quote (contracts : List Contract) (contractId : ℤ)
    (amount yesPool noPool : ℚ) (position : String)
    (h : ∀ c ∈ contracts,
      c.current_yes_probability = calculateProbability c.yes_pool c.no_pool) :
    ∀ c ∈ contracts.map (fun c =>
        if c.id = contractId then
          { c with
            yes_pool := (calculatePrice amount yesPool noPool position).newYesPool
            no_pool := (calculatePrice amount yesPool noPool position).newNoPool
            current_yes_probability :=
              (calculatePrice amount yesPool noPool position).newProbability }
        else c),
      c.current_yes_probability = calculateProbability c.yes_pool c.no_pool := by
  intro c hc
  obtain ⟨c0, hc0, rfl⟩ := List.mem_map.mp hc
  by_cases hid : c0.id = contractId
  · simp only [hid, if_true]
    exact calculatePrice_newProbability_eq amount yesPool noPool position
  · simp only [hid, if_false]
    exact h c0 hc0

/-- C23: a quote returns the probability of the pools it returns; the contract
written by the create operation has pools 500/500 and the probability of these
pools; after an accepted bet every row of the bet's contract holds the
probability of its pools; and if every contract row is consistent, it stays so
under the create, place-bet and resolve routes. The seeded contracts are
consistent. -/
theorem poolsConsistent_spec :
    (∀ (amount yesPool noPool : ℚ) (position : String),
      (calculatePrice amount yesPool noPool position).newProbability
        = calculateProbability (calculatePrice amount yesPool noPool position).newYesPool
            (calculatePrice amount yesPool noPool position).newNoPool) ∧
    (∀ (s s1 : Store) (title description category : String) (created : CreatedContract),
      createContract s title description category = (s1, .created created) →
      ∃ c, getContract s1.market_contracts created.id = some c ∧
        c.yes_pool = 500 ∧ c.no_pool = 500 ∧
        c.current_yes_probability = calculateProbability c.yes_pool c.no_pool) ∧
    (∀ (s s2 : Store) (contractId userId : ℤ) (position : String) (amount : ℚ)
        (bet : PlacedBet),
      placeBetRoute s contractId userId position amount = (s2, .placed bet) →
      (∃ c, getContract s2.market_contracts contractId = some c) ∧
      ∀ c ∈ s2.market_contracts, c.id = contractId →
        c.current_yes_probability = calculateProbability c.yes_pool c.no_pool) ∧
    (∀ s : Store, PoolsConsistent s →
      (∀ (title description : String) (category : Option String) (closingDateValid : Bool),
        PoolsConsistent
          (createContractRoute s title description category closingDateValid).1) ∧
      (∀ (contractId userId : ℤ) (position : String) (amount : ℚ),
        PoolsConsistent (placeBetRoute s contractId userId position amount).1) ∧
      (∀ (contractId : ℤ) (resolution : String),
        PoolsConsistent (resolveContractRoute s contractId resolution).1)) ∧
    PoolsConsistent seedStore := by
  have h500 : calculateProbability 500 500 = 1 / 2 := by
    simp only [calculateProbability]; norm_num
  refine ⟨calculatePrice_newProbability_eq, ?_, ?_, ?_, ?_⟩
  · intro s s1 title description category created hcreate
    obtain ⟨-, -, hget⟩ := createContract_created s s1 title description category created hcreate
    exact ⟨_, hget, rfl, rfl, h500.symm⟩
  · intro s s2 contractId userId position amount bet hplaced
    obtain ⟨contract, hget, heq⟩ :=
      placeBet_placed_contracts s s2 contractId userId position amount bet
        (placeBetRoute_placed s s2 contractId userId position amount bet hplaced)
    constructor
    · rw [heq, getContract_map _
        (fun c => by by_cases hcid : c.id = contractId <;> simp [hcid]), hget]
      exact ⟨_, rfl⟩
    · intro c hc hid
      rw [heq] at hc
      obtain ⟨c0, -, rfl⟩ := List.mem_map.mp hc
      by_cases hid0 : c0.id = contractId
      · simp only [hid0, if_true]
        exact calculatePrice_newProbability_eq amount contract.yes_pool contract.no_pool
          position
      · simp only [hid0, if_false] at hid
  · intro s hs
    refine ⟨?_, ?_, ?_⟩
    · intro title description category closingDateValid
      unfold createContractRoute
      split_ifs
      · exact hs
      · unfold createContract
        by_cases ht : s.market_contracts.any
            (fun c => decide (c.title = title)) = true
        · simp only [ht, if_true]; exact hs
        · simp only [ht, if_false, Bool.false_eq_true]
          intro c hc
          rcases List.mem_append.mp hc with hmem | hmem
          · exact hs c hmem
          · rw [List.mem_singleton.mp hmem]
            exact h500.symm
    · intro contractId userId position amount
      rcases placeBetRoute_contracts s contractId userId position amount with
        heq | ⟨-, contract, -, heq⟩
      · intro c hc
        rw [heq] at hc
        exact hs c hc
      · intro c hc
        rw [heq] at hc
        exact poolsConsistent_quote s.market_contracts contractId amount contract.yes_pool
          contract.no_pool position hs c hc
    · intro contractId resolution
      unfold resolveContractRoute
      split_ifs
      · exact hs
      · exact hs
      · rcases resolveContract_contracts s contractId resolution with heq | heq
        · intro c hc
          rw [heq] at hc
          exact hs c hc
        · intro c hc
          rw [heq] at hc
          obtain ⟨c0, hc0, rfl⟩ := List.mem_map.mp hc
          by_cases hid : c0.id = contractId
          · simp only [hid, if_true]
            exact hs c0 hc0
          · simp only [hid, if_false]
            exact hs c0 hc0
  · intro c hc
    simp only [seedStore, List.mem_cons, List.mem_singleton, List.not_mem_nil, or_false] at hc
    rcases hc with rfl | rfl | rfl <;> exact h500.symm

/-! ### Binary64 rounding -/

/-- An integer within one half of `q` is the rounding of `q`. -/
theorem roundHalfEven_eq (q : ℚ) (n : ℤ) (h : |q - n| < 1 / 2) : roundHalfEven q = n := by
  have h1 := Int.floor_le q
  have h2 := Int.lt_floor_add_one q
  obtain ⟨h3, h4⟩ := abs_lt.mp h
  unfold roundHalfEven
  split_ifs with c1 c2 c3
  · have a1 : ((⌊q⌋ - n : ℤ) : ℚ) < 1 := by push_cast; linarith
    have a2 : (-1 : ℚ) < ((⌊q⌋ - n : ℤ) : ℚ) := by push_cast; linarith
    have b1 : ⌊q⌋ - n < 1 := by exact_mod_cast a1
    have b2 : -1 < ⌊q⌋ - n := by exact_mod_cast a2
    omega
  · have a1 : ((⌊q⌋ + 1 - n : ℤ) : ℚ) < 1 := by push_cast; linarith
    have a2 : (-1 : ℚ) < ((⌊q⌋ + 1 - n : ℤ) : ℚ) := by push_cast; linarith
    have b1 : ⌊q⌋ + 1 - n < 1 := by exact_mod_cast a1
    have b2 : -1 < ⌊q⌋ + 1 - n := by exact_mod_cast a2
    omega
  · exfalso
    have e : q - ⌊q⌋ = 1 / 2 := le_antisymm (not_lt.mp c2) (not_lt.mp c1)
    have a1 : ((2 * (n - ⌊q⌋) : ℤ) : ℚ) < 2 := by push_cast; linarith
    have a2 : (0 : ℚ) < ((2 * (n - ⌊q⌋) : ℤ) : ℚ) := by push_cast; linarith
    have b1 : 2 * (n - ⌊q⌋) < 2 := by exact_mod_cast a1
    have b2 : 0 < 2 * (n - ⌊q⌋) := by exact_mod_cast a2
    omega
  · exfalso
    have e : q - ⌊q⌋ = 1 / 2 := le_antisymm (not_lt.mp c2) (not_lt.mp c1)
    have a1 : ((2 * (n - ⌊q⌋) : ℤ) : ℚ) < 2 := by push_cast; linarith
    have a2 : (0 : ℚ) < ((2 * (n - ⌊q⌋) : ℤ) : ℚ) := by push_cast; linarith
    have b1 : 2 * (n - ⌊q⌋) < 2 := by exact_mod_cast a1
    have b2 : 0 < 2 * (n - ⌊q⌋) := by exact_mod_cast a2
    omega

/-- The spacing in the binade `2 ^ e ≤ m < 2 ^ (e + 1)` of the normal range. -/
theorem quantum_eq (m : ℚ) (e : ℤ) (h1 : (2 : ℚ) ^ e ≤ m) (h2 : m < (2 : ℚ) ^ (e + 1))
    (he : -1022 ≤ e) : quantum m = (2 : ℚ) ^ (e - 52) := by
  have hpos : (0 : ℚ) < m := lt_of_lt_of_le (zpow_pos (by norm_num) e) h1
  have hlog : Int.log 2 m = e := by
    apply le_antisymm
    · have := (Int.lt_zpow_iff_log_lt (by norm_num : 1 < 2) hpos).mp (by exact_mod_cast h2)
      omega
    · exact (Int.zpow_le_iff_le_log (by norm_num : 1 < 2) hpos).mp (by exact_mod_cast h1)
  unfold quantum
  rw [hlog, max_eq_left he]

/-- Rounding in the normal range: with `2 ^ e ≤ m < 2 ^ (e + 1)` and `n` the
integer within one half of `m / 2 ^ (e - 52)`, the rounding of `m` is
`n * 2 ^ (e - 52)`. -/
theorem roundMagnitude_eq (m : ℚ) (e n : ℤ) (h1 : (2 : ℚ) ^ e ≤ m) (h2 : m < (2 : ℚ) ^ (e + 1))
    (he : -1022 ≤ e) (hn : |m / (2 : ℚ) ^ (e - 52) - n| < 1 / 2)
    (hr : (n : ℚ) * (2 : ℚ) ^ (e - 52) < 2 ^ 1024) :
    roundMagnitude m = some ((n : ℚ) * (2 : ℚ) ^ (e - 52)) := by
  unfold roundMagnitude
  rw [quantum_eq m e h1 h2 he, roundHalfEven_eq _ n hn, if_pos hr]

/-- Underflow: a magnitude below half of the least subnormal rounds to zero. -/
theorem roundMagnitude_underflow (m : ℚ) (h0 : 0 < m) (h : m < (2 : ℚ) ^ (-1075 : ℤ)) :
    roundMagnitude m = some 0 := by
  have hlog : Int.log 2 m < -1022 := by
    apply (Int.lt_zpow_iff_log_lt (by norm_num : 1 < 2) h0).mp
    have h3 : (2 : ℚ) ^ (-1075 : ℤ) ≤ (2 : ℚ) ^ (-1022 : ℤ) :=
      zpow_le_zpow_right₀ (by norm_num) (by norm_num)
    exact_mod_cast lt_of_lt_of_le h h3
  have hq : quantum m = (2 : ℚ) ^ (-1074 : ℤ) := by
    unfold quantum
    rw [max_eq_right (le_of_lt hlog)]
    norm_num
  have hqpos : (0 : ℚ) < (2 : ℚ) ^ (-1074 : ℤ) := zpow_pos (by norm_num) _
  have hr : roundHalfEven (m / quantum m) = 0 := by
    apply roundHalfEven_eq
    rw [hq, Int.cast_zero, sub_zero, abs_of_pos (div_pos h0 hqpos), div_lt_iff₀ hqpos]
    have h4 : (1 / 2 : ℚ) * (2 : ℚ) ^ (-1074 : ℤ) = (2 : ℚ) ^ (-1075 : ℤ) := by
      rw [show (-1074 : ℤ) = -1075 + 1 from by norm_num, zpow_add₀ (by norm_num : (2 : ℚ) ≠ 0)]
      norm_num
    rw [h4]
    exact h
  unfold roundMagnitude
  rw [hr]
  simp

/-- The number `1e17` is a binary64 value. -/
theorem round_1e17 :
    roundMagnitude (100000000000000000) = some 100000000000000000 := by
  rw [roundMagnitude_eq (100000000000000000) (56) 6250000000000000
    (by norm_num) (by norm_num) (by norm_num) (by norm_num [abs_lt]) (by norm_num)]
  norm_num

/-- In binary64, `1e17 + 1` is `1e17`. -/
theorem round_1e17_add_1 :
    roundMagnitude (100000000000000000 + 1) = some 100000000000000000 := by
  rw [roundMagnitude_eq (100000000000000000 + 1) (56) 6250000000000000
    (by norm_num) (by norm_num) (by norm_num) (by norm_num [abs_lt]) (by norm_num)]
  norm_num

/-- In binary64, `1e17 + 2` is `1e17`. -/
theorem round_1e17_add_2 :
    roundMagnitude (100000000000000000 + 2) = some 100000000000000000 := by
  rw [roundMagnitude_eq (100000000000000000 + 2) (56) 6250000000000000
    (by norm_num) (by norm_num) (by norm_num) (by norm_num [abs_lt]) (by norm_num)]
  norm_num

/-- In binary64, `1e17 + 1e17` is `2e17`. -/
theorem round_1e17_add_1e17 :
    roundMagnitude (100000000000000000 + 100000000000000000) = some 200000000000000000 := by
  rw [roundMagnitude_eq (100000000000000000 + 100000000000000000) (57) 6250000000000000
    (by norm_num) (by norm_num) (by norm_num) (by norm_num [abs_lt]) (by norm_num)]
  norm_num

/-- In binary64, `2 * 1e17` is `2e17`. -/
theorem round_2_mul_1e17 :
    roundMagnitude (2 * 100000000000000000) = some 200000000000000000 := by
  rw [roundMagnitude_eq (2 * 100000000000000000) (57) 6250000000000000
    (by norm_num) (by norm_num) (by norm_num) (by norm_num [abs_lt]) (by norm_num)]
  norm_num

/-- In binary64, `1e17 / 1e17` is `1`. -/
theorem round_1e17_div_1e17 :
    roundMagnitude (100000000000000000 / 100000000000000000) = some 1 := by
  rw [roundMagnitude_eq (100000000000000000 / 100000000000000000) (0) 4503599627370496
    (by norm_num) (by norm_num) (by norm_num) (by norm_num [abs_lt]) (by norm_num)]
  norm_num

/-- In binary64, `1e17 / 2e17` is `0.5`. -/
theorem round_1e17_div_2e17 :
    roundMagnitude (100000000000000000 / 200000000000000000) = some (1 / 2) := by
  rw [roundMagnitude_eq (100000000000000000 / 200000000000000000) (-1) 4503599627370496
    (by norm_num) (by norm_num) (by norm_num) (by norm_num [abs_lt]) (by norm_num)]
  norm_num

/-- In binary64, `2e17 / 1e17` is `2`. -/
theorem round_2e17_div_1e17 :
    roundMagnitude (200000000000000000 / 100000000000000000) = some 2 := by
  rw [roundMagnitude_eq (200000000000000000 / 100000000000000000) (1) 4503599627370496
    (by norm_num) (by norm_num) (by norm_num) (by norm_num [abs_lt]) (by norm_num)]
  norm_num

/-- In binary64, `100 / 1` is `100`. -/
theorem round_100_div_1 :
    roundMagnitude (100 / 1) = some 100 := by
  rw [roundMagnitude_eq (100 / 1) (6) 7036874417766400
    (by norm_num) (by norm_num) (by norm_num) (by norm_num [abs_lt]) (by norm_num)]
  norm_num

/-- In binary64, `600 + 500` is `1100`. -/
theorem round_600_add_500 :
    roundMagnitude (600 + 500) = some 1100 := by
  rw [roundMagnitude_eq (600 + 500) (10) 4837851162214400
    (by norm_num) (by norm_num) (by norm_num) (by norm_num [abs_lt]) (by norm_num)]
  norm_num

/-- In binary64, `600 / 1100` is `0.5454545454545454`, the value `1228254443828317 / 2 ^ 51`. -/
theorem round_600_div_1100 :
    roundMagnitude (600 / 1100) = some (1228254443828317 / 2251799813685248) := by
  rw [roundMagnitude_eq (600 / 1100) (-1) 4913017775313268
    (by norm_num) (by norm_num) (by norm_num) (by norm_num [abs_lt]) (by norm_num)]
  norm_num

/-- In binary64, `1 - 0.5454545454545454` is `0.4545454545454546`, the value `1023545369856931 / 2 ^ 51`, without rounding. -/
theorem round_1_sub_p :
    roundMagnitude (1 - 1228254443828317 / 2251799813685248) = some (1023545369856931 / 2251799813685248) := by
  rw [roundMagnitude_eq (1 - 1228254443828317 / 2251799813685248) (-2) 8188362958855448
    (by norm_num) (by norm_num) (by norm_num) (by norm_num [abs_lt]) (by norm_num)]
  norm_num

/-- The number `2 - 2 ^ (-52)`, printed `1.9999999999999998`, is a binary64 value. -/
theorem round_a1 :
    roundMagnitude (9007199254740991 / 4503599627370496) = some (9007199254740991 / 4503599627370496) := by
  rw [roundMagnitude_eq (9007199254740991 / 4503599627370496) (0) 9007199254740991
    (by norm_num) (by norm_num) (by norm_num) (by norm_num [abs_lt]) (by norm_num)]
  norm_num

/-- In binary64, `1.9999999999999998 / 0.4545454545454546` is `4.3999999999999995`, the value `4953959590107545 / 2 ^ 50`. -/
theorem round_a1_div_q :
    roundMagnitude (9007199254740991 / 4503599627370496 / (1023545369856931 / 2251799813685248)) = some (4953959590107545 / 1125899906842624) := by
  rw [roundMagnitude_eq (9007199254740991 / 4503599627370496 / (1023545369856931 / 2251799813685248)) (2) 4953959590107545
    (by norm_num) (by norm_num) (by norm_num) (by norm_num [abs_lt]) (by norm_num)]
  norm_num

/-- In binary64, `2 / 0.4545454545454546` is `4.3999999999999995` as well. -/
theorem round_2_div_q :
    roundMagnitude (2 / (1023545369856931 / 2251799813685248)) = some (4953959590107545 / 1125899906842624) := by
  rw [roundMagnitude_eq (2 / (1023545369856931 / 2251799813685248)) (2) 4953959590107545
    (by norm_num) (by norm_num) (by norm_num) (by norm_num [abs_lt]) (by norm_num)]
  norm_num

/-- The number `2 ^ 55` is a binary64 value. -/
theorem round_2p55 :
    roundMagnitude (36028797018963968) = some 36028797018963968 := by
  rw [roundMagnitude_eq (36028797018963968) (55) 4503599627370496
    (by norm_num) (by norm_num) (by norm_num) (by norm_num [abs_lt]) (by norm_num)]
  norm_num

/-- In binary64, `3 + 3` is `6`. -/
theorem round_3_add_3 :
    roundMagnitude (3 + 3) = some 6 := by
  rw [roundMagnitude_eq (3 + 3) (2) 6755399441055744
    (by norm_num) (by norm_num) (by norm_num) (by norm_num [abs_lt]) (by norm_num)]
  norm_num

/-- In binary64, `6 + 2 ^ 55` is `2 ^ 55 + 8`. -/
theorem round_6_add_2p55 :
    roundMagnitude (6 + 36028797018963968) = some 36028797018963976 := by
  rw [roundMagnitude_eq (6 + 36028797018963968) (55) 4503599627370497
    (by norm_num) (by norm_num) (by norm_num) (by norm_num [abs_lt]) (by norm_num)]
  norm_num

/-- In binary64, `3 + 2 ^ 55` is `2 ^ 55`. -/
theorem round_3_add_2p55 :
    roundMagnitude (3 + 36028797018963968) = some 36028797018963968 := by
  rw [roundMagnitude_eq (3 + 36028797018963968) (55) 4503599627370496
    (by norm_num) (by norm_num) (by norm_num) (by norm_num [abs_lt]) (by norm_num)]
  norm_num

/-- In binary64, `2 ^ 55 + 3` is `2 ^ 55`. -/
theorem round_2p55_add_3 :
    roundMagnitude (36028797018963968 + 3) = some 36028797018963968 := by
  rw [roundMagnitude_eq (36028797018963968 + 3) (55) 4503599627370496
    (by norm_num) (by norm_num) (by norm_num) (by norm_num [abs_lt]) (by norm_num)]
  norm_num

/-- The number `5 + 2 ^ (-50)`, printed `5.000000000000001`, is a binary64 value. -/
theorem round_s :
    roundMagnitude (5629499534213121 / 1125899906842624) = some (5629499534213121 / 1125899906842624) := by
  rw [roundMagnitude_eq (5629499534213121 / 1125899906842624) (2) 5629499534213121
    (by norm_num) (by norm_num) (by norm_num) (by norm_num [abs_lt]) (by norm_num)]
  norm_num

/-- In binary64, `2 + 5.000000000000001` is `7.000000000000001`, the value `7 + 2 ^ (-50)`, without rounding. -/
theorem round_2_add_s :
    roundMagnitude (2 + 5629499534213121 / 1125899906842624) = some (7881299347898369 / 1125899906842624) := by
  rw [roundMagnitude_eq (2 + 5629499534213121 / 1125899906842624) (2) 7881299347898369
    (by norm_num) (by norm_num) (by norm_num) (by norm_num [abs_lt]) (by norm_num)]
  norm_num

/-- In binary64, `5.000000000000001 * 7.000000000000001` is `35.000000000000014`, the value `2462906046218241 / 2 ^ 46`. -/
theorem round_s_mul_t :
    roundMagnitude (5629499534213121 / 1125899906842624 * (7881299347898369 / 1125899906842624)) = some (2462906046218241 / 70368744177664) := by
  rw [roundMagnitude_eq (5629499534213121 / 1125899906842624 * (7881299347898369 / 1125899906842624)) (5) 4925812092436482
    (by norm_num) (by norm_num) (by norm_num) (by norm_num [abs_lt]) (by norm_num)]
  norm_num

/-- In binary64, `35.000000000000014 / 7.000000000000001` is `5.000000000000002`, the value `5 + 2 ^ (-49)`. -/
theorem round_prod_div_t :
    roundMagnitude (2462906046218241 / 70368744177664 / (7881299347898369 / 1125899906842624)) = some (2814749767106561 / 562949953421312) := by
  rw [roundMagnitude_eq (2462906046218241 / 70368744177664 / (7881299347898369 / 1125899906842624)) (2) 5629499534213122
    (by norm_num) (by norm_num) (by norm_num) (by norm_num [abs_lt]) (by norm_num)]
  norm_num

/-- The number `2 ^ (-1000)` is a binary64 value. -/
theorem round_tiny : roundMagnitude (1 / 2 ^ 1000) = some (1 / 2 ^ 1000) := by
  rw [roundMagnitude_eq (1 / 2 ^ 1000) (-1000) 4503599627370496
    (by norm_num) (by norm_num) (by norm_num) (by norm_num [abs_lt]) (by norm_num)]
  norm_num

/-- The number `2 ^ 100` is a binary64 value. -/
theorem round_huge : roundMagnitude (2 ^ 100) = some (2 ^ 100) := by
  rw [roundMagnitude_eq (2 ^ 100) 100 4503599627370496
    (by norm_num) (by norm_num) (by norm_num) (by norm_num [abs_lt]) (by norm_num)]
  norm_num

/-- In binary64, `2 ^ (-1000) + 2 ^ 100` is `2 ^ 100`. -/
theorem round_tiny_add_huge : roundMagnitude (1 / 2 ^ 1000 + 2 ^ 100) = some (2 ^ 100) := by
  rw [roundMagnitude_eq (1 / 2 ^ 1000 + 2 ^ 100) 100 4503599627370496
    (by norm_num) (by norm_num) (by norm_num) (by norm_num [abs_lt]) (by norm_num)]
  norm_num

/-- In binary64, `2 ^ (-1000) / 2 ^ 100` underflows to `0`. -/
theorem round_tiny_div_huge : roundMagnitude (1 / 2 ^ 1000 / 2 ^ 100) = some 0 :=
  roundMagnitude_underflow _ (by positivity) (by norm_num)

/-! ### Binary64 operations on non-negative finite numbers -/

/-- Sum of two non-negative finite numbers. -/
theorem jsAdd_eq (a b r : ℚ) (h : roundMagnitude (a + b) = some r) :
    jsAdd (jsPos a) (jsPos b) = jsPos r := by
  simp [jsAdd, jsPos, h]

/-- Product of two non-negative finite numbers. -/
theorem jsMul_eq (a b r : ℚ) (h : roundMagnitude (a * b) = some r) :
    jsMul (jsPos a) (jsPos b) = jsPos r := by
  simp [jsMul, jsPos, h]

/-- Quotient of two non-negative finite numbers, the divisor not zero. -/
theorem jsDiv_eq (a b r : ℚ) (hb : b ≠ 0) (h : roundMagnitude (a / b) = some r) :
    jsDiv (jsPos a) (jsPos b) = jsPos r := by
  simp [jsDiv, jsPos, hb, h]

/-- A positive finite number over zero is `Infinity`. -/
theorem jsDiv_zero (a : ℚ) (ha : a ≠ 0) : jsDiv (jsPos a) (jsPos 0) = jsInfinity := by
  simp [jsDiv, jsPos, jsInfinity, ha]

/-- Difference of two non-negative finite numbers, the larger first. -/
theorem jsSub_eq (a b r : ℚ) (hlt : b < a) (h : roundMagnitude (a - b) = some r) :
    jsSub (jsPos a) (jsPos b) = jsPos r := by
  have hne : a ≠ b := ne_of_gt hlt
  simp [jsSub, jsNeg, jsAdd, jsPos, hne, hlt, h]

/-- A finite number minus itself is `+0`. -/
theorem jsSub_self (a : ℚ) : jsSub (jsPos a) (jsPos a) = jsPos 0 := by
  simp [jsSub, jsNeg, jsAdd, jsPos]

/-- The test `x === y` on non-negative finite numbers. -/
theorem jsStrictEq_pos (a b : ℚ) : jsStrictEq (jsPos a) (jsPos b) = decide (a = b) := by
  simp [jsStrictEq, jsPos]

/-- The test `x < y` on non-negative finite numbers. -/
theorem jsLt_pos (a b : ℚ) : jsLt (jsPos a) (jsPos b) = decide (a < b) := by
  simp [jsLt, jsPos]

/-- The binary64 probability of non-negative finite pools: with `t` the
rounded sum, not zero, it is the rounded quotient `yesPool / t`. -/
theorem binary64_calculateProbability_eq (y n t p : ℚ)
    (ht : roundMagnitude (y + n) = some t) (h0 : t ≠ 0)
    (hp : roundMagnitude (y / t) = some p) :
    Binary64.calculateProbability (jsPos y) (jsPos n) = jsPos p := by
  unfold Binary64.calculateProbability
  rw [jsAdd_eq y n t ht, jsStrictEq_pos, if_neg (by simpa using h0), jsDiv_eq y t p h0 hp]

/-! ### The market maker in binary64 -/

/-- C26 fails as stated: in binary64 the pools `1e17` and `1` have probability
exactly `1`, so a `'no'` quote of amount 100 has price `1 - 1 = 0` and divides
by it: the shares are `Infinity`. -/
theorem pools_stay_positive_counterexample :
    roundMagnitude 100000000000000000 = some 100000000000000000 ∧
    jsLt (jsPos 0) (jsPos 100000000000000000) = true ∧
    jsLt (jsPos 0) (jsPos 1) = true ∧
    jsLt (jsPos 0) (jsPos 100) = true ∧
    (Binary64.calculatePrice (jsPos 100) (jsPos 100000000000000000) (jsPos 1) "no").price
      = jsPos 0 ∧
    (Binary64.calculatePrice (jsPos 100) (jsPos 100000000000000000) (jsPos 1) "no").shares
      = jsInfinity := by
  have hp := binary64_calculateProbability_eq 100000000000000000 1 100000000000000000 1
    round_1e17_add_1 (by norm_num) round_1e17_div_1e17
  have hny : ¬ ("no" : String) = "yes" := by decide
  refine ⟨round_1e17, ?_, ?_, ?_, ?_, ?_⟩
  · rw [jsLt_pos]; norm_num
  · rw [jsLt_pos]; norm_num
  · rw [jsLt_pos]; norm_num
  · simp only [Binary64.calculatePrice, hp, if_neg hny, jsSub_self]
  · simp only [Binary64.calculatePrice, hp, if_neg hny, jsSub_self]
    exact jsDiv_zero 100 (by norm_num)

/-- C27 fails as stated: in binary64 the pools `1e17` and `1` have probability
exactly `1`, so a `'yes'` quote of amount 100 returns `100 / 1 = 100` shares,
not more than the amount, and the winning payout is the stake. -/
theorem calculatePrice_shares_gt_amount_counterexample :
    roundMagnitude 100000000000000000 = some 100000000000000000 ∧
    (Binary64.calculatePrice (jsPos 100) (jsPos 100000000000000000) (jsPos 1) "yes").shares
      = jsPos 100 ∧
    jsLt (jsPos 100)
      (Binary64.calculatePrice (jsPos 100) (jsPos 100000000000000000) (jsPos 1) "yes").shares
      = false ∧
    Binary64.calculateActualPayout
      (Binary64.calculatePrice (jsPos 100) (jsPos 100000000000000000) (jsPos 1) "yes").shares
      (jsAdd (jsPos 100000000000000000) (jsPos 1)) "yes" "yes" = jsPos 100 := by
  have hp := binary64_calculateProbability_eq 100000000000000000 1 100000000000000000 1
    round_1e17_add_1 (by norm_num) round_1e17_div_1e17
  have hs : (Binary64.calculatePrice (jsPos 100) (jsPos 100000000000000000) (jsPos 1)
      "yes").shares = jsPos 100 := by
    simp only [Binary64.calculatePrice, hp, if_true]
    exact jsDiv_eq 100 1 100 (by norm_num) round_100_div_1
  refine ⟨round_1e17, hs, ?_, ?_⟩
  · rw [hs, jsLt_pos]; norm_num
  · rw [hs]; simp [Binary64.calculateActualPayout]

/-- C19 fails as stated: in binary64 the positive pools `1e17` and `1` have
probability exactly `1`, since `1e17 + 1` rounds to `1e17`; and the positive
pools `2 ^ (-1000)` and `2 ^ 100` have probability exactly `0`, since the
quotient `2 ^ (-1100)` underflows. -/
theorem calculateProbability_range_counterexample :
    roundMagnitude 100000000000000000 = some 100000000000000000 ∧
    Binary64.calculateProbability (jsPos 100000000000000000) (jsPos 1) = jsPos 1 ∧
    jsLt (Binary64.calculateProbability (jsPos 100000000000000000) (jsPos 1)) (jsPos 1)
      = false ∧
    roundMagnitude (1 / 2 ^ 1000) = some (1 / 2 ^ 1000) ∧
    roundMagnitude (2 ^ 100) = some (2 ^ 100) ∧
    jsLt (jsPos 0) (jsPos (1 / 2 ^ 1000)) = true ∧
    Binary64.calculateProbability (jsPos (1 / 2 ^ 1000)) (jsPos (2 ^ 100)) = jsPos 0 ∧
    jsLt (jsPos 0) (Binary64.calculateProbability (jsPos (1 / 2 ^ 1000)) (jsPos (2 ^ 100)))
      = false := by
  have hp := binary64_calculateProbability_eq 100000000000000000 1 100000000000000000 1
    round_1e17_add_1 (by norm_num) round_1e17_div_1e17
  have hq := binary64_calculateProbability_eq (1 / 2 ^ 1000) (2 ^ 100) (2 ^ 100) 0
    round_tiny_add_huge (by norm_num) round_tiny_div_huge
  refine ⟨round_1e17, hp, ?_, round_tiny, round_huge, ?_, hq, ?_⟩
  · rw [hp, jsLt_pos]; norm_num
  · rw [jsLt_pos]; norm_num
  · rw [hq, jsLt_pos]; norm_num

/-- C20 fails as stated: in binary64, on the pools 600 and 500 the amounts
`1.9999999999999998 < 2` buy the same number of `'no'` shares,
`4.3999999999999995`. -/
theorem calculatePrice_shares_strictMono_counterexample :
    roundMagnitude (9007199254740991 / 4503599627370496)
      = some (9007199254740991 / 4503599627370496) ∧
    jsLt (jsPos (9007199254740991 / 4503599627370496)) (jsPos 2) = true ∧
    (Binary64.calculatePrice (jsPos (9007199254740991 / 4503599627370496))
      (jsPos 600) (jsPos 500) "no").shares = jsPos (4953959590107545 / 1125899906842624) ∧
    (Binary64.calculatePrice (jsPos 2) (jsPos 600) (jsPos 500) "no").shares
      = jsPos (4953959590107545 / 1125899906842624) ∧
    jsLt
      (Binary64.calculatePrice (jsPos (9007199254740991 / 4503599627370496))
        (jsPos 600) (jsPos 500) "no").shares
      (Binary64.calculatePrice (jsPos 2) (jsPos 600) (jsPos 500) "no").shares = false := by
  have hp := binary64_calculateProbability_eq 600 500 1100 _
    round_600_add_500 (by norm_num) round_600_div_1100
  have hny : ¬ ("no" : String) = "yes" := by decide
  have hq := jsSub_eq 1 (1228254443828317 / 2251799813685248) _ (by norm_num) round_1_sub_p
  have h1 : (Binary64.calculatePrice (jsPos (9007199254740991 / 4503599627370496))
      (jsPos 600) (jsPos 500) "no").shares
      = jsPos (4953959590107545 / 1125899906842624) := by
    simp only [Binary64.calculatePrice, hp, if_neg hny, hq]
    exact jsDiv_eq _ _ _ (by norm_num) round_a1_div_q
  have h2 : (Binary64.calculatePrice (jsPos 2) (jsPos 600) (jsPos 500) "no").shares
      = jsPos (4953959590107545 / 1125899906842624) := by
    simp only [Binary64.calculatePrice, hp, if_neg hny, hq]
    exact jsDiv_eq _ _ _ (by norm_num) round_2_div_q
  refine ⟨round_a1, ?_, h1, h2, ?_⟩
  · rw [jsLt_pos]; norm_num
  · rw [h1, h2, jsLt_pos]; norm_num

/-- C21 fails as stated: in binary64, on the pools `1e17` and `1e17` a `'yes'`
purchase of amount 1 leaves the probability at `0.5`, since `1e17 + 1` rounds
to `1e17`; and on the pools 3 and `2 ^ 55` a `'yes'` purchase of amount 3
returns pools whose sum is `2 ^ 55 + 8`, while `yesPool + noPool + amount` is
`2 ^ 55`. -/
theorem calculatePrice_newProbability_counterexample :
    roundMagnitude 100000000000000000 = some 100000000000000000 ∧
    Binary64.calculateProbability (jsPos 100000000000000000) (jsPos 100000000000000000)
      = jsPos (1 / 2) ∧
    (Binary64.calculatePrice (jsPos 1) (jsPos 100000000000000000) (jsPos 100000000000000000)
      "yes").newProbability = jsPos (1 / 2) ∧
    jsLt (Binary64.calculateProbability (jsPos 100000000000000000) (jsPos 100000000000000000))
      (Binary64.calculatePrice (jsPos 1) (jsPos 100000000000000000)
        (jsPos 100000000000000000) "yes").newProbability = false ∧
    roundMagnitude 36028797018963968 = some 36028797018963968 ∧
    jsAdd (Binary64.calculatePrice (jsPos 3) (jsPos 3) (jsPos 36028797018963968) "yes").newYesPool
      (Binary64.calculatePrice (jsPos 3) (jsPos 3) (jsPos 36028797018963968) "yes").newNoPool
      = jsPos 36028797018963976 ∧
    jsAdd (jsAdd (jsPos 3) (jsPos 36028797018963968)) (jsPos 3) = jsPos 36028797018963968 := by
  have hp0 := binary64_calculateProbability_eq 100000000000000000 100000000000000000 _ _
    round_1e17_add_1e17 (by norm_num) round_1e17_div_2e17
  have hy := jsAdd_eq 100000000000000000 1 _ round_1e17_add_1
  have hn : (Binary64.calculatePrice (jsPos 1) (jsPos 100000000000000000)
      (jsPos 100000000000000000) "yes").newProbability = jsPos (1 / 2) := by
    simp only [Binary64.calculatePrice, if_true, hy, hp0]
  refine ⟨round_1e17, hp0, hn, ?_, round_2p55, ?_, ?_⟩
  · rw [hp0, hn, jsLt_pos]; norm_num
  · simp only [Binary64.calculatePrice, if_true]
    rw [jsAdd_eq 3 3 6 round_3_add_3]
    exact jsAdd_eq _ _ _ round_6_add_2p55
  · rw [jsAdd_eq 3 36028797018963968 _ round_3_add_2p55]
    exact jsAdd_eq _ _ _ round_2p55_add_3

/-- C24 fails as stated: in binary64, 2 `'yes'` shares on the pools `1e17` and
`1` have potential payout `2e17 / 1e17 = 2`, the actual payout, although
`noPool = 1` is not the number of shares; and `5.000000000000001` `'yes'`
shares on the pools 2 and `5.000000000000001` have potential payout
`5.000000000000002`, not the actual payout, although `noPool` is the number of
shares. -/
theorem potential_eq_actual_iff_counterexample :
    roundMagnitude 100000000000000000 = some 100000000000000000 ∧
    Binary64.calculatePotentialPayout (jsPos 2) (jsPos 100000000000000000) (jsPos 1) "yes"
      = jsPos 2 ∧
    Binary64.calculateActualPayout (jsPos 2)
      (jsAdd (jsPos 100000000000000000) (jsPos 1)) "yes" "yes" = jsPos 2 ∧
    jsStrictEq (jsPos 1) (jsPos 2) = false ∧
    roundMagnitude (5629499534213121 / 1125899906842624)
      = some (5629499534213121 / 1125899906842624) ∧
    Binary64.calculatePotentialPayout (jsPos (5629499534213121 / 1125899906842624))
      (jsPos 2) (jsPos (5629499534213121 / 1125899906842624)) "yes"
      = jsPos (2814749767106561 / 562949953421312) ∧
    Binary64.calculateActualPayout (jsPos (5629499534213121 / 1125899906842624))
      (jsAdd (jsPos 2) (jsPos (5629499534213121 / 1125899906842624))) "yes" "yes"
      = jsPos (5629499534213121 / 1125899906842624) ∧
    jsStrictEq (jsPos (2814749767106561 / 562949953421312))
      (jsPos (5629499534213121 / 1125899906842624)) = false := by
  refine ⟨round_1e17, ?_, ?_, ?_, round_s, ?_, ?_, ?_⟩
  · unfold Binary64.calculatePotentialPayout
    simp only [if_true]
    rw [jsAdd_eq _ _ _ round_1e17_add_1, jsAdd_eq _ _ _ round_1e17_add_2, jsStrictEq_pos,
      jsMul_eq _ _ _ round_2_mul_1e17]
    rw [if_neg (by norm_num)]
    exact jsDiv_eq _ _ _ (by norm_num) round_2e17_div_1e17
  · simp [Binary64.calculateActualPayout]
  · rw [jsStrictEq_pos]; norm_num
  · unfold Binary64.calculatePotentialPayout
    simp only [if_true]
    rw [jsAdd_eq _ _ _ round_2_add_s, jsStrictEq_pos, jsMul_eq _ _ _ round_s_mul_t]
    rw [if_neg (by norm_num)]
    exact jsDiv_eq _ _ _ (by norm_num) round_prod_div_t
  · simp [Binary64.calculateActualPayout]
  · rw [jsStrictEq_pos]; norm_num

end FantasyHandicapper
